import Mathlib

/-!
# updatey: image-tag resolution pipeline

A shallow embedding of the Go packages `pkg/client/docker` (image splitting, registry
URL), `pkg/k8s` (secret lookup, credential decoding, patch computation), `pkg/version`
(choice of a tag) and `pkg/admission` (the webhook handler), and the properties of the
patches they produce.

Conventions of the embedding

* Go `string` is `String`; a Go `error` value is `Option Err`, `none` being `nil`
  and `some msg` an error with text `msg`.
* A nil slice and an empty slice are both the empty list.
* The three interface-typed collaborators of `Wrapper` are fields of a record.
  The registry client and the secret lookup talk to the outside world, so they
  take and return a world state `σ`; the resolver is a function of its arguments.
* Functions of imported libraries (`encoding/json`, `encoding/base64`,
  `docker/distribution/reference`) are fields of the record `Lib`; those of the
  semantic-version library and `sort.Sort` are fields of the record `SemverLib`.
  The namespace `semver` holds a model of the latter, used where a statement is
  about particular constraints and tags. The JSON functions of the handler are
  fields of the record `Codec`.
* A nil pointer dereference is an outcome of its own (`Outcome.panic`).
* Every call of a collaborator and every `glog.Error` is recorded, in program
  order, in a log returned next to the result.
-/

namespace Updatey

/-! ## Strings -/

/-- An error value is represented by its message. -/
abbrev Err := String

/-- Pieces of a character list between the occurrences of `sep`, as `strings.Split`
cuts a string at a one-character separator: `n` separators give `n + 1` pieces. -/
def splitChars (sep : Char) : List Char → List (List Char)
  | [] => [[]]
  | c :: cs =>
    if c = sep then [] :: splitChars sep cs
    else
      match splitChars sep cs with
      | [] => [[c]]
      | p :: ps => (c :: p) :: ps

/-- Go `strings.Split(s, sep)` for a separator of one character. -/
def stringsSplit (s : String) (sep : Char) : List String :=
  (splitChars sep s.toList).map String.mk

/-! ## pkg/client/docker -/

namespace docker

/-- Credentials handed to the registry client (`docker.Auth`; the transport field
plays no part in the computation of patches). -/
structure Auth where
  Username : String
  Password : String
deriving DecidableEq, Repr

/-- `Split` of docker.go: cuts `image` at `:` into base and tag. -/
def Split (image : String) : String × String × Option Err :=
  if image = "" then ("", "", some "image can't be empty")
  else
    match stringsSplit image ':' with
    | [base, tag] => (base, tag, none)
    | _ => ("", "", some "invalid image format")

end docker

/-! ## Kubernetes objects (the fields the program reads) -/

/-- A `corev1.Secret`: `Data` maps a key to its bytes (first binding of a key wins). -/
structure Secret where
  Data : List (String × String)
deriving DecidableEq, Repr

structure LocalObjectReference where
  Name : String
deriving DecidableEq, Repr

structure Container where
  Image : String
deriving DecidableEq, Repr

structure PodSpec where
  InitContainers : List Container
  Containers : List Container
  ImagePullSecrets : List LocalObjectReference
deriving DecidableEq, Repr

/-- A `corev1.Pod`: `metadata.namespace` and `spec`. -/
structure Pod where
  Namespace : String
  Spec : PodSpec
deriving DecidableEq, Repr

/-- The `template` level of a workload: `{ spec: PodSpec }`. -/
structure PodTemplateSpec where
  Spec : PodSpec
deriving DecidableEq, Repr

/-- The `spec` level of `templateKind`: `{ template: { spec } }`. -/
structure templateKindSpec where
  Template : PodTemplateSpec
deriving DecidableEq, Repr

/-- The decoding shape `templateKind` of patches.go. -/
structure templateKind where
  Namespace : String
  Spec : templateKindSpec
deriving DecidableEq, Repr

structure JobSpec where
  Template : PodTemplateSpec
deriving DecidableEq, Repr

structure JobTemplateSpec where
  Spec : JobSpec
deriving DecidableEq, Repr

structure CronJobSpec where
  JobTemplate : JobTemplateSpec
deriving DecidableEq, Repr

/-- A `batchv1beta1.CronJob`. -/
structure CronJob where
  Namespace : String
  Spec : CronJobSpec
deriving DecidableEq, Repr

structure GroupVersionKind where
  Kind : String
deriving DecidableEq, Repr

structure RawExtension where
  Raw : String
deriving DecidableEq, Repr

/-- A `v1beta1.AdmissionRequest`. -/
structure AdmissionRequest where
  UID : String
  Kind : GroupVersionKind
  Object : RawExtension
deriving DecidableEq, Repr

/-! ## pkg/k8s: secrets -/

/-- One entry of a registry configuration. -/
structure registryAuth where
  Username : String
  Password : String
  Auth : String
deriving DecidableEq, Repr

/-- The type `registryConfig` of secret.go: registry domain to entry. -/
abbrev registryConfig := List (String × registryAuth)

/-- The type `registryConfigs` of secret.go. -/
structure registryConfigs where
  Auths : registryConfig
deriving DecidableEq, Repr

/-- A parsed `reference.Named`. -/
structure Named where
  domain : String
  path : String
deriving DecidableEq, Repr

/-- Library functions the program calls. -/
structure Lib where
  /-- `json.Unmarshal` into a `corev1.Pod`. -/
  unmarshalPod : String → Except Err Pod
  /-- `json.Unmarshal` into a `templateKind`. -/
  unmarshalTemplateKind : String → Except Err templateKind
  /-- `json.Unmarshal` into a `batchv1beta1.CronJob`. -/
  unmarshalCronJob : String → Except Err CronJob
  /-- `json.Unmarshal` into a `registryConfigs`. -/
  unmarshalRegistryConfigs : String → Except Err registryConfigs
  /-- `json.Unmarshal` into a `registryConfig`. -/
  unmarshalRegistryConfig : String → Except Err registryConfig
  /-- `reference.ParseNormalizedNamed`. -/
  ParseNormalizedNamed : String → Except Err Named
  /-- `base64.StdEncoding.DecodeString`, the bytes read as a string. -/
  DecodeString : String → Except Err String

/-- `corev1.DockerConfigJsonKey`. -/
def DockerConfigJsonKey : String := ".dockerconfigjson"

/-- `corev1.DockerConfigKey`. -/
def DockerConfigKey : String := ".dockercfg"

/-- `ExtractFromDockerSecret` of secret.go: user name and password for the registry of
`image`, read from `secret`. -/
def ExtractFromDockerSecret (lib : Lib) (secret : Secret) (image : String) :
    String × String × Option Err :=
  let decoded : Except Err registryConfigs :=
    match secret.Data.lookup DockerConfigJsonKey with
    | none =>
      match secret.Data.lookup DockerConfigKey with
      | none => .error "no docker config found in secret"
      | some config =>
        match lib.unmarshalRegistryConfig config with
        | .error err => .error err
        | .ok registryConfig => .ok ⟨registryConfig⟩
    | some config => lib.unmarshalRegistryConfigs config
  match decoded with
  | .error err => ("", "", some err)
  | .ok registryConfigs =>
    match docker.Split image with
    | (_, _, some err) => ("", "", some err)
    | (base, _, none) =>
      match lib.ParseNormalizedNamed base with
      | .error err => ("", "", some err)
      | .ok imageName =>
        let registryDomain := imageName.domain
        match registryConfigs.Auths.lookup registryDomain with
        | none => ("", "", some ("registry domain: " ++ registryDomain ++ " does not exist"))
        | some registryConfig =>
          match lib.DecodeString registryConfig.Auth with
          | .error err => ("", "", some err)
          | .ok b =>
            match stringsSplit b ':' with
            | [username, password] => (username, password, none)
            | _ => ("", "", some "auth field should equal basic auth syntax")

/-- Failure of a secret lookup; `IsNotFound` is what `apierrors.IsNotFound` answers. -/
structure LookupError where
  IsNotFound : Bool
  msg : Err
deriving DecidableEq, Repr

/-- Answer of `SecretInterface.Get`: a secret, or an error. A lookup that reports no
error is taken to deliver a secret. -/
inductive GetResult where
  | found (secret : Secret)
  | failed (err : LookupError)
deriving DecidableEq, Repr

/-- What the program does to the outside, with what came back. -/
inductive Event where
  /-- `secretRetriever.Get(namespace, name)`. -/
  | Get (ns name : String) (result : GetResult)
  /-- `dockerClient.Tags(auth, repository)` returning `(tags, err)`. -/
  | Tags (auth : Option docker.Auth) (repository : String) (tags : List String)
      (err : Option Err)
  /-- `resolver.Resolve(constraint, tags)`. -/
  | Resolve (constraint : String) (tags : List String)
  /-- `glog.Error(err)`. -/
  | glogError (err : Err)
deriving DecidableEq, Repr

/-- The type `Wrapper` of wrapper.go, over world states `σ`. -/
structure Wrapper (σ : Type) where
  secretRetriever : String → String → σ → GetResult × σ
  resolver : String → List String → String
  dockerClient : Option docker.Auth → String → σ → (List String × Option Err) × σ

/-- Outcome of `GetImagePullSecrets`. -/
structure SecretsResult (σ : Type) where
  secrets : List Secret
  err : Option Err
  state : σ
  log : List Event

/-- The loop of `GetImagePullSecrets`; `secrets` is the slice built so far. -/
def pullSecretLoop {σ : Type} (w : Wrapper σ) (ns : String) :
    List LocalObjectReference → List Secret → σ → SecretsResult σ
  | [], secrets, s => ⟨secrets, none, s, []⟩
  | pullSecret :: rest, secrets, s =>
    let got := w.secretRetriever ns pullSecret.Name s
    let ev := Event.Get ns pullSecret.Name got.1
    match got.1 with
    | .failed err =>
      if err.IsNotFound then
        let r := pullSecretLoop w ns rest secrets got.2
        ⟨r.secrets, r.err, r.state, ev :: r.log⟩
      else
        let r := pullSecretLoop w ns rest secrets got.2
        ⟨r.secrets, r.err, r.state, ev :: Event.glogError err.msg :: r.log⟩
    | .found secret =>
      let r := pullSecretLoop w ns rest (secrets ++ [secret]) got.2
      ⟨r.secrets, r.err, r.state, ev :: r.log⟩

/-- `GetImagePullSecrets` of secret.go. -/
def GetImagePullSecrets {σ : Type} (w : Wrapper σ)
    (imagePullSecrets : List LocalObjectReference) (ns : String) (s : σ) :
    SecretsResult σ :=
  let ns := if ns = "" then "default" else ns
  pullSecretLoop w ns imagePullSecrets [] s

/-! ## pkg/k8s: patches -/

def podSpecPath : String := "/spec"

def templateSpecPath : String := "/spec/template/spec"

def cronJobSpecPath : String := "/spec/jobTemplate/spec/template/spec"

/-- The type `JSONPatch` of patches.go; `Value` always holds a string here. -/
structure JSONPatch where
  From : String
  Op : String
  Path : String
  Value : String
deriving DecidableEq, Repr

/-- A log line: the event, the container class whose pass issued it and, inside the
container loop, the index of the container being processed. -/
structure Entry where
  containerType : String
  containerIndex : Option Nat
  event : Event
deriving DecidableEq, Repr

/-- Outcome of `processPodSpec` and `GetPatches`. -/
structure Result (σ : Type) where
  patches : List JSONPatch
  err : Option Err
  state : σ
  log : List Entry

/-- The loop labelled `secretLoop`: `tags` is the current value of the variable of that
name; the result is its value when the loop is left. -/
def secretLoop {σ : Type} (lib : Lib) (w : Wrapper σ) (image repository : String) :
    List Secret → List String → σ → List String × σ × List Event
  | [], tags, s => (tags, s, [])
  | secret :: rest, tags, s =>
    match ExtractFromDockerSecret lib secret image with
    | (_, _, some err) =>
      let r := secretLoop lib w image repository rest tags s
      (r.1, r.2.1, Event.glogError err :: r.2.2)
    | (username, password, none) =>
      let auth : docker.Auth := ⟨username, password⟩
      let got := w.dockerClient (some auth) repository s
      let ev := Event.Tags (some auth) repository got.1.1 got.1.2
      match got.1.2 with
      | some err =>
        let r := secretLoop lib w image repository rest got.1.1 got.2
        (r.1, r.2.1, ev :: Event.glogError err :: r.2.2)
      | none => (got.1.1, got.2, [ev])

/-- The patch appended for a container: `fmt.Sprintf` with `%s/%s/%v/image` for the
path and `%s:%s` for the value. -/
def mkPatch (specPath containerType : String) (containerIndex : Nat)
    (repository newImageVersion : String) : JSONPatch where
  From := ""
  Op := "replace"
  Path := specPath ++ "/" ++ containerType ++ "/" ++ toString containerIndex ++ "/image"
  Value := repository ++ ":" ++ newImageVersion

/-- The loop labelled `containerLoop`, from index `containerIndex` on; `patches` is the
slice built so far. -/
def containerLoop {σ : Type} (lib : Lib) (w : Wrapper σ) (specPath containerType : String)
    (secrets : List Secret) :
    Nat → List Container → List JSONPatch → σ → List JSONPatch × σ × List Entry
  | _, [], patches, s => (patches, s, [])
  | containerIndex, container :: rest, patches, s =>
    let here (e : Event) : Entry := ⟨containerType, some containerIndex, e⟩
    match docker.Split container.Image with
    | (_, _, some err) =>
      let r := containerLoop lib w specPath containerType secrets (containerIndex + 1) rest
        patches s
      (r.1, r.2.1, here (Event.glogError err) :: r.2.2)
    | (repository, tag, none) =>
      let got := w.dockerClient none repository s
      let ev := Event.Tags none repository got.1.1 got.1.2
      let fallback : List String × σ × List Event :=
        match got.1.2 with
        | some _ => secretLoop lib w container.Image repository secrets got.1.1 got.2
        | none => (got.1.1, got.2, [])
      let tags := fallback.1
      let newImageVersion := w.resolver tag tags
      let r := containerLoop lib w specPath containerType secrets (containerIndex + 1) rest
        (patches ++ [mkPatch specPath containerType containerIndex repository newImageVersion])
        fallback.2.1
      (r.1, r.2.1,
        here ev :: (fallback.2.2.map here ++ here (Event.Resolve tag tags) :: r.2.2))

/-- The outer loop of `processPodSpec` over the container classes still to visit. -/
def classLoop {σ : Type} (lib : Lib) (w : Wrapper σ) (podSpec : PodSpec)
    (specPath ns : String) : List String → List JSONPatch → σ → Result σ
  | [], patches, s => ⟨patches, none, s, []⟩
  | containerType :: rest, patches, s =>
    let containers : List Container :=
      if containerType = "initContainers" then podSpec.InitContainers
      else if containerType = "containers" then podSpec.Containers
      else []
    let got := GetImagePullSecrets w podSpec.ImagePullSecrets ns s
    let lookups : List Entry := got.log.map (fun e => ⟨containerType, none, e⟩)
    match got.err with
    | some err => ⟨patches, some err, got.state, lookups⟩
    | none =>
      let c := containerLoop lib w specPath containerType got.secrets 0 containers patches
        got.state
      let r := classLoop lib w podSpec specPath ns rest c.1 c.2.1
      ⟨r.patches, r.err, r.state, lookups ++ (c.2.2 ++ r.log)⟩

/-- `processPodSpec` of patches.go. -/
def processPodSpec {σ : Type} (lib : Lib) (w : Wrapper σ) (podSpec : PodSpec)
    (specPath ns : String) (s : σ) : Result σ :=
  classLoop lib w podSpec specPath ns ["initContainers", "containers"] [] s

/-- The kinds decoded as `templateKind`. -/
def templateKinds : List String :=
  ["ReplicationController", "Job", "ReplicaSet", "Deployment", "StatefulSet", "DaemonSet"]

/-- `GetPatches` of patches.go. -/
def GetPatches {σ : Type} (lib : Lib) (w : Wrapper σ) (ar : AdmissionRequest) (s : σ) :
    Result σ :=
  if ar.Kind.Kind = "Pod" then
    match lib.unmarshalPod ar.Object.Raw with
    | .error err => ⟨[], some err, s, []⟩
    | .ok pod => processPodSpec lib w pod.Spec podSpecPath pod.Namespace s
  else if ar.Kind.Kind ∈ templateKinds then
    match lib.unmarshalTemplateKind ar.Object.Raw with
    | .error err => ⟨[], some err, s, []⟩
    | .ok templateKind =>
      processPodSpec lib w templateKind.Spec.Template.Spec templateSpecPath
        templateKind.Namespace s
  else if ar.Kind.Kind = "CronJob" then
    match lib.unmarshalCronJob ar.Object.Raw with
    | .error err => ⟨[], some err, s, []⟩
    | .ok cronJob =>
      processPodSpec lib w cronJob.Spec.JobTemplate.Spec.Template.Spec cronJobSpecPath
        cronJob.Namespace s
  else ⟨[], none, s, []⟩

/-! ## pkg/client/docker: the registry URL -/

/-- A `url.URL`, as far as `getRegistryURL` is concerned. -/
structure URL where
  Scheme : String
  Host : String
  Path : String
deriving DecidableEq, Repr

namespace docker

/-- `getRegistryURL` of docker.go; `urlParse` is `url.Parse`. -/
def getRegistryURL (urlParse : String → Except Err URL) (ref : Named) : Except Err URL :=
  if ref.domain ≠ "" then
    let domain := if ref.domain = "docker.io" then "registry-1." ++ ref.domain else ref.domain
    match urlParse domain with
    | .error err => .error err
    | .ok u => .ok { u with Scheme := "https" }
  else .error "missing domain from image name"

end docker

/-! ## pkg/admission -/

/-- A `metav1.Status`, of which the handler sets the message. -/
structure Status where
  Message : String
deriving DecidableEq, Repr

/-- A `v1beta1.AdmissionResponse`; an absent patch is the empty string. -/
structure AdmissionResponse where
  UID : String
  Allowed : Bool
  Result : Option Status
  Patch : String
  PatchType : Option String
deriving DecidableEq, Repr

/-- A `v1beta1.AdmissionReview`: request and response are pointers, `none` being nil. -/
structure AdmissionReview where
  Request : Option AdmissionRequest
  Response : Option AdmissionResponse
deriving DecidableEq, Repr

/-- The `http.Request` as the handler reads it: `URL.Path` and the body. -/
structure HTTPRequest where
  Path : String
  Body : String
deriving DecidableEq, Repr

/-- The JSON functions the handler calls. -/
structure Codec where
  /-- `json.NewDecoder(req.Body).Decode` into an `AdmissionReview`. -/
  decodeReview : String → Except Err AdmissionReview
  /-- `json.Marshal` of an `AdmissionReview`. -/
  marshalReview : AdmissionReview → Except Err String
  /-- `json.Marshal` of the patches. -/
  marshalPatches : List JSONPatch → Except Err String

/-- `v1beta1.PatchTypeJSONPatch`. -/
def PatchTypeJSONPatch : String := "JSONPatch"

/-- What a call of the handler ends in: status and body written to the
`http.ResponseWriter` (status 200 when only a body is written), with the state and the
log of the collaborators, or a run-time panic. -/
inductive Outcome (σ : Type) where
  | wrote (status : Nat) (body : String) (state : σ) (log : List Entry)
  | panic (reason : String)

/-- `GetPatches` called with the pointer `ar`, as the handler calls it: reading
`ar.Kind` of a nil request is a nil pointer dereference, `none` here. -/
def GetPatchesAt {σ : Type} (lib : Lib) (w : Wrapper σ) (ar : Option AdmissionRequest)
    (s : σ) : Option (Result σ) :=
  match ar with
  | none => none
  | some request => some (GetPatches lib w request s)

/-- `AdmitHandler` of handler.go, with a `Wrapper` as client. -/
def AdmitHandler {σ : Type} (lib : Lib) (codec : Codec) (w : Wrapper σ) (req : HTTPRequest)
    (s : σ) : Outcome σ :=
  if req.Path = "/healthz" then .wrote 200 "" s []
  else
    match codec.decodeReview req.Body with
    | .error _ => .wrote 400 "unable to decode body" s []
    | .ok ar =>
      match GetPatchesAt lib w ar.Request s with
      | none => .panic "invalid memory address or nil pointer dereference"
      | some got =>
        match got.err with
        | some err =>
          match ar.Request with
          | none => .panic "invalid memory address or nil pointer dereference"
          | some request =>
            let ar : AdmissionReview :=
              { ar with Response := some ⟨request.UID, false, some ⟨err⟩, "", none⟩ }
            match codec.marshalReview ar with
            | .error _ => .wrote 400 "unable to encode response" got.state got.log
            | .ok resp => .wrote 200 resp got.state got.log
        | none =>
          match codec.marshalPatches got.patches with
          | .error _ => .wrote 400 "unable to encode patches" got.state got.log
          | .ok jsonPatch =>
            match ar.Request with
            | none => .panic "invalid memory address or nil pointer dereference"
            | some request =>
              let ar : AdmissionReview :=
                { ar with
                  Response := some ⟨request.UID, true, none, jsonPatch, some PatchTypeJSONPatch⟩ }
              match codec.marshalReview ar with
              | .error _ => .wrote 400 "unable to encode response" got.state got.log
              | .ok resp => .wrote 200 resp got.state got.log

/-! ## Decimal digits -/

/-- Value of a decimal digit character. -/
def digitVal (c : Char) : Nat := c.toNat - 48

/-- Number denoted by a list of decimal digits. -/
def ofDigits (l : List Char) : Nat := l.foldl (fun acc c => acc * 10 + digitVal c) 0

/-! ## pkg/version -/

/-- The functions of the semantic-version library and of package `sort` that `Resolve`
calls, over the library's types `C` of constraints and `V` of versions. -/
structure SemverLib (C V : Type) where
  /-- `semver.NewConstraint`. -/
  NewConstraint : String → Except Err C
  /-- `semver.NewVersion`. -/
  NewVersion : String → Except Err V
  /-- `Constraints.Check`. -/
  Check : C → V → Bool
  /-- `Version.LessThan`, by which `semver.Collection` orders its elements. -/
  LessThan : V → V → Bool
  /-- `Version.Original`. -/
  Original : V → String
  /-- `sort.Sort` on a slice whose `Less(i, j)` is the given relation between the
  elements at `i` and `j`; the result is the slice after the call. -/
  SortSlice : (V → V → Bool) → List V → List V

/-- The slice `compatibles` of `Resolve` when its loop is left: the versions of the
candidates that parse and satisfy the constraint `c`, in the order of the candidates. -/
def compatibles {C V : Type} (lib : SemverLib C V) (c : C) (versions : List String) :
    List V :=
  versions.filterMap (fun version =>
    match lib.NewVersion version with
    | .error _ => none
    | .ok v => if lib.Check c v then some v else none)

/-- `semVersionResolver.Resolve` of resolver.go. `sort.Reverse` swaps the arguments of
`Less`. -/
def Resolve {C V : Type} (lib : SemverLib C V) (constraint : String)
    (versions : List String) : String :=
  match lib.NewConstraint constraint with
  | .error _ => constraint
  | .ok c =>
    match lib.SortSlice (fun a b => lib.LessThan b a) (compatibles lib c versions) with
    | [] => constraint
    | v :: _ => lib.Original v

/-! ## The semantic-version library -/

namespace semver

/-- Modelled from the spec: a parsed semantic version of the semantic-version library
(github.com/Masterminds/semver), which is not among the sources; `original` is the string
it was parsed from. -/
structure Version where
  major : Nat
  minor : Nat
  patch : Nat
  pre : String
  metadata : String
  original : String
deriving DecidableEq, Repr

/-- Modelled from the spec: the part of a character list before the first `sep`, and
the part after it when `sep` occurs. -/
def cutAt (sep : Char) : List Char → List Char × Option (List Char)
  | [] => ([], none)
  | c :: cs =>
    if c = sep then ([], some cs)
    else ((c :: (cutAt sep cs).1), (cutAt sep cs).2)

/-- Modelled from the spec: a non-empty list of decimal digits read as a number. -/
def parseNat? (cs : List Char) : Option Nat :=
  if cs ≠ [] ∧ cs.all Char.isDigit then some (ofDigits cs) else none

/-- Modelled from the spec: dot-separated non-empty identifiers of letters, digits and
hyphens, the form of a pre-release and of build metadata. -/
def isIdentifiers (cs : List Char) : Bool :=
  (splitChars '.' cs).all (fun p => !p.isEmpty && p.all (fun c => c.isAlphanum || c = '-'))

/-- Modelled from the spec: `semver.NewVersion`. An optional `v`, one to three
dot-separated numbers (missing ones are 0), an optional pre-release after `-`, optional
build metadata after `+`. -/
def NewVersion (v : String) : Except Err Version :=
  let cs := match v.toList with
    | 'v' :: rest => rest
    | other => other
  let byMeta := cutAt '+' cs
  let byPre := cutAt '-' byMeta.1
  let metaOk := match byMeta.2 with
    | none => true
    | some m => isIdentifiers m
  let preOk := match byPre.2 with
    | none => true
    | some p => isIdentifiers p
  let pre := String.mk (byPre.2.getD [])
  let metadata := String.mk (byMeta.2.getD [])
  if metaOk && preOk then
    match (splitChars '.' byPre.1).map parseNat? with
    | [some major] => .ok ⟨major, 0, 0, pre, metadata, v⟩
    | [some major, some minor] => .ok ⟨major, minor, 0, pre, metadata, v⟩
    | [some major, some minor, some patch] => .ok ⟨major, minor, patch, pre, metadata, v⟩
    | _ => .error "Invalid Semantic Version"
  else .error "Invalid Semantic Version"

/-- Modelled from the spec: precedence of two pre-release identifiers. Numeric
identifiers compare as numbers and are below the others, which compare as strings. -/
def compareIdentifier (s o : List Char) : Ordering :=
  match parseNat? s, parseNat? o with
  | some a, some b => compare a b
  | some _, none => .lt
  | none, some _ => .gt
  | none, none => compare (String.mk s) (String.mk o)

/-- Modelled from the spec: precedence of two lists of pre-release identifiers, from
the left; a list that is a proper beginning of the other is below it. -/
def compareIdentifiers : List (List Char) → List (List Char) → Ordering
  | [], [] => .eq
  | [], _ :: _ => .lt
  | _ :: _, [] => .gt
  | s :: ss, o :: os =>
    match compareIdentifier s o with
    | .eq => compareIdentifiers ss os
    | d => d

/-- Modelled from the spec: `Version.Compare`, the standard precedence. Major, minor
and patch compare as numbers; then a version with a pre-release is below the same
version without; then the pre-releases compare by their identifiers. Build metadata is
ignored. -/
def Compare (v o : Version) : Ordering :=
  match compare v.major o.major with
  | .eq =>
    match compare v.minor o.minor with
    | .eq =>
      match compare v.patch o.patch with
      | .eq =>
        if v.pre = "" ∧ o.pre = "" then .eq
        else if v.pre = "" then .gt
        else if o.pre = "" then .lt
        else compareIdentifiers (splitChars '.' v.pre.toList) (splitChars '.' o.pre.toList)
      | d => d
    | d => d
  | d => d

/-- Modelled from the spec: `Version.LessThan`. -/
def LessThan (v o : Version) : Bool := Compare v o == .lt

/-- Modelled from the spec: the comparison operators of a range expression. -/
inductive Op where
  | eq | ne | gt | lt | ge | le | tilde | caret
deriving DecidableEq, Repr

/-- Modelled from the spec: one comparator of a range expression, an operator and a
version. -/
structure Comparator where
  op : Op
  con : Version
deriving DecidableEq, Repr

/-- Modelled from the spec: a parsed range expression: alternatives (separated by
`||`) of comparators that must all hold (separated by `,`). -/
abbrev Constraints := List (List Comparator)

/-- Modelled from the spec: the pieces of a character list between occurrences
of `||`. -/
def splitOr : List Char → List (List Char)
  | [] => [[]]
  | '|' :: '|' :: rest => [] :: splitOr rest
  | c :: rest =>
    match splitOr rest with
    | [] => [[c]]
    | p :: ps => (c :: p) :: ps

/-- Modelled from the spec: a character list without blanks at either end. -/
def trim (cs : List Char) : List Char :=
  ((cs.dropWhile (fun c => c = ' ')).reverse.dropWhile (fun c => c = ' ')).reverse

/-- Modelled from the spec: the operator a comparator starts with, and what follows
it; no operator means equality. -/
def splitOp : List Char → Op × List Char
  | '!' :: '=' :: rest => (.ne, rest)
  | '>' :: '=' :: rest => (.ge, rest)
  | '=' :: '>' :: rest => (.ge, rest)
  | '<' :: '=' :: rest => (.le, rest)
  | '=' :: '<' :: rest => (.le, rest)
  | '~' :: '>' :: rest => (.tilde, rest)
  | '=' :: rest => (.eq, rest)
  | '>' :: rest => (.gt, rest)
  | '<' :: rest => (.lt, rest)
  | '~' :: rest => (.tilde, rest)
  | '^' :: rest => (.caret, rest)
  | rest => (.eq, rest)

/-- Modelled from the spec: one comparator, `operator version` with blanks allowed
around both. Versions with wildcards and ranges written with a hyphen are not covered:
they are rejected. -/
def parseComparator (cs : List Char) : Except Err Comparator :=
  let parts := splitOp (trim cs)
  match NewVersion (String.mk (trim parts.2)) with
  | .error _ => .error ("improper constraint: " ++ String.mk cs)
  | .ok con => .ok ⟨parts.1, con⟩

/-- Modelled from the spec: all elements of a list of results, or the first error. -/
def allOk {α : Type} : List (Except Err α) → Except Err (List α)
  | [] => .ok []
  | .error e :: _ => .error e
  | .ok a :: rest =>
    match allOk rest with
    | .error e => .error e
    | .ok others => .ok (a :: others)

/-- Modelled from the spec: `semver.NewConstraint`, the parser of range expressions. -/
def NewConstraint (c : String) : Except Err Constraints :=
  allOk ((splitOr c.toList).map (fun alternative =>
    allOk ((splitChars ',' alternative).map parseComparator)))

/-- Modelled from the spec: whether version `v` satisfies one comparator. A caret
range admits the versions of the same major version that are not below the given one; a
tilde range those of the same major and minor version that are not below it. -/
def Comparator.check (c : Comparator) (v : Version) : Bool :=
  match c.op with
  | .eq => Compare v c.con == .eq
  | .ne => Compare v c.con != .eq
  | .gt => Compare v c.con == .gt
  | .lt => Compare v c.con == .lt
  | .ge => Compare v c.con != .lt
  | .le => Compare v c.con != .gt
  | .tilde =>
    Compare v c.con != .lt && v.major == c.con.major && v.minor == c.con.minor
  | .caret => Compare v c.con != .lt && v.major == c.con.major

/-- Modelled from the spec: `Constraints.Check`: some alternative has all its
comparators satisfied. -/
def Check (cs : Constraints) (v : Version) : Bool :=
  cs.any (fun alternative => alternative.all (fun c => c.check v))

/-- Modelled from the spec: where `x` lands when it is moved towards the front of
`sorted` for as long as `less x` holds of the element before it. -/
def insertFromBack {α : Type} (less : α → α → Bool) (x : α) (sorted : List α) : List α :=
  (sorted.reverse.dropWhile (less x)).reverse ++ x ::
    (sorted.reverse.takeWhile (less x)).reverse

/-- Modelled from the spec: `sort.Sort` as the insertion sort of package `sort`, which
is what it runs on short slices: each element in turn is moved towards the front past
the elements it is `less` than. -/
def insertionSort {α : Type} (less : α → α → Bool) (l : List α) : List α :=
  l.foldl (fun sorted x => insertFromBack less x sorted) []

end semver

/-- The semantic-version library as modelled in `semver`. -/
def semverLib : SemverLib semver.Constraints semver.Version where
  NewConstraint := semver.NewConstraint
  NewVersion := semver.NewVersion
  Check := semver.Check
  LessThan := semver.LessThan
  Original := fun v => v.original
  SortSlice := semver.insertionSort

/-! ## Vocabulary of the statements -/

/-- The path written for container `i` of class `c`. -/
def imagePath (specPath c : String) (i : Nat) : String :=
  specPath ++ "/" ++ c ++ "/" ++ toString i ++ "/image"

/-- One pass of the body of `containerLoop` for `container` at `containerIndex`, started
in state `s`: the patches it appends, the state it leaves and the events it issues. -/
def containerBody {σ : Type} (lib : Lib) (w : Wrapper σ) (specPath containerType : String)
    (secrets : List Secret) (containerIndex : Nat) (container : Container) (s : σ) :
    List JSONPatch × σ × List Event :=
  match docker.Split container.Image with
  | (_, _, some err) => ([], s, [Event.glogError err])
  | (repository, tag, none) =>
    let got := w.dockerClient none repository s
    let fallback : List String × σ × List Event :=
      match got.1.2 with
      | some _ => secretLoop lib w container.Image repository secrets got.1.1 got.2
      | none => (got.1.1, got.2, [])
    ([mkPatch specPath containerType containerIndex repository (w.resolver tag fallback.1)],
      fallback.2.1,
      Event.Tags none repository got.1.1 got.1.2 ::
        (fallback.2.2 ++ [Event.Resolve tag fallback.1]))

/-- Events issued while container `i` of class `c` was being processed. -/
def eventsOf (log : List Entry) (c : String) (i : Nat) : List Event :=
  (log.filter (fun e => e.containerType = c ∧ e.containerIndex = some i)).map Entry.event

/-- The container at index `i` of class `c` of a pod spec. -/
def containerAt (podSpec : PodSpec) (c : String) (i : Nat) : Option Container :=
  if c = "initContainers" then podSpec.InitContainers[i]?
  else if c = "containers" then podSpec.Containers[i]?
  else none

/-- The secret delivered by a lookup event, if it delivered one. -/
def foundSecret : Event → Option Secret
  | .Get _ _ (.found secret) => some secret
  | _ => none

/-- Secrets fetched for the pass over class `c`, in lookup order. -/
def fetchedSecrets (log : List Entry) (c : String) : List Secret :=
  (log.filter (fun e => e.containerType = c ∧ e.containerIndex = none)).filterMap
    (fun e => foundSecret e.event)

/-- Whether an event is a call of the registry client. -/
def Event.isTags : Event → Bool
  | .Tags _ _ _ _ => true
  | _ => false

/-- Whether an event is a call of the resolver. -/
def Event.isResolve : Event → Bool
  | .Resolve _ _ => true
  | _ => false

/-- Whether an event is a secret lookup. -/
def Event.isGet : Event → Bool
  | .Get _ _ _ => true
  | _ => false

/-- Credentials that `ExtractFromDockerSecret` decodes from `secrets` for `image`, in
the order of the secrets. -/
def credentials (lib : Lib) (image : String) (secrets : List Secret) : List docker.Auth :=
  secrets.filterMap (fun secret =>
    match ExtractFromDockerSecret lib secret image with
    | (username, password, none) => some ⟨username, password⟩
    | _ => none)

/-- The tag list in hand after the events `evs`, starting from `init`: the list returned
by the last registry call among them. -/
def tagsAfter (init : List String) (evs : List Event) : List String :=
  evs.foldl (fun acc e => match e with
    | .Tags _ _ tags _ => tags
    | _ => acc) init

/-- The tag list returned by the last registry call in `evs`, if there was a call. -/
def lastTagsResult (evs : List Event) : Option (List String) :=
  evs.foldl (fun acc e => match e with
    | .Tags _ _ tags _ => some tags
    | _ => acc) none

/-- Whether an event is a registry call that returned no error. -/
def Event.isSuccess : Event → Bool
  | .Tags _ _ _ none => true
  | _ => false

/-- The well-formed containers of `containers`, numbered from `k`, in array order: class,
index, repository and tag of each. -/
def targetsFrom (c : String) (k : Nat) (containers : List Container) :
    List (String × Nat × String × String) :=
  (containers.enumFrom k).filterMap (fun ic =>
    match docker.Split ic.2.Image with
    | (repo, tag, none) => some (c, ic.1, repo, tag)
    | _ => none)

/-- The well-formed containers of a pod spec: init containers first, then regular
containers, each class in array order. -/
def targets (podSpec : PodSpec) : List (String × Nat × String × String) :=
  targetsFrom "initContainers" 0 podSpec.InitContainers ++
    targetsFrom "containers" 0 podSpec.Containers

/-- Patch `p` is the patch of target `t` for some tag list given to the resolver. -/
def IsPatchOf {σ : Type} (w : Wrapper σ) (specPath : String)
    (t : String × Nat × String × String) (p : JSONPatch) : Prop :=
  ∃ tags, p =
    { From := "", Op := "replace",
      Path := specPath ++ "/" ++ t.1 ++ "/" ++ toString t.2.1 ++ "/image",
      Value := t.2.2.1 ++ ":" ++ w.resolver t.2.2.2 tags }

/-- Namespace and name asked for by a secret lookup event. -/
def Event.lookupKey : Event → Option (String × String)
  | .Get ns name _ => some (ns, name)
  | _ => none

/-- The secret of a lookup answer, if it has one. -/
def GetResult.secret? : GetResult → Option Secret
  | .found secret => some secret
  | .failed _ => none

/-- The contract of `sort.Sort` for the slice `l` of `Resolve`: the slice after the
call is a rearrangement of `l` in which no element is `LessThan` a later one. -/
def SortsSlice {C V : Type} (lib : SemverLib C V) (l : List V) : Prop :=
  (lib.SortSlice (fun a b => lib.LessThan b a) l).Perm l ∧
  (lib.SortSlice (fun a b => lib.LessThan b a) l).Pairwise
    (fun a b => lib.LessThan a b = false)

/-- Whether a candidate tag parses as a version that satisfies the constraint `c`. -/
def isCompatible {C V : Type} (lib : SemverLib C V) (c : C) (tag : String) : Bool :=
  match lib.NewVersion tag with
  | .error _ => false
  | .ok v => lib.Check c v

/-- Modelled from the spec: a document as far as a JSON Patch of `replace` operations
is concerned, the value found at each path. -/
abbrev Document := String → Option String

/-- Modelled from the spec: the effect of one `replace` operation, the value at the
path of the patch becomes the value of the patch. -/
def applyReplace (doc : Document) (p : JSONPatch) : Document :=
  fun path => if path = p.Path then some p.Value else doc path

/-- Modelled from the spec: a JSON Patch applied to a document, operation after
operation. -/
def applyPatches (doc : Document) (patches : List JSONPatch) : Document :=
  patches.foldl applyReplace doc

/-- The registry configuration `ExtractFromDockerSecret` decodes from a secret: that
of the `.dockerconfigjson` entry when the secret has one, else that of the `.dockercfg`
entry. -/
def decodedConfig (lib : Lib) (secret : Secret) : Except Err registryConfigs :=
  match secret.Data.lookup DockerConfigJsonKey with
  | none =>
    match secret.Data.lookup DockerConfigKey with
    | none => .error "no docker config found in secret"
    | some config =>
      match lib.unmarshalRegistryConfig config with
      | .error err => .error err
      | .ok registryConfig => .ok ⟨registryConfig⟩
  | some config => lib.unmarshalRegistryConfigs config

/-- The second half of `ExtractFromDockerSecret`: the credential for `image` read from
a decoded registry configuration. -/
def credentialOf (lib : Lib) (registryConfigs : registryConfigs) (image : String) :
    String × String × Option Err :=
  match docker.Split image with
  | (_, _, some err) => ("", "", some err)
  | (base, _, none) =>
    match lib.ParseNormalizedNamed base with
    | .error err => ("", "", some err)
    | .ok imageName =>
      match registryConfigs.Auths.lookup imageName.domain with
      | none => ("", "", some ("registry domain: " ++ imageName.domain ++ " does not exist"))
      | some registryConfig =>
        match lib.DecodeString registryConfig.Auth with
        | .error err => ("", "", some err)
        | .ok b =>
          match stringsSplit b ':' with
          | [username, password] => (username, password, none)
          | _ => ("", "", some "auth field should equal basic auth syntax")

/-! ## Sample inputs -/

/-- Pod spec with the single container `alpine:latest`. -/
def alpinePodSpec : PodSpec := ⟨[], [⟨"alpine:latest"⟩], []⟩

/-- Pod spec with the single init container `alpine:latest`. -/
def alpineInitPodSpec : PodSpec := ⟨[⟨"alpine:latest"⟩], [], []⟩

/-- Pod spec with pull secrets `a` and `b` and the single container `alpine:latest`. -/
def privatePodSpec : PodSpec := ⟨[], [⟨"alpine:latest"⟩], [⟨"a"⟩, ⟨"b"⟩]⟩

/-- Pod spec whose first container has an image without a tag. -/
def mixedPodSpec : PodSpec := ⟨[], [⟨"alpine"⟩, ⟨"alpine:latest"⟩], []⟩

/-- Library functions defined on a few payloads, failing on every other input. -/
def sampleLib : Lib where
  unmarshalPod := fun raw =>
    if raw = "pod" then .ok ⟨"", alpinePodSpec⟩ else .error "unexpected end of JSON input"
  unmarshalTemplateKind := fun raw =>
    if raw = "deployment" then .ok ⟨"", ⟨⟨alpineInitPodSpec⟩⟩⟩
    else .error "unexpected end of JSON input"
  unmarshalCronJob := fun raw =>
    if raw = "cronjob" then .ok ⟨"", ⟨⟨⟨⟨alpinePodSpec⟩⟩⟩⟩⟩
    else .error "unexpected end of JSON input"
  unmarshalRegistryConfigs := fun raw =>
    if raw = "nested" then .ok ⟨[("docker.io", ⟨"", "", "dGVzdHVzZXI6dGVzdHBhc3M="⟩)]⟩
    else .error "unexpected end of JSON input"
  unmarshalRegistryConfig := fun raw =>
    if raw = "flat" then .ok [("docker.io", ⟨"", "", "dGVzdHVzZXI6dGVzdHBhc3M="⟩)]
    else .error "unexpected end of JSON input"
  ParseNormalizedNamed := fun base => .ok ⟨"docker.io", "library/" ++ base⟩
  DecodeString := fun auth =>
    if auth = "dGVzdHVzZXI6dGVzdHBhc3M=" then .ok "testuser:testpass"
    else .error "illegal base64 data"

/-- Secret lookup knowing `a` (a secret without docker config) and `b` (a `.dockercfg`
secret) in namespace `default`. -/
def sampleSecrets (ns name : String) (s : Unit) : GetResult × Unit :=
  if ns = "default" ∧ name = "a" then (.found ⟨[]⟩, s)
  else if ns = "default" ∧ name = "b" then (.found ⟨[(".dockercfg", "flat")]⟩, s)
  else (.failed ⟨true, "not found"⟩, s)

/-- Collaborators with a registry that lists `1.0` to everyone. -/
def openWrapper : Wrapper Unit where
  secretRetriever := sampleSecrets
  resolver := fun _ _ => "1.0"
  dockerClient := fun _ _ s => ((["1.0"], none), s)

/-- Collaborators with a registry that fails every listing. -/
def downWrapper : Wrapper Unit where
  secretRetriever := sampleSecrets
  resolver := fun _ _ => "1.0"
  dockerClient := fun _ _ s => (([], some "not-valid-secret"), s)

/-- Collaborators with a registry that lists `1.0` to `testuser` only. -/
def privateWrapper : Wrapper Unit where
  secretRetriever := sampleSecrets
  resolver := fun _ tags => tags.headD "none"
  dockerClient := fun auth _ s =>
    if auth = some ⟨"testuser", "testpass"⟩ then ((["1.0"], none), s)
    else ((["0.1"], some "unauthorized"), s)

/-- Pod spec with pull secret `a` and no container at all. -/
def idlePodSpec : PodSpec := ⟨[], [], [⟨"a"⟩]⟩

/-- Secret lookup in which `a` fails with an error other than not-found and `mysecret`
is found, in namespace `default`. -/
def flakySecrets (ns name : String) (s : Unit) : GetResult × Unit :=
  if ns = "default" ∧ name = "mysecret" then (.found ⟨[("name", "mysecret")]⟩, s)
  else if ns = "default" ∧ name = "a" then (.failed ⟨false, "test error"⟩, s)
  else (.failed ⟨true, "not found"⟩, s)

/-- Collaborators with the lookup `flakySecrets`. -/
def flakyWrapper : Wrapper Unit where
  secretRetriever := flakySecrets
  resolver := fun _ _ => "1.0"
  dockerClient := fun _ _ s => ((["1.0"], none), s)

/-- The parsed constraint `^0.5.0`. -/
def caret050 : semver.Constraints := [[⟨.caret, ⟨0, 5, 0, "", "", "0.5.0"⟩⟩]]

/-- The parsed constraint `>=1.0.0`. -/
def atLeast100 : semver.Constraints := [[⟨.ge, ⟨1, 0, 0, "", "", "1.0.0"⟩⟩]]

/-- The candidate tags of the test cases for `^0.5.0`, without and with `0.6`. -/
def oldTags : List String := ["hello", "some_version", "0.1", "0.1-beta", "0.5-beta"]

def newTags : List String := ["hello", "some_version", "0.1", "0.1-beta", "0.5-beta", "0.6"]

/-- The candidate tags of the test cases for `~0.4.0` and `0.4.0`. -/
def patchTags : List String :=
  ["hello", "some_version", "0.4.0", "0.4.0-beta", "0.4.1", "0.5-beta"]

/-- Library functions as in `sampleLib`, the payload `pod` being a pod of namespace
`mynamespace` with pull secrets. -/
def teamLib : Lib :=
  { sampleLib with
    unmarshalPod := fun raw =>
      if raw = "pod" then .ok ⟨"mynamespace", privatePodSpec⟩
      else .error "unexpected end of JSON input" }

/-- Pod spec with one init container and two regular containers. -/
def busyPodSpec : PodSpec := ⟨[⟨"busybox:1"⟩], [⟨"alpine:latest"⟩, ⟨"nginx:stable"⟩], []⟩

/-- Library functions as in `sampleLib`, the payload `pod` being a pod with the spec
`busyPodSpec`. -/
def busyLib : Lib :=
  { sampleLib with
    unmarshalPod := fun raw =>
      if raw = "pod" then .ok ⟨"", busyPodSpec⟩ else .error "unexpected end of JSON input" }

/-- Modelled from the spec: the normalized form of a repository name, as
`reference.ParseNormalizedNamed` computes it for a well-formed name: the part before the
first `/` is the domain when it has a `.` or a `:` or is `localhost`; otherwise the
domain is `docker.io`, where a name of one component lives under `library/`. -/
def normalizedNamed (name : String) : Named :=
  let cut := semver.cutAt '/' name.toList
  match cut.2 with
  | none => ⟨"docker.io", "library/" ++ name⟩
  | some remainder =>
    if cut.1.contains '.' || cut.1.contains ':' || cut.1 = "localhost".toList then
      let domain := if String.mk cut.1 = "index.docker.io" then "docker.io" else String.mk cut.1
      if domain = "docker.io" ∧ ¬ remainder.contains '/' then
        ⟨domain, "library/" ++ String.mk remainder⟩
      else ⟨domain, String.mk remainder⟩
    else ⟨"docker.io", name⟩

/-- Library functions for the examples of credential decoding: a few registry
configurations, named by their payload, and the base64 decoding of a few strings. -/
def credLib : Lib where
  unmarshalPod := fun _ => .error "unexpected end of JSON input"
  unmarshalTemplateKind := fun _ => .error "unexpected end of JSON input"
  unmarshalCronJob := fun _ => .error "unexpected end of JSON input"
  unmarshalRegistryConfigs := fun raw =>
    if raw = "nested" then .ok ⟨[("docker.io", ⟨"", "", "dGVzdHVzZXI6dGVzdHBhc3M="⟩)]⟩
    else if raw = "nested: other fields" then
      .ok ⟨[("docker.io", ⟨"someone", "secret", "dGVzdHVzZXI6dGVzdHBhc3M="⟩)]⟩
    else if raw = "nested: not base64" then .ok ⟨[("docker.io", ⟨"", "", "%%%"⟩)]⟩
    else if raw = "nested: colon in password" then
      .ok ⟨[("docker.io", ⟨"", "", "dXNlcjpwYTpzcw=="⟩)]⟩
    else if raw = "nested: empty auth" then .ok ⟨[("docker.io", ⟨"", "", ""⟩)]⟩
    else if raw = "nested: quay" then .ok ⟨[("quay.io", ⟨"", "", "dGVzdHVzZXI6dGVzdHBhc3M="⟩)]⟩
    else .error "unexpected end of JSON input"
  unmarshalRegistryConfig := fun raw =>
    if raw = "flat" then .ok [("docker.io", ⟨"", "", "dGVzdHVzZXI6dGVzdHBhc3M="⟩)]
    else .error "unexpected end of JSON input"
  ParseNormalizedNamed := fun base => .ok (normalizedNamed base)
  DecodeString := fun auth =>
    if auth = "dGVzdHVzZXI6dGVzdHBhc3M=" then .ok "testuser:testpass"
    else if auth = "dXNlcjpwYTpzcw==" then .ok "user:pa:ss"
    else if auth = "" then .ok ""
    else .error "illegal base64 data at input byte 0"

/-- A stand-in for `url.Parse`: a string without scheme is read as a path. -/
def pathOnly (raw : String) : Except Err URL := .ok ⟨"", "", raw⟩

/-- Collaborators with the semantic-version resolver and a registry that lists no tag. -/
def bareWrapper : Wrapper Unit where
  secretRetriever := sampleSecrets
  resolver := Resolve semverLib
  dockerClient := fun _ _ s => (([], none), s)

/-- A stand-in for the encoding of patches: path and value of each. -/
def showPatches (patches : List JSONPatch) : String :=
  String.intercalate "," (patches.map (fun p => p.Path ++ "=" ++ p.Value))

/-- JSON functions for the examples of the handler: three bodies decode, to a review of
the pod `pod`, to a review of a pod whose payload does not decode, and (the body of two
braces) to a review without request; the encoding lists the fields of the response. -/
def sampleCodec : Codec where
  decodeReview := fun body =>
    if body = "review" then .ok ⟨some ⟨"uid-1", ⟨"Pod"⟩, ⟨"pod"⟩⟩, none⟩
    else if body = "review of a broken pod" then .ok ⟨some ⟨"uid-2", ⟨"Pod"⟩, ⟨"not json"⟩⟩, none⟩
    else if body = "\x7b\x7d" then .ok ⟨none, none⟩
    else .error "invalid character"
  marshalReview := fun ar =>
    match ar.Response with
    | none => .ok "no response"
    | some r =>
      .ok ("uid:" ++ r.UID ++ " allowed:" ++ toString r.Allowed ++ " message:" ++
        (match r.Result with
          | some st => st.Message
          | none => "") ++
        " patchType:" ++ r.PatchType.getD "" ++ " patch:" ++ r.Patch)
  marshalPatches := fun patches => .ok (showPatches patches)

/-- The parsed constraint `~0.4.0`. -/
def tilde040 : semver.Constraints := [[⟨.tilde, ⟨0, 4, 0, "", "", "0.4.0"⟩⟩]]

/-! ## Facts about strings -/

theorem splitChars_ne_nil (sep : Char) (l : List Char) : splitChars sep l ≠ [] := by
  induction l with
  | nil => simp [splitChars]
  | cons c cs ih =>
    unfold splitChars
    split
    · simp
    · split <;> simp

theorem splitChars_length (sep : Char) (l : List Char) :
    (splitChars sep l).length = l.count sep + 1 := by
  induction l with
  | nil => simp [splitChars]
  | cons c cs ih =>
    unfold splitChars
    by_cases h : c = sep
    · subst h
      simp [ih]
    · have hne : ¬ (c == sep) = true := by simpa using h
      rw [if_neg h, List.count_cons, if_neg hne]
      cases hs : splitChars sep cs with
      | nil => exact absurd hs (splitChars_ne_nil sep cs)
      | cons p ps =>
        rw [hs] at ih
        simpa using ih

theorem stringsSplit_length (s : String) (sep : Char) :
    (stringsSplit s sep).length = s.toList.count sep + 1 := by
  simp [stringsSplit, splitChars_length]

/-- `Split` succeeds exactly on the images with one `:`. -/
theorem Split_ok_iff (image : String) :
    (docker.Split image).2.2 = none ↔ image.toList.count ':' = 1 := by
  unfold docker.Split
  by_cases h0 : image = ""
  · subst h0
    simp
  · rw [if_neg h0]
    have hlen := stringsSplit_length image ':'
    constructor
    · intro h
      split at h
      · rename_i base tag heq
        rw [heq] at hlen
        simp at hlen
        exact hlen
      · simp at h
    · intro h
      rw [h] at hlen
      match hs : stringsSplit image ':' with
      | [] => rw [hs] at hlen; simp at hlen
      | [_] => rw [hs] at hlen; simp at hlen
      | [_, _] => simp
      | _ :: _ :: _ :: _ => rw [hs] at hlen; simp at hlen

theorem Split_err (image : String) (h : (docker.Split image).2.2 ≠ none) :
    ∃ err, docker.Split image = ("", "", some err) := by
  unfold docker.Split at h ⊢
  split
  · exact ⟨_, rfl⟩
  · rename_i h0
    rw [if_neg h0] at h
    split
    · rename_i base tag heq
      rw [heq] at h
      simp at h
    · exact ⟨_, rfl⟩

theorem digitVal_digitChar (k : Nat) (h : k < 10) : digitVal (Nat.digitChar k) = k := by
  interval_cases k <;> decide

theorem toDigitsCore_spec (fuel : Nat) : ∀ (n : Nat) (ds : List Char), n < fuel →
    ∃ pre, Nat.toDigitsCore 10 fuel n ds = pre ++ ds ∧ ofDigits pre = n := by
  induction fuel with
  | zero => intro n ds h; omega
  | succ fuel ih =>
    intro n ds h
    unfold Nat.toDigitsCore
    by_cases h0 : n / 10 = 0
    · simp only [h0, if_true]
      refine ⟨[Nat.digitChar (n % 10)], rfl, ?_⟩
      have : n < 10 := by omega
      simp [ofDigits, digitVal_digitChar (n % 10) (Nat.mod_lt _ (by decide))]
      omega
    · simp only [h0, if_false]
      obtain ⟨pre, hpre, hval⟩ := ih (n / 10) (Nat.digitChar (n % 10) :: ds) (by omega)
      refine ⟨pre ++ [Nat.digitChar (n % 10)], by simp [hpre], ?_⟩
      unfold ofDigits at hval ⊢
      rw [List.foldl_append, hval]
      simp [digitVal_digitChar (n % 10) (Nat.mod_lt _ (by decide))]
      omega

theorem toString_nat_injective (i j : Nat) (h : toString i = toString j) : i = j := by
  have hd : Nat.toDigits 10 i = Nat.toDigits 10 j := by
    have := congrArg String.data h
    simpa [toString, Nat.repr, List.asString] using this
  obtain ⟨p, hp, hpv⟩ := toDigitsCore_spec (i + 1) i [] (by omega)
  obtain ⟨q, hq, hqv⟩ := toDigitsCore_spec (j + 1) j [] (by omega)
  unfold Nat.toDigits at hd
  rw [hp, hq] at hd
  simp at hd
  rw [← hpv, ← hqv, hd]

theorem imagePath_injective (specPath c c' : String) (i j : Nat)
    (hc : c = "initContainers" ∨ c = "containers")
    (hc' : c' = "initContainers" ∨ c' = "containers")
    (h : imagePath specPath c i = imagePath specPath c' j) : c = c' ∧ i = j := by
  have hl := congrArg String.data h
  simp only [imagePath, String.data_append, List.append_assoc, List.append_cancel_left_eq] at hl
  have hcc : c = c' := by
    rcases hc with rfl | rfl <;> rcases hc' with rfl | rfl
    · rfl
    · exact absurd (congrArg List.head? hl) (by simp)
    · exact absurd (congrArg List.head? hl) (by simp)
    · rfl
  subst hcc
  refine ⟨rfl, ?_⟩
  simp only [List.append_cancel_left_eq, List.append_cancel_right_eq] at hl
  apply toString_nat_injective
  exact String.ext hl

theorem containerLoop_cons {σ : Type} (lib : Lib) (w : Wrapper σ) (specPath ct : String)
    (secrets : List Secret) (k : Nat) (ctr : Container) (rest : List Container)
    (patches : List JSONPatch) (s : σ) :
    containerLoop lib w specPath ct secrets k (ctr :: rest) patches s =
      ((containerLoop lib w specPath ct secrets (k + 1) rest
          (patches ++ (containerBody lib w specPath ct secrets k ctr s).1)
          (containerBody lib w specPath ct secrets k ctr s).2.1).1,
       (containerLoop lib w specPath ct secrets (k + 1) rest
          (patches ++ (containerBody lib w specPath ct secrets k ctr s).1)
          (containerBody lib w specPath ct secrets k ctr s).2.1).2.1,
       (containerBody lib w specPath ct secrets k ctr s).2.2.map (Entry.mk ct (some k)) ++
       (containerLoop lib w specPath ct secrets (k + 1) rest
          (patches ++ (containerBody lib w specPath ct secrets k ctr s).1)
          (containerBody lib w specPath ct secrets k ctr s).2.1).2.2) := by
  rw [containerLoop, containerBody]
  split <;> simp

theorem containerLoop_nil {σ : Type} (lib : Lib) (w : Wrapper σ) (specPath ct : String)
    (secrets : List Secret) (k : Nat) (patches : List JSONPatch) (s : σ) :
    containerLoop lib w specPath ct secrets k [] patches s = (patches, s, []) := by
  rw [containerLoop]

theorem eventsOf_append (l₁ l₂ : List Entry) (c : String) (i : Nat) :
    eventsOf (l₁ ++ l₂) c i = eventsOf l₁ c i ++ eventsOf l₂ c i := by
  simp [eventsOf]

theorem eventsOf_map_same (evs : List Event) (c : String) (i : Nat) :
    eventsOf (evs.map (Entry.mk c (some i))) c i = evs := by
  induction evs with
  | nil => rfl
  | cons e es ih => simpa [eventsOf] using ih

theorem eventsOf_eq_nil (l : List Entry) (c : String) (i : Nat)
    (h : ∀ e ∈ l, ¬ (e.containerType = c ∧ e.containerIndex = some i)) :
    eventsOf l c i = [] := by
  simp only [eventsOf, List.map_eq_nil_iff, List.filter_eq_nil_iff]
  intro e he
  simpa using h e he

/-- Entries written by the container loop carry its class and an index not below the
index it started from. -/
theorem containerLoop_log_tag {σ : Type} (lib : Lib) (w : Wrapper σ) (specPath ct : String)
    (secrets : List Secret) (cs : List Container) :
    ∀ (k : Nat) (patches : List JSONPatch) (s : σ),
      ∀ e ∈ (containerLoop lib w specPath ct secrets k cs patches s).2.2,
        e.containerType = ct ∧ ∃ j, e.containerIndex = some j ∧ k ≤ j := by
  induction cs with
  | nil => intro k patches s e he; simp [containerLoop_nil] at he
  | cons ctr rest ih =>
    intro k patches s e he
    rw [containerLoop_cons] at he
    simp only [List.mem_append, List.mem_map] at he
    rcases he with ⟨ev, _, rfl⟩ | he
    · exact ⟨rfl, k, rfl, le_refl k⟩
    · obtain ⟨h1, j, h2, h3⟩ := ih _ _ _ e he
      exact ⟨h1, j, h2, by omega⟩

/-- Patches already collected stay in front; the loop only appends. -/
theorem containerLoop_patches_append {σ : Type} (lib : Lib) (w : Wrapper σ)
    (specPath ct : String) (secrets : List Secret) (cs : List Container) :
    ∀ (k : Nat) (patches : List JSONPatch) (s : σ),
      ∃ out, (containerLoop lib w specPath ct secrets k cs patches s).1 = patches ++ out := by
  induction cs with
  | nil => intro k patches s; exact ⟨[], by simp [containerLoop_nil]⟩
  | cons ctr rest ih =>
    intro k patches s
    rw [containerLoop_cons]
    obtain ⟨out, hout⟩ := ih (k + 1) (patches ++ (containerBody lib w specPath ct secrets k ctr s).1)
      (containerBody lib w specPath ct secrets k ctr s).2.1
    exact ⟨(containerBody lib w specPath ct secrets k ctr s).1 ++ out, by simp [hout]⟩

/-- Events and patches of the container at offset `j` are those of one pass of the loop
body from some state. -/
theorem containerLoop_at {σ : Type} (lib : Lib) (w : Wrapper σ) (specPath ct : String)
    (secrets : List Secret) (cs : List Container) :
    ∀ (k : Nat) (patches : List JSONPatch) (s : σ) (j : Nat) (ctr : Container),
      cs[j]? = some ctr →
      ∃ s', eventsOf (containerLoop lib w specPath ct secrets k cs patches s).2.2 ct (k + j)
            = (containerBody lib w specPath ct secrets (k + j) ctr s').2.2 ∧
          ∀ p ∈ (containerBody lib w specPath ct secrets (k + j) ctr s').1,
            p ∈ (containerLoop lib w specPath ct secrets k cs patches s).1 := by
  induction cs with
  | nil => intro k patches s j ctr h; simp at h
  | cons c0 rest ih =>
    intro k patches s j ctr h
    rw [containerLoop_cons]
    cases j with
    | zero =>
      simp only [List.getElem?_cons_zero, Option.some.injEq] at h
      subst h
      refine ⟨s, ?_, ?_⟩
      · rw [eventsOf_append, Nat.add_zero, eventsOf_map_same, eventsOf_eq_nil, List.append_nil]
        intro e he hh
        obtain ⟨_, j, h2, h3⟩ := containerLoop_log_tag lib w specPath ct secrets rest _ _ _ e he
        rw [h2] at hh
        simp at hh
        omega
      · intro p hp
        obtain ⟨out, hout⟩ := containerLoop_patches_append lib w specPath ct secrets rest (k + 1)
          (patches ++ (containerBody lib w specPath ct secrets k c0 s).1)
          (containerBody lib w specPath ct secrets k c0 s).2.1
        simp only [Nat.add_zero] at hp
        simp only [hout]
        simp [hp]
    | succ j =>
      simp only [List.getElem?_cons_succ] at h
      obtain ⟨s', h1, h2⟩ := ih (k + 1)
        (patches ++ (containerBody lib w specPath ct secrets k c0 s).1)
        (containerBody lib w specPath ct secrets k c0 s).2.1 j ctr h
      have hk : k + (j + 1) = k + 1 + j := by omega
      refine ⟨s', ?_, ?_⟩
      · rw [eventsOf_append, hk, h1, eventsOf_eq_nil, List.nil_append]
        intro e he hh
        simp only [List.mem_map] at he
        obtain ⟨ev, _, rfl⟩ := he
        simp at hh
        omega
      · rw [hk]
        exact h2

/-- Every patch of the result was collected before or appended by one pass of the body. -/
theorem containerLoop_patch_origin {σ : Type} (lib : Lib) (w : Wrapper σ)
    (specPath ct : String) (secrets : List Secret) (cs : List Container) :
    ∀ (k : Nat) (patches : List JSONPatch) (s : σ),
      ∀ p ∈ (containerLoop lib w specPath ct secrets k cs patches s).1,
        p ∈ patches ∨ ∃ j ctr s', cs[j]? = some ctr ∧
          p ∈ (containerBody lib w specPath ct secrets (k + j) ctr s').1 := by
  induction cs with
  | nil => intro k patches s p hp; left; simpa [containerLoop_nil] using hp
  | cons c0 rest ih =>
    intro k patches s p hp
    rw [containerLoop_cons] at hp
    rcases ih _ _ _ p hp with h | ⟨j, ctr, s', h1, h2⟩
    · rcases List.mem_append.mp h with h | h
      · exact Or.inl h
      · exact Or.inr ⟨0, c0, s, by simp, by simpa using h⟩
    · refine Or.inr ⟨j + 1, ctr, s', by simpa using h1, ?_⟩
      have hk : k + (j + 1) = k + 1 + j := by omega
      rw [hk]
      exact h2

/-! ## Secret lookup -/

theorem pullSecretLoop_err {σ : Type} (w : Wrapper σ) (ns : String)
    (refs : List LocalObjectReference) :
    ∀ (secrets : List Secret) (s : σ), (pullSecretLoop w ns refs secrets s).err = none := by
  induction refs with
  | nil => intro secrets s; rfl
  | cons r rest ih =>
    intro secrets s
    rw [pullSecretLoop]
    split
    · split <;> exact ih _ _
    · exact ih _ _

theorem pullSecretLoop_secrets {σ : Type} (w : Wrapper σ) (ns : String)
    (refs : List LocalObjectReference) :
    ∀ (secrets : List Secret) (s : σ),
      (pullSecretLoop w ns refs secrets s).secrets =
        secrets ++ (pullSecretLoop w ns refs secrets s).log.filterMap foundSecret := by
  induction refs with
  | nil => intro secrets s; simp [pullSecretLoop]
  | cons r rest ih =>
    intro secrets s
    rw [pullSecretLoop]
    split
    · rename_i err herr
      split
      · simp only [ih, List.filterMap_cons, herr, foundSecret]
      · simp only [ih, List.filterMap_cons, herr, foundSecret]
    · rename_i secret hsec
      simp only [ih, List.filterMap_cons, hsec, foundSecret, List.append_assoc,
        List.singleton_append]

theorem GetImagePullSecrets_err {σ : Type} (w : Wrapper σ)
    (refs : List LocalObjectReference) (ns : String) (s : σ) :
    (GetImagePullSecrets w refs ns s).err = none :=
  pullSecretLoop_err w _ refs [] s

theorem GetImagePullSecrets_secrets {σ : Type} (w : Wrapper σ)
    (refs : List LocalObjectReference) (ns : String) (s : σ) :
    (GetImagePullSecrets w refs ns s).secrets =
      (GetImagePullSecrets w refs ns s).log.filterMap foundSecret := by
  have := pullSecretLoop_secrets w (if ns = "" then "default" else ns) refs [] s
  simpa [GetImagePullSecrets] using this

/-! ## The two passes of `processPodSpec` -/

theorem fetchedSecrets_append (l₁ l₂ : List Entry) (c : String) :
    fetchedSecrets (l₁ ++ l₂) c = fetchedSecrets l₁ c ++ fetchedSecrets l₂ c := by
  simp [fetchedSecrets]

theorem fetchedSecrets_map_same (evs : List Event) (c : String) :
    fetchedSecrets (evs.map (Entry.mk c none)) c = evs.filterMap foundSecret := by
  induction evs with
  | nil => rfl
  | cons e es ih =>
    simp only [fetchedSecrets, List.map_cons] at ih ⊢
    rw [List.filter_cons_of_pos (by simp), List.filterMap_cons, List.filterMap_cons, ih]

theorem fetchedSecrets_eq_nil (l : List Entry) (c : String)
    (h : ∀ e ∈ l, ¬ (e.containerType = c ∧ e.containerIndex = none)) :
    fetchedSecrets l c = [] := by
  have : l.filter (fun e => e.containerType = c ∧ e.containerIndex = none) = [] := by
    rw [List.filter_eq_nil_iff]
    intro e he
    simpa using h e he
  unfold fetchedSecrets
  rw [this]
  rfl

theorem fetchedSecrets_containerLoop {σ : Type} (lib : Lib) (w : Wrapper σ)
    (specPath ct : String) (secrets : List Secret) (cs : List Container) (k : Nat)
    (patches : List JSONPatch) (s : σ) (c : String) :
    fetchedSecrets (containerLoop lib w specPath ct secrets k cs patches s).2.2 c = [] := by
  apply fetchedSecrets_eq_nil
  intro e he hh
  obtain ⟨_, j, h2, _⟩ := containerLoop_log_tag lib w specPath ct secrets cs k patches s e he
  rw [h2] at hh
  simp at hh

theorem processPodSpec_eq {σ : Type} (lib : Lib) (w : Wrapper σ) (podSpec : PodSpec)
    (specPath ns : String) (s : σ) :
    processPodSpec lib w podSpec specPath ns s =
      let g1 := GetImagePullSecrets w podSpec.ImagePullSecrets ns s
      let c1 := containerLoop lib w specPath "initContainers" g1.secrets 0
        podSpec.InitContainers [] g1.state
      let g2 := GetImagePullSecrets w podSpec.ImagePullSecrets ns c1.2.1
      let c2 := containerLoop lib w specPath "containers" g2.secrets 0
        podSpec.Containers c1.1 g2.state
      ⟨c2.1, none, c2.2.1,
        g1.log.map (Entry.mk "initContainers" none) ++ (c1.2.2 ++
          (g2.log.map (Entry.mk "containers" none) ++ (c2.2.2 ++ [])))⟩ := by
  simp only [processPodSpec, classLoop, GetImagePullSecrets_err]
  simp

/-- `processPodSpec` never reports an error. -/
theorem processPodSpec_err {σ : Type} (lib : Lib) (w : Wrapper σ) (podSpec : PodSpec)
    (specPath ns : String) (s : σ) :
    (processPodSpec lib w podSpec specPath ns s).err = none := by
  rw [processPodSpec_eq]

theorem fetchedSecrets_init {σ : Type} (lib : Lib) (w : Wrapper σ) (podSpec : PodSpec)
    (specPath ns : String) (s : σ) :
    fetchedSecrets (processPodSpec lib w podSpec specPath ns s).log "initContainers" =
      (GetImagePullSecrets w podSpec.ImagePullSecrets ns s).secrets := by
  rw [processPodSpec_eq]
  simp only [fetchedSecrets_append, fetchedSecrets_map_same, fetchedSecrets_containerLoop,
    GetImagePullSecrets_secrets]
  rw [fetchedSecrets_eq_nil _ "initContainers" (by
    intro e he hh
    simp only [List.mem_map] at he
    obtain ⟨ev, _, rfl⟩ := he
    simp at hh)]
  simp [fetchedSecrets]

theorem fetchedSecrets_containers {σ : Type} (lib : Lib) (w : Wrapper σ) (podSpec : PodSpec)
    (specPath ns : String) (s : σ) :
    fetchedSecrets (processPodSpec lib w podSpec specPath ns s).log "containers" =
      (GetImagePullSecrets w podSpec.ImagePullSecrets ns
        (containerLoop lib w specPath "initContainers"
          (GetImagePullSecrets w podSpec.ImagePullSecrets ns s).secrets 0
          podSpec.InitContainers [] (GetImagePullSecrets w podSpec.ImagePullSecrets ns s).state
        ).2.1).secrets := by
  rw [processPodSpec_eq]
  simp only [fetchedSecrets_append, fetchedSecrets_map_same, fetchedSecrets_containerLoop,
    GetImagePullSecrets_secrets]
  rw [fetchedSecrets_eq_nil _ "containers" (by
    intro e he hh
    simp only [List.mem_map] at he
    obtain ⟨ev, _, rfl⟩ := he
    simp at hh)]
  simp [fetchedSecrets]

theorem eventsOf_lookups (evs : List Event) (c c' : String) (i : Nat) :
    eventsOf (evs.map (Entry.mk c' none)) c i = [] := by
  apply eventsOf_eq_nil
  intro e he hh
  simp only [List.mem_map] at he
  obtain ⟨ev, _, rfl⟩ := he
  simp at hh

theorem eventsOf_other_class {σ : Type} (lib : Lib) (w : Wrapper σ)
    (specPath ct : String) (secrets : List Secret) (cs : List Container) (k : Nat)
    (patches : List JSONPatch) (s : σ) (c : String) (i : Nat) (hne : ct ≠ c) :
    eventsOf (containerLoop lib w specPath ct secrets k cs patches s).2.2 c i = [] := by
  apply eventsOf_eq_nil
  intro e he hh
  obtain ⟨h1, _⟩ := containerLoop_log_tag lib w specPath ct secrets cs k patches s e he
  exact hne (h1.symm.trans hh.1)

/-- What `processPodSpec` did for the container at index `i` of class `c` is one pass of
the loop body, with the secrets fetched for that class. -/
theorem processPodSpec_at {σ : Type} (lib : Lib) (w : Wrapper σ) (podSpec : PodSpec)
    (specPath ns : String) (s : σ) (c : String) (i : Nat) (ctr : Container)
    (hat : containerAt podSpec c i = some ctr) :
    ∃ s', eventsOf (processPodSpec lib w podSpec specPath ns s).log c i =
        (containerBody lib w specPath c
          (fetchedSecrets (processPodSpec lib w podSpec specPath ns s).log c) i ctr s').2.2 ∧
      ∀ p ∈ (containerBody lib w specPath c
          (fetchedSecrets (processPodSpec lib w podSpec specPath ns s).log c) i ctr s').1,
        p ∈ (processPodSpec lib w podSpec specPath ns s).patches := by
  unfold containerAt at hat
  by_cases h1 : c = "initContainers"
  · subst h1
    rw [if_pos rfl] at hat
    rw [fetchedSecrets_init]
    obtain ⟨s', hev, hp⟩ := containerLoop_at lib w specPath "initContainers"
      (GetImagePullSecrets w podSpec.ImagePullSecrets ns s).secrets podSpec.InitContainers 0 []
      (GetImagePullSecrets w podSpec.ImagePullSecrets ns s).state i ctr hat
    rw [Nat.zero_add] at hev hp
    refine ⟨s', ?_, ?_⟩
    · rw [processPodSpec_eq]
      simp only [eventsOf_append, eventsOf_lookups, hev, List.nil_append]
      rw [eventsOf_other_class _ _ _ _ _ _ _ _ _ _ _ (by decide)]
      simp [eventsOf]
    · intro p hpm
      have hin := hp p hpm
      rw [processPodSpec_eq]
      obtain ⟨out, hout⟩ := containerLoop_patches_append lib w specPath "containers"
        (GetImagePullSecrets w podSpec.ImagePullSecrets ns
          (containerLoop lib w specPath "initContainers"
            (GetImagePullSecrets w podSpec.ImagePullSecrets ns s).secrets 0
            podSpec.InitContainers []
            (GetImagePullSecrets w podSpec.ImagePullSecrets ns s).state).2.1).secrets
        podSpec.Containers 0
        (containerLoop lib w specPath "initContainers"
          (GetImagePullSecrets w podSpec.ImagePullSecrets ns s).secrets 0
          podSpec.InitContainers []
          (GetImagePullSecrets w podSpec.ImagePullSecrets ns s).state).1
        (GetImagePullSecrets w podSpec.ImagePullSecrets ns
          (containerLoop lib w specPath "initContainers"
            (GetImagePullSecrets w podSpec.ImagePullSecrets ns s).secrets 0
            podSpec.InitContainers []
            (GetImagePullSecrets w podSpec.ImagePullSecrets ns s).state).2.1).state
      simp only [hout]
      exact List.mem_append_left _ hin
  · rw [if_neg h1] at hat
    by_cases h2 : c = "containers"
    · subst h2
      rw [if_pos rfl] at hat
      rw [fetchedSecrets_containers]
      obtain ⟨s', hev, hp⟩ := containerLoop_at lib w specPath "containers"
        (GetImagePullSecrets w podSpec.ImagePullSecrets ns
          (containerLoop lib w specPath "initContainers"
            (GetImagePullSecrets w podSpec.ImagePullSecrets ns s).secrets 0
            podSpec.InitContainers []
            (GetImagePullSecrets w podSpec.ImagePullSecrets ns s).state).2.1).secrets
        podSpec.Containers 0
        (containerLoop lib w specPath "initContainers"
          (GetImagePullSecrets w podSpec.ImagePullSecrets ns s).secrets 0
          podSpec.InitContainers []
          (GetImagePullSecrets w podSpec.ImagePullSecrets ns s).state).1
        (GetImagePullSecrets w podSpec.ImagePullSecrets ns
          (containerLoop lib w specPath "initContainers"
            (GetImagePullSecrets w podSpec.ImagePullSecrets ns s).secrets 0
            podSpec.InitContainers []
            (GetImagePullSecrets w podSpec.ImagePullSecrets ns s).state).2.1).state
        i ctr hat
      rw [Nat.zero_add] at hev hp
      refine ⟨s', ?_, ?_⟩
      · rw [processPodSpec_eq]
        simp only [eventsOf_append, eventsOf_lookups, hev, List.nil_append]
        rw [eventsOf_other_class _ _ _ _ _ _ _ _ _ _ _ (by decide)]
        simp [eventsOf]
      · intro p hpm
        rw [processPodSpec_eq]
        exact hp p hpm
    · rw [if_neg h2] at hat
      simp at hat

/-- Every patch returned by `processPodSpec` was appended by the pass of the loop body
for some container of the pod spec. -/
theorem processPodSpec_origin {σ : Type} (lib : Lib) (w : Wrapper σ) (podSpec : PodSpec)
    (specPath ns : String) (s : σ) :
    ∀ p ∈ (processPodSpec lib w podSpec specPath ns s).patches,
      ∃ c i ctr secrets s', containerAt podSpec c i = some ctr ∧
        p ∈ (containerBody lib w specPath c secrets i ctr s').1 := by
  intro p hp
  rw [processPodSpec_eq] at hp
  rcases containerLoop_patch_origin lib w specPath "containers" _ _ _ _ _ p hp with
    h | ⟨j, ctr, s', h1, h2⟩
  · rcases containerLoop_patch_origin lib w specPath "initContainers" _ _ _ _ _ p h with
      h | ⟨j, ctr, s', h1, h2⟩
    · simp at h
    · rw [Nat.zero_add] at h2
      exact ⟨"initContainers", j, ctr, _, s', by simpa [containerAt] using h1, h2⟩
  · rw [Nat.zero_add] at h2
    exact ⟨"containers", j, ctr, _, s', by simpa [containerAt] using h1, h2⟩

/-! ## The credential fallback -/

theorem secretLoop_nil {σ : Type} (lib : Lib) (w : Wrapper σ) (image repository : String)
    (tags : List String) (s : σ) :
    secretLoop lib w image repository [] tags s = (tags, s, []) := by
  rw [secretLoop]

theorem credentials_cons_err (lib : Lib) (image : String) (secret : Secret)
    (rest : List Secret) (u p : String) (err : Err)
    (h : ExtractFromDockerSecret lib secret image = (u, p, some err)) :
    credentials lib image (secret :: rest) = credentials lib image rest := by
  simp [credentials, h]

theorem credentials_cons_ok (lib : Lib) (image : String) (secret : Secret)
    (rest : List Secret) (u p : String)
    (h : ExtractFromDockerSecret lib secret image = (u, p, none)) :
    credentials lib image (secret :: rest) = ⟨u, p⟩ :: credentials lib image rest := by
  simp [credentials, h]

theorem secretLoop_cons_err {σ : Type} (lib : Lib) (w : Wrapper σ) (image repository : String)
    (secret : Secret) (rest : List Secret) (tags : List String) (s : σ) (u p : String)
    (err : Err) (h : ExtractFromDockerSecret lib secret image = (u, p, some err)) :
    secretLoop lib w image repository (secret :: rest) tags s =
      ((secretLoop lib w image repository rest tags s).1,
       (secretLoop lib w image repository rest tags s).2.1,
       Event.glogError err :: (secretLoop lib w image repository rest tags s).2.2) := by
  rw [secretLoop]
  simp [h]

theorem secretLoop_cons_fail {σ : Type} (lib : Lib) (w : Wrapper σ)
    (image repository : String) (secret : Secret) (rest : List Secret) (tags : List String)
    (s : σ) (u p : String) (err : Err)
    (h : ExtractFromDockerSecret lib secret image = (u, p, none))
    (hcall : (w.dockerClient (some ⟨u, p⟩) repository s).1.2 = some err) :
    secretLoop lib w image repository (secret :: rest) tags s =
      ((secretLoop lib w image repository rest
          (w.dockerClient (some ⟨u, p⟩) repository s).1.1
          (w.dockerClient (some ⟨u, p⟩) repository s).2).1,
       (secretLoop lib w image repository rest
          (w.dockerClient (some ⟨u, p⟩) repository s).1.1
          (w.dockerClient (some ⟨u, p⟩) repository s).2).2.1,
       Event.Tags (some ⟨u, p⟩) repository
          (w.dockerClient (some ⟨u, p⟩) repository s).1.1 (some err) ::
        Event.glogError err ::
        (secretLoop lib w image repository rest
          (w.dockerClient (some ⟨u, p⟩) repository s).1.1
          (w.dockerClient (some ⟨u, p⟩) repository s).2).2.2) := by
  rw [secretLoop]
  simp [h, hcall]

theorem secretLoop_cons_ok {σ : Type} (lib : Lib) (w : Wrapper σ)
    (image repository : String) (secret : Secret) (rest : List Secret) (tags : List String)
    (s : σ) (u p : String)
    (h : ExtractFromDockerSecret lib secret image = (u, p, none))
    (hcall : (w.dockerClient (some ⟨u, p⟩) repository s).1.2 = none) :
    secretLoop lib w image repository (secret :: rest) tags s =
      ((w.dockerClient (some ⟨u, p⟩) repository s).1.1,
       (w.dockerClient (some ⟨u, p⟩) repository s).2,
       [Event.Tags (some ⟨u, p⟩) repository
          (w.dockerClient (some ⟨u, p⟩) repository s).1.1 none]) := by
  rw [secretLoop]
  simp [h, hcall]

/-- Case analysis of one turn of `secretLoop`. -/
theorem secretLoop_cases {σ : Type} (lib : Lib) (w : Wrapper σ) (repository : String)
    (secret : Secret) (image : String) (s : σ) :
    (∃ u p err, ExtractFromDockerSecret lib secret image = (u, p, some err)) ∨
    (∃ u p err, ExtractFromDockerSecret lib secret image = (u, p, none) ∧
      (w.dockerClient (some ⟨u, p⟩) repository s).1.2 = some err) ∨
    (∃ u p, ExtractFromDockerSecret lib secret image = (u, p, none) ∧
      (w.dockerClient (some ⟨u, p⟩) repository s).1.2 = none) := by
  rcases h : ExtractFromDockerSecret lib secret image with ⟨u, p, e⟩
  cases e with
  | some err => exact Or.inl ⟨u, p, err, rfl⟩
  | none =>
    right
    cases hc : (w.dockerClient (some ⟨u, p⟩) repository s).1.2 with
    | some err => exact Or.inl ⟨u, p, err, rfl, hc⟩
    | none => exact Or.inr ⟨u, p, rfl, hc⟩

/-- The fallback loop calls neither the resolver nor the secret lookup. -/
theorem secretLoop_events {σ : Type} (lib : Lib) (w : Wrapper σ) (image repository : String)
    (secrets : List Secret) :
    ∀ (tags : List String) (s : σ),
      ∀ e ∈ (secretLoop lib w image repository secrets tags s).2.2,
        e.isResolve = false ∧ e.isGet = false := by
  induction secrets with
  | nil => intro tags s e he; simp [secretLoop_nil] at he
  | cons secret rest ih =>
    intro tags s e he
    rcases secretLoop_cases lib w repository secret image s with
      ⟨u, p, err, h⟩ | ⟨u, p, err, h, hc⟩ | ⟨u, p, h, hc⟩
    · rw [secretLoop_cons_err lib w image repository secret rest tags s u p err h] at he
      rcases List.mem_cons.mp he with rfl | he
      · exact ⟨rfl, rfl⟩
      · exact ih _ _ e he
    · rw [secretLoop_cons_fail lib w image repository secret rest tags s u p err h hc] at he
      rcases List.mem_cons.mp he with rfl | he
      · exact ⟨rfl, rfl⟩
      · rcases List.mem_cons.mp he with rfl | he
        · exact ⟨rfl, rfl⟩
        · exact ih _ _ e he
    · rw [secretLoop_cons_ok lib w image repository secret rest tags s u p h hc] at he
      rcases List.mem_singleton.mp he with rfl
      exact ⟨rfl, rfl⟩

/-- The tag list held when the fallback loop is left is the one returned by its last
registry call, or the initial one when it made no call. -/
theorem secretLoop_tags {σ : Type} (lib : Lib) (w : Wrapper σ) (image repository : String)
    (secrets : List Secret) :
    ∀ (tags : List String) (s : σ),
      (secretLoop lib w image repository secrets tags s).1 =
        tagsAfter tags (secretLoop lib w image repository secrets tags s).2.2 := by
  induction secrets with
  | nil => intro tags s; simp [secretLoop_nil, tagsAfter]
  | cons secret rest ih =>
    intro tags s
    rcases secretLoop_cases lib w repository secret image s with
      ⟨u, p, err, h⟩ | ⟨u, p, err, h, hc⟩ | ⟨u, p, h, hc⟩
    · rw [secretLoop_cons_err lib w image repository secret rest tags s u p err h]
      simpa [tagsAfter] using ih tags s
    · rw [secretLoop_cons_fail lib w image repository secret rest tags s u p err h hc]
      simpa [tagsAfter] using ih _ _
    · rw [secretLoop_cons_ok lib w image repository secret rest tags s u p h hc]
      simp [tagsAfter]

/-- The registry calls of the fallback loop: failed calls, then at most one successful
call which ends the loop; the credentials used follow the decoded credentials in order,
and all of them are used when no call succeeds. -/
theorem secretLoop_shape {σ : Type} (lib : Lib) (w : Wrapper σ) (image repository : String)
    (secrets : List Secret) :
    ∀ (tags : List String) (s : σ),
      ∃ (failed : List (docker.Auth × List String × Err))
        (final : Option (docker.Auth × List String)),
        (secretLoop lib w image repository secrets tags s).2.2.filter Event.isTags =
          failed.map (fun x => Event.Tags (some x.1) repository x.2.1 (some x.2.2)) ++
          final.toList.map (fun x => Event.Tags (some x.1) repository x.2 none) ∧
        failed.map (fun x => x.1) ++ final.toList.map (fun x => x.1) <+:
          credentials lib image secrets ∧
        (final = none → failed.map (fun x => x.1) = credentials lib image secrets) ∧
        (∀ x, final = some x → (secretLoop lib w image repository secrets tags s).1 = x.2) := by
  induction secrets with
  | nil =>
    intro tags s
    exact ⟨[], none, by simp [secretLoop_nil], by simp [credentials], by simp [credentials],
      by simp⟩
  | cons secret rest ih =>
    intro tags s
    rcases secretLoop_cases lib w repository secret image s with
      ⟨u, p, err, h⟩ | ⟨u, p, err, h, hc⟩ | ⟨u, p, h, hc⟩
    · obtain ⟨failed, final, h1, h2, h3, h4⟩ := ih tags s
      rw [secretLoop_cons_err lib w image repository secret rest tags s u p err h,
        credentials_cons_err lib image secret rest u p err h]
      refine ⟨failed, final, ?_, h2, h3, h4⟩
      rw [List.filter_cons_of_neg (by simp [Event.isTags])]
      exact h1
    · obtain ⟨failed, final, h1, h2, h3, h4⟩ := ih
        (w.dockerClient (some ⟨u, p⟩) repository s).1.1
        (w.dockerClient (some ⟨u, p⟩) repository s).2
      rw [secretLoop_cons_fail lib w image repository secret rest tags s u p err h hc,
        credentials_cons_ok lib image secret rest u p h]
      refine ⟨(⟨u, p⟩, (w.dockerClient (some ⟨u, p⟩) repository s).1.1, err) :: failed, final,
        ?_, ?_, ?_, h4⟩
      · rw [List.filter_cons_of_pos (by simp [Event.isTags]),
          List.filter_cons_of_neg (by simp [Event.isTags]), h1]
        simp
      · simpa using h2
      · intro hf
        simp [h3 hf]
    · rw [secretLoop_cons_ok lib w image repository secret rest tags s u p h hc,
        credentials_cons_ok lib image secret rest u p h]
      refine ⟨[], some (⟨u, p⟩, (w.dockerClient (some ⟨u, p⟩) repository s).1.1), ?_, ?_, ?_, ?_⟩
      · simp [Event.isTags]
      · simp
      · simp
      · intro x hx
        simp at hx
        subst hx
        rfl

/-! ## One pass of the container loop -/

theorem containerBody_malformed {σ : Type} (lib : Lib) (w : Wrapper σ)
    (specPath ct : String) (secrets : List Secret) (i : Nat) (ctr : Container) (s : σ)
    (h : (docker.Split ctr.Image).2.2 ≠ none) :
    ∃ err, containerBody lib w specPath ct secrets i ctr s = ([], s, [Event.glogError err]) := by
  obtain ⟨err, herr⟩ := Split_err ctr.Image h
  exact ⟨err, by simp [containerBody, herr]⟩

/-- A pass for a well-formed image: the anonymous call, the events `fb` of the fallback
loop (none when the anonymous call succeeded), the resolver call on the tag list of the
last registry call, and one patch built from the resolver's answer. -/
theorem containerBody_ok {σ : Type} (lib : Lib) (w : Wrapper σ)
    (specPath ct : String) (secrets : List Secret) (i : Nat) (ctr : Container) (s : σ)
    (repo tag : String) (h : docker.Split ctr.Image = (repo, tag, none)) :
    ∃ (t0 : List String) (e0 : Option Err) (fb : List Event),
      (containerBody lib w specPath ct secrets i ctr s).2.2 =
        Event.Tags none repo t0 e0 :: (fb ++ [Event.Resolve tag (tagsAfter t0 fb)]) ∧
      (containerBody lib w specPath ct secrets i ctr s).1 =
        [mkPatch specPath ct i repo (w.resolver tag (tagsAfter t0 fb))] ∧
      (∀ e ∈ fb, e.isResolve = false ∧ e.isGet = false) ∧
      (e0 = none → fb = []) ∧
      (e0 ≠ none →
        ∃ (failed : List (docker.Auth × List String × Err))
          (final : Option (docker.Auth × List String)),
          fb.filter Event.isTags =
            failed.map (fun x => Event.Tags (some x.1) repo x.2.1 (some x.2.2)) ++
            final.toList.map (fun x => Event.Tags (some x.1) repo x.2 none) ∧
          failed.map (fun x => x.1) ++ final.toList.map (fun x => x.1) <+:
            credentials lib ctr.Image secrets ∧
          (final = none → failed.map (fun x => x.1) = credentials lib ctr.Image secrets) ∧
          (∀ x, final = some x → tagsAfter t0 fb = x.2)) := by
  cases hc : (w.dockerClient none repo s).1.2 with
  | none =>
    refine ⟨(w.dockerClient none repo s).1.1, none, [], ?_, ?_, ?_, ?_, ?_⟩
    · simp [containerBody, h, hc, tagsAfter]
    · simp [containerBody, h, hc, tagsAfter]
    · simp
    · simp
    · simp
  | some err =>
    have htags := secretLoop_tags lib w ctr.Image repo secrets
      (w.dockerClient none repo s).1.1 (w.dockerClient none repo s).2
    refine ⟨(w.dockerClient none repo s).1.1, some err,
      (secretLoop lib w ctr.Image repo secrets (w.dockerClient none repo s).1.1
        (w.dockerClient none repo s).2).2.2, ?_, ?_, ?_, ?_, ?_⟩
    · simp [containerBody, h, hc, ← htags]
    · simp [containerBody, h, hc, ← htags]
    · exact secretLoop_events lib w ctr.Image repo secrets _ _
    · simp
    · intro _
      obtain ⟨failed, final, h1, h2, h3, h4⟩ := secretLoop_shape lib w ctr.Image repo secrets
        (w.dockerClient none repo s).1.1 (w.dockerClient none repo s).2
      exact ⟨failed, final, h1, h2, h3, fun x hx => by rw [← htags]; exact h4 x hx⟩

/-! ## Patches of `processPodSpec` -/

/-- Every patch returned is the patch of a well-formed container of the pod spec. -/
theorem processPodSpec_patch_form {σ : Type} (lib : Lib) (w : Wrapper σ) (podSpec : PodSpec)
    (specPath ns : String) (s : σ) :
    ∀ p ∈ (processPodSpec lib w podSpec specPath ns s).patches,
      ∃ c i ctr repo tag tags, containerAt podSpec c i = some ctr ∧
        docker.Split ctr.Image = (repo, tag, none) ∧
        p = mkPatch specPath c i repo (w.resolver tag tags) := by
  intro p hp
  obtain ⟨c, i, ctr, secrets, s', hat, hmem⟩ :=
    processPodSpec_origin lib w podSpec specPath ns s p hp
  rcases hsp : docker.Split ctr.Image with ⟨repo, tag, e⟩
  cases e with
  | some err =>
    obtain ⟨err', hb⟩ := containerBody_malformed lib w specPath c secrets i ctr s'
      (by rw [hsp]; simp)
    rw [hb] at hmem
    simp at hmem
  | none =>
    obtain ⟨t0, e0, fb, _, h2, _⟩ := containerBody_ok lib w specPath c secrets i ctr s' repo tag hsp
    rw [h2] at hmem
    exact ⟨c, i, ctr, repo, tag, _, hat, hsp, List.mem_singleton.mp hmem⟩

theorem containerAt_class (podSpec : PodSpec) (c : String) (i : Nat) (ctr : Container)
    (h : containerAt podSpec c i = some ctr) : c = "initContainers" ∨ c = "containers" := by
  unfold containerAt at h
  by_cases h1 : c = "initContainers"
  · exact Or.inl h1
  · by_cases h2 : c = "containers"
    · exact Or.inr h2
    · simp [h1, h2] at h

/-- The resolver call and the patch of a well-formed container. -/
theorem processPodSpec_resolve_call {σ : Type} (lib : Lib) (w : Wrapper σ)
    (podSpec : PodSpec) (specPath ns : String) (s : σ) (c : String) (i : Nat)
    (ctr : Container) (repo tag : String)
    (hat : containerAt podSpec c i = some ctr)
    (hsplit : docker.Split ctr.Image = (repo, tag, none)) :
    ∃ tags,
      (eventsOf (processPodSpec lib w podSpec specPath ns s).log c i).filter Event.isResolve =
        [Event.Resolve tag tags] ∧
      mkPatch specPath c i repo (w.resolver tag tags) ∈
        (processPodSpec lib w podSpec specPath ns s).patches := by
  obtain ⟨s', hev, hp⟩ := processPodSpec_at lib w podSpec specPath ns s c i ctr hat
  obtain ⟨t0, e0, fb, h1, h2, h3, _⟩ := containerBody_ok lib w specPath c
    (fetchedSecrets (processPodSpec lib w podSpec specPath ns s).log c) i ctr s' repo tag hsplit
  refine ⟨tagsAfter t0 fb, ?_, ?_⟩
  · rw [hev, h1]
    have hfb : fb.filter Event.isResolve = [] := by
      rw [List.filter_eq_nil_iff]
      intro e he
      simp [(h3 e he).1]
    simp [List.filter_cons, Event.isResolve, hfb]
  · apply hp
    rw [h2]
    exact List.mem_singleton.mpr rfl

/-- Claim C1. For a container at index `i` of class `c` whose image splits into
`(repo, tag)`, the resolver is called once while that container is processed, on
`(tag, tags)`, and the returned list holds the patch with empty `From`, `Op` `replace`,
`Path` `specPath/c/i/image` and `Value` `repo:Resolve(tag, tags)`. -/
theorem processPodSpec_patch_of_container {σ : Type} (lib : Lib) (w : Wrapper σ)
    (podSpec : PodSpec) (specPath ns : String) (s : σ) (c : String) (i : Nat)
    (ctr : Container) (repo tag : String)
    (hat : containerAt podSpec c i = some ctr)
    (hsplit : docker.Split ctr.Image = (repo, tag, none)) :
    ∃ tags,
      (eventsOf (processPodSpec lib w podSpec specPath ns s).log c i).filter Event.isResolve =
        [Event.Resolve tag tags] ∧
      ({ From := "", Op := "replace",
         Path := specPath ++ "/" ++ c ++ "/" ++ toString i ++ "/image",
         Value := repo ++ ":" ++ w.resolver tag tags } : JSONPatch) ∈
        (processPodSpec lib w podSpec specPath ns s).patches :=
  processPodSpec_resolve_call lib w podSpec specPath ns s c i ctr repo tag hat hsplit

theorem processPodSpec_patch_of_container_witness :
    containerAt alpinePodSpec "containers" 0 = some ⟨"alpine:latest"⟩ ∧
    docker.Split "alpine:latest" = ("alpine", "latest", none) ∧
    ∃ tags,
      (eventsOf (processPodSpec sampleLib openWrapper alpinePodSpec "/spec" "" ()).log
        "containers" 0).filter Event.isResolve = [Event.Resolve "latest" tags] ∧
      ({ From := "", Op := "replace",
         Path := "/spec" ++ "/" ++ "containers" ++ "/" ++ toString 0 ++ "/image",
         Value := "alpine" ++ ":" ++ openWrapper.resolver "latest" tags } : JSONPatch) ∈
        (processPodSpec sampleLib openWrapper alpinePodSpec "/spec" "" ()).patches :=
  ⟨by decide, by decide,
    processPodSpec_patch_of_container sampleLib openWrapper alpinePodSpec "/spec" "" ()
      "containers" 0 ⟨"alpine:latest"⟩ "alpine" "latest" (by decide) (by decide)⟩

/-! ## `GetPatches` -/

/-- Every path written by `processPodSpec` starts with the spec path and a slash. -/
theorem processPodSpec_path_start {σ : Type} (lib : Lib) (w : Wrapper σ) (podSpec : PodSpec)
    (specPath ns : String) (s : σ) :
    ∀ p ∈ (processPodSpec lib w podSpec specPath ns s).patches,
      ∃ rest, p.Path = specPath ++ "/" ++ rest := by
  intro p hp
  obtain ⟨c, i, ctr, repo, tag, tags, _, _, rfl⟩ :=
    processPodSpec_patch_form lib w podSpec specPath ns s p hp
  exact ⟨c ++ "/" ++ toString i ++ "/image", by simp [mkPatch, String.append_assoc]⟩

/-- Claim C2. When the payload decodes, `GetPatches` runs `processPodSpec` on the pod
spec found at the location of the request's kind, and every patch path starts with that
location: `/spec/` for Pod, `/spec/template/spec/` for the six template kinds,
`/spec/jobTemplate/spec/template/spec/` for CronJob. -/
theorem GetPatches_spec_location {σ : Type} (lib : Lib) (w : Wrapper σ)
    (ar : AdmissionRequest) (s : σ) :
    (ar.Kind.Kind = "Pod" → ∀ pod, lib.unmarshalPod ar.Object.Raw = .ok pod →
      GetPatches lib w ar s = processPodSpec lib w pod.Spec "/spec" pod.Namespace s ∧
      ∀ p ∈ (GetPatches lib w ar s).patches, ∃ rest, p.Path = "/spec/" ++ rest) ∧
    (ar.Kind.Kind ∈ ["ReplicationController", "Job", "ReplicaSet", "Deployment",
        "StatefulSet", "DaemonSet"] →
      ∀ t, lib.unmarshalTemplateKind ar.Object.Raw = .ok t →
      GetPatches lib w ar s =
        processPodSpec lib w t.Spec.Template.Spec "/spec/template/spec" t.Namespace s ∧
      ∀ p ∈ (GetPatches lib w ar s).patches,
        ∃ rest, p.Path = "/spec/template/spec/" ++ rest) ∧
    (ar.Kind.Kind = "CronJob" → ∀ cj, lib.unmarshalCronJob ar.Object.Raw = .ok cj →
      GetPatches lib w ar s =
        processPodSpec lib w cj.Spec.JobTemplate.Spec.Template.Spec
          "/spec/jobTemplate/spec/template/spec" cj.Namespace s ∧
      ∀ p ∈ (GetPatches lib w ar s).patches,
        ∃ rest, p.Path = "/spec/jobTemplate/spec/template/spec/" ++ rest) := by
  refine ⟨?_, ?_, ?_⟩
  · intro hk pod hd
    have heq : GetPatches lib w ar s = processPodSpec lib w pod.Spec "/spec" pod.Namespace s := by
      simp [GetPatches, hk, hd, podSpecPath]
    refine ⟨heq, ?_⟩
    intro p hp
    rw [heq] at hp
    obtain ⟨rest, hrest⟩ := processPodSpec_path_start lib w _ _ _ s p hp
    exact ⟨rest, hrest⟩
  · intro hk t hd
    have hne : ar.Kind.Kind ≠ "Pod" := by
      intro h
      rw [h] at hk
      revert hk
      decide
    have heq : GetPatches lib w ar s =
        processPodSpec lib w t.Spec.Template.Spec "/spec/template/spec" t.Namespace s := by
      have hk' : ar.Kind.Kind ∈ templateKinds := hk
      unfold GetPatches
      rw [if_neg hne, if_pos hk', hd]
      rfl
    refine ⟨heq, ?_⟩
    intro p hp
    rw [heq] at hp
    obtain ⟨rest, hrest⟩ := processPodSpec_path_start lib w _ _ _ s p hp
    exact ⟨rest, hrest⟩
  · intro hk cj hd
    have hne : ar.Kind.Kind ≠ "Pod" := by rw [hk]; decide
    have hnt : ar.Kind.Kind ∉ templateKinds := by rw [hk]; decide
    have heq : GetPatches lib w ar s =
        processPodSpec lib w cj.Spec.JobTemplate.Spec.Template.Spec
          "/spec/jobTemplate/spec/template/spec" cj.Namespace s := by
      unfold GetPatches
      rw [if_neg hne, if_neg hnt, if_pos hk, hd]
      rfl
    refine ⟨heq, ?_⟩
    intro p hp
    rw [heq] at hp
    obtain ⟨rest, hrest⟩ := processPodSpec_path_start lib w _ _ _ s p hp
    exact ⟨rest, hrest⟩

theorem GetPatches_spec_location_witness :
    ("Deployment" ∈ ["ReplicationController", "Job", "ReplicaSet", "Deployment",
        "StatefulSet", "DaemonSet"]) ∧
    sampleLib.unmarshalTemplateKind "deployment" = .ok ⟨"", ⟨⟨alpineInitPodSpec⟩⟩⟩ ∧
    GetPatches sampleLib openWrapper ⟨"uid", ⟨"Deployment"⟩, ⟨"deployment"⟩⟩ () =
      processPodSpec sampleLib openWrapper alpineInitPodSpec "/spec/template/spec" "" () ∧
    ∀ p ∈ (GetPatches sampleLib openWrapper ⟨"uid", ⟨"Deployment"⟩, ⟨"deployment"⟩⟩ ()).patches,
      ∃ rest, p.Path = "/spec/template/spec/" ++ rest :=
  ⟨by decide, rfl,
    (GetPatches_spec_location sampleLib openWrapper
      ⟨"uid", ⟨"Deployment"⟩, ⟨"deployment"⟩⟩ ()).2.1 (by decide) _ rfl⟩

/-- Claim C3. For a kind that is not one of the eight supported kind strings,
`GetPatches` returns no patch and no error whatever the payload, performs no call
(empty log) and leaves the world as it was. -/
theorem GetPatches_unsupported_kind {σ : Type} (lib : Lib) (w : Wrapper σ)
    (ar : AdmissionRequest) (s : σ)
    (h : ar.Kind.Kind ∉ ["Pod", "ReplicationController", "Job", "ReplicaSet", "Deployment",
      "StatefulSet", "DaemonSet", "CronJob"]) :
    (GetPatches lib w ar s).patches = [] ∧ (GetPatches lib w ar s).err = none ∧
    (GetPatches lib w ar s).log = [] ∧ (GetPatches lib w ar s).state = s := by
  have h1 : ar.Kind.Kind ≠ "Pod" := by
    intro hk; apply h; rw [hk]; decide
  have h2 : ar.Kind.Kind ∉ templateKinds := by
    intro hk
    apply h
    simp only [templateKinds, List.mem_cons] at hk ⊢
    tauto
  have h3 : ar.Kind.Kind ≠ "CronJob" := by
    intro hk; apply h; rw [hk]; decide
  unfold GetPatches
  rw [if_neg h1, if_neg h2, if_neg h3]
  exact ⟨rfl, rfl, rfl, rfl⟩

theorem GetPatches_unsupported_kind_witness :
    ("pod" ∉ ["Pod", "ReplicationController", "Job", "ReplicaSet", "Deployment",
      "StatefulSet", "DaemonSet", "CronJob"]) ∧
    (GetPatches sampleLib openWrapper ⟨"uid", ⟨"pod"⟩, ⟨"pod"⟩⟩ ()).patches = [] ∧
    (GetPatches sampleLib openWrapper ⟨"uid", ⟨"pod"⟩, ⟨"pod"⟩⟩ ()).err = none ∧
    (GetPatches sampleLib openWrapper ⟨"uid", ⟨"pod"⟩, ⟨"pod"⟩⟩ ()).log = [] ∧
    (GetPatches sampleLib openWrapper ⟨"uid", ⟨"pod"⟩, ⟨"pod"⟩⟩ ()).state = () :=
  ⟨by decide,
    GetPatches_unsupported_kind sampleLib openWrapper ⟨"uid", ⟨"pod"⟩, ⟨"pod"⟩⟩ () (by decide)⟩

/-- Claim C4. For a supported kind whose payload fails to decode into the shape of that
kind, `GetPatches` returns no patch together with the decode error, performs no call
(empty log) and leaves the world as it was. -/
theorem GetPatches_decode_error {σ : Type} (lib : Lib) (w : Wrapper σ)
    (ar : AdmissionRequest) (s : σ) (err : Err)
    (h : (ar.Kind.Kind = "Pod" ∧ lib.unmarshalPod ar.Object.Raw = .error err) ∨
      (ar.Kind.Kind ∈ ["ReplicationController", "Job", "ReplicaSet", "Deployment",
        "StatefulSet", "DaemonSet"] ∧
        lib.unmarshalTemplateKind ar.Object.Raw = .error err) ∨
      (ar.Kind.Kind = "CronJob" ∧ lib.unmarshalCronJob ar.Object.Raw = .error err)) :
    (GetPatches lib w ar s).patches = [] ∧ (GetPatches lib w ar s).err = some err ∧
    (GetPatches lib w ar s).log = [] ∧ (GetPatches lib w ar s).state = s := by
  rcases h with ⟨hk, hd⟩ | ⟨hk, hd⟩ | ⟨hk, hd⟩
  · unfold GetPatches
    rw [if_pos hk, hd]
    exact ⟨rfl, rfl, rfl, rfl⟩
  · have hne : ar.Kind.Kind ≠ "Pod" := by
      intro h
      rw [h] at hk
      revert hk
      decide
    have hk' : ar.Kind.Kind ∈ templateKinds := hk
    unfold GetPatches
    rw [if_neg hne, if_pos hk', hd]
    exact ⟨rfl, rfl, rfl, rfl⟩
  · have hne : ar.Kind.Kind ≠ "Pod" := by rw [hk]; decide
    have hnt : ar.Kind.Kind ∉ templateKinds := by rw [hk]; decide
    unfold GetPatches
    rw [if_neg hne, if_neg hnt, if_pos hk, hd]
    exact ⟨rfl, rfl, rfl, rfl⟩

theorem GetPatches_decode_error_witness :
    (("Pod" = "Pod" ∧ sampleLib.unmarshalPod "not json" = .error "unexpected end of JSON input") ∨
      ("Pod" ∈ ["ReplicationController", "Job", "ReplicaSet", "Deployment",
        "StatefulSet", "DaemonSet"] ∧
        sampleLib.unmarshalTemplateKind "not json" = .error "unexpected end of JSON input") ∨
      ("Pod" = "CronJob" ∧
        sampleLib.unmarshalCronJob "not json" = .error "unexpected end of JSON input")) ∧
    (GetPatches sampleLib openWrapper ⟨"uid", ⟨"Pod"⟩, ⟨"not json"⟩⟩ ()).patches = [] ∧
    (GetPatches sampleLib openWrapper ⟨"uid", ⟨"Pod"⟩, ⟨"not json"⟩⟩ ()).err =
      some "unexpected end of JSON input" ∧
    (GetPatches sampleLib openWrapper ⟨"uid", ⟨"Pod"⟩, ⟨"not json"⟩⟩ ()).log = [] ∧
    (GetPatches sampleLib openWrapper ⟨"uid", ⟨"Pod"⟩, ⟨"not json"⟩⟩ ()).state = () :=
  ⟨Or.inl ⟨rfl, rfl⟩,
    GetPatches_decode_error sampleLib openWrapper ⟨"uid", ⟨"Pod"⟩, ⟨"not json"⟩⟩ ()
      "unexpected end of JSON input" (Or.inl ⟨rfl, rfl⟩)⟩

/-! ## Order and number of the patches -/

theorem targetsFrom_nil (c : String) (k : Nat) : targetsFrom c k [] = [] := rfl

theorem targetsFrom_cons_ok (c : String) (k : Nat) (ctr : Container) (rest : List Container)
    (repo tag : String) (h : docker.Split ctr.Image = (repo, tag, none)) :
    targetsFrom c k (ctr :: rest) = (c, k, repo, tag) :: targetsFrom c (k + 1) rest := by
  simp [targetsFrom, List.enumFrom_cons, h]

theorem targetsFrom_cons_malformed (c : String) (k : Nat) (ctr : Container)
    (rest : List Container) (h : (docker.Split ctr.Image).2.2 ≠ none) :
    targetsFrom c k (ctr :: rest) = targetsFrom c (k + 1) rest := by
  obtain ⟨err, herr⟩ := Split_err ctr.Image h
  simp [targetsFrom, List.enumFrom_cons, herr]

theorem targetsFrom_length (c : String) (cs : List Container) :
    ∀ k, (targetsFrom c k cs).length =
      cs.countP (fun ctr => ctr.Image.toList.count ':' = 1) := by
  induction cs with
  | nil => intro k; rfl
  | cons ctr rest ih =>
    intro k
    rcases hsp : docker.Split ctr.Image with ⟨repo, tag, e⟩
    cases e with
    | none =>
      have h1 : ctr.Image.toList.count ':' = 1 := (Split_ok_iff ctr.Image).mp (by rw [hsp])
      rw [targetsFrom_cons_ok c k ctr rest repo tag hsp, List.length_cons, ih,
        List.countP_cons_of_pos _ _ (by simpa using h1)]
    | some err =>
      have h1 : ¬ ctr.Image.toList.count ':' = 1 := by
        intro h
        have := (Split_ok_iff ctr.Image).mpr h
        rw [hsp] at this
        simp at this
      rw [targetsFrom_cons_malformed c k ctr rest (by rw [hsp]; simp), ih,
        List.countP_cons_of_neg _ _ (by simpa using h1)]

/-- The container loop appends, in array order, one patch per well-formed container. -/
theorem containerLoop_forall₂ {σ : Type} (lib : Lib) (w : Wrapper σ) (specPath ct : String)
    (secrets : List Secret) (cs : List Container) :
    ∀ (k : Nat) (patches : List JSONPatch) (s : σ),
      ∃ out, (containerLoop lib w specPath ct secrets k cs patches s).1 = patches ++ out ∧
        List.Forall₂ (IsPatchOf w specPath) (targetsFrom ct k cs) out := by
  induction cs with
  | nil =>
    intro k patches s
    exact ⟨[], by simp [containerLoop_nil], by simp [targetsFrom_nil]⟩
  | cons ctr rest ih =>
    intro k patches s
    rw [containerLoop_cons]
    obtain ⟨out, hout, hall⟩ := ih (k + 1)
      (patches ++ (containerBody lib w specPath ct secrets k ctr s).1)
      (containerBody lib w specPath ct secrets k ctr s).2.1
    rcases hsp : docker.Split ctr.Image with ⟨repo, tag, e⟩
    cases e with
    | none =>
      obtain ⟨t0, e0, fb, _, h2, _⟩ :=
        containerBody_ok lib w specPath ct secrets k ctr s repo tag hsp
      refine ⟨mkPatch specPath ct k repo (w.resolver tag (tagsAfter t0 fb)) :: out, ?_, ?_⟩
      · rw [h2] at hout
        rw [h2, hout]
        simp
      · rw [targetsFrom_cons_ok ct k ctr rest repo tag hsp]
        exact List.Forall₂.cons ⟨_, rfl⟩ hall
    | some err =>
      obtain ⟨err', hb⟩ := containerBody_malformed lib w specPath ct secrets k ctr s
        (by rw [hsp]; simp)
      refine ⟨out, ?_, ?_⟩
      · rw [hb] at hout
        rw [hb, hout]
        simp
      · rw [targetsFrom_cons_malformed ct k ctr rest (by rw [hsp]; simp)]
        exact hall

theorem processPodSpec_forall₂ {σ : Type} (lib : Lib) (w : Wrapper σ) (podSpec : PodSpec)
    (specPath ns : String) (s : σ) :
    List.Forall₂ (IsPatchOf w specPath) (targets podSpec)
      (processPodSpec lib w podSpec specPath ns s).patches := by
  rw [processPodSpec_eq]
  obtain ⟨out1, h1, hall1⟩ := containerLoop_forall₂ lib w specPath "initContainers"
    (GetImagePullSecrets w podSpec.ImagePullSecrets ns s).secrets podSpec.InitContainers 0 []
    (GetImagePullSecrets w podSpec.ImagePullSecrets ns s).state
  obtain ⟨out2, h2, hall2⟩ := containerLoop_forall₂ lib w specPath "containers"
    (GetImagePullSecrets w podSpec.ImagePullSecrets ns
      (containerLoop lib w specPath "initContainers"
        (GetImagePullSecrets w podSpec.ImagePullSecrets ns s).secrets 0
        podSpec.InitContainers []
        (GetImagePullSecrets w podSpec.ImagePullSecrets ns s).state).2.1).secrets
    podSpec.Containers 0
    (containerLoop lib w specPath "initContainers"
      (GetImagePullSecrets w podSpec.ImagePullSecrets ns s).secrets 0
      podSpec.InitContainers []
      (GetImagePullSecrets w podSpec.ImagePullSecrets ns s).state).1
    (GetImagePullSecrets w podSpec.ImagePullSecrets ns
      (containerLoop lib w specPath "initContainers"
        (GetImagePullSecrets w podSpec.ImagePullSecrets ns s).secrets 0
        podSpec.InitContainers []
        (GetImagePullSecrets w podSpec.ImagePullSecrets ns s).state).2.1).state
  dsimp only
  rw [h2, h1, List.nil_append]
  exact List.rel_append hall1 hall2

theorem targetsFrom_eq_nil (c : String) (cs : List Container)
    (h : ∀ ctr ∈ cs, (docker.Split ctr.Image).2.2 ≠ none) :
    ∀ k, targetsFrom c k cs = [] := by
  induction cs with
  | nil => intro k; rfl
  | cons ctr rest ih =>
    intro k
    rw [targetsFrom_cons_malformed c k ctr rest (h ctr (List.mem_cons_self _ _))]
    exact ih (fun x hx => h x (List.mem_cons_of_mem _ hx)) (k + 1)

/-- Claim C9. The returned patches are, element by element, the patches of the
well-formed init containers in array order followed by those of the well-formed regular
containers in array order; when every image is malformed (or there is no container) the
result is the empty list with no error. -/
theorem processPodSpec_patch_order {σ : Type} (lib : Lib) (w : Wrapper σ)
    (podSpec : PodSpec) (specPath ns : String) (s : σ) :
    List.Forall₂ (IsPatchOf w specPath)
      (targetsFrom "initContainers" 0 podSpec.InitContainers ++
        targetsFrom "containers" 0 podSpec.Containers)
      (processPodSpec lib w podSpec specPath ns s).patches ∧
    ((∀ ctr ∈ podSpec.InitContainers ++ podSpec.Containers,
        (docker.Split ctr.Image).2.2 ≠ none) →
      (processPodSpec lib w podSpec specPath ns s).patches = [] ∧
      (processPodSpec lib w podSpec specPath ns s).err = none) := by
  have hall := processPodSpec_forall₂ lib w podSpec specPath ns s
  refine ⟨hall, ?_⟩
  intro hbad
  refine ⟨?_, processPodSpec_err lib w podSpec specPath ns s⟩
  have h1 := targetsFrom_eq_nil "initContainers" podSpec.InitContainers
    (fun ctr h => hbad ctr (List.mem_append_left _ h)) 0
  have h2 := targetsFrom_eq_nil "containers" podSpec.Containers
    (fun ctr h => hbad ctr (List.mem_append_right _ h)) 0
  unfold targets at hall
  rw [h1, h2] at hall
  simpa using hall

theorem processPodSpec_patch_order_witness :
    (∀ ctr ∈ ([⟨"alpine"⟩, ⟨""⟩] : List Container) ++ [⟨"a:b:c"⟩],
      (docker.Split ctr.Image).2.2 ≠ none) ∧
    (processPodSpec sampleLib openWrapper ⟨[⟨"alpine"⟩, ⟨""⟩], [⟨"a:b:c"⟩], []⟩ "/spec" ""
      ()).patches = [] ∧
    (processPodSpec sampleLib openWrapper ⟨[⟨"alpine"⟩, ⟨""⟩], [⟨"a:b:c"⟩], []⟩ "/spec" ""
      ()).err = none :=
  ⟨by decide,
    (processPodSpec_patch_order sampleLib openWrapper ⟨[⟨"alpine"⟩, ⟨""⟩], [⟨"a:b:c"⟩], []⟩
      "/spec" "" ()).2 (by decide)⟩

/-! ## The tag list given to the resolver -/

theorem lastTagsResult_fold (l : List Event) :
    ∀ init : List String,
      l.foldl (fun acc e => match e with
        | .Tags _ _ tags _ => some tags
        | _ => acc) (some init) = some (tagsAfter init l) := by
  induction l with
  | nil => intro init; rfl
  | cons e es ih =>
    intro init
    cases e <;> simp only [List.foldl_cons, tagsAfter] <;> exact ih _

theorem lastTagsResult_cons_tags (a : Option docker.Auth) (r : String) (t : List String)
    (e : Option Err) (l : List Event) :
    lastTagsResult (Event.Tags a r t e :: l) = some (tagsAfter t l) := by
  unfold lastTagsResult
  rw [List.foldl_cons]
  exact lastTagsResult_fold l t

theorem tagsAfter_append_resolve (t : List String) (fb : List Event) (c : String)
    (x : List String) : tagsAfter t (fb ++ [Event.Resolve c x]) = tagsAfter t fb := by
  simp [tagsAfter, List.foldl_append]

theorem processPodSpec_length {σ : Type} (lib : Lib) (w : Wrapper σ) (podSpec : PodSpec)
    (specPath ns : String) (s : σ) :
    (processPodSpec lib w podSpec specPath ns s).patches.length =
      (podSpec.InitContainers ++ podSpec.Containers).countP
        (fun ctr => ctr.Image.toList.count ':' = 1) := by
  have h := (processPodSpec_forall₂ lib w podSpec specPath ns s).length_eq
  rw [← h, targets, List.length_append, targetsFrom_length, targetsFrom_length,
    List.countP_append]

/-- The patch of a well-formed container is built from the tag list returned by the last
registry call made for that container. -/
theorem processPodSpec_last_listing {σ : Type} (lib : Lib) (w : Wrapper σ)
    (podSpec : PodSpec) (specPath ns : String) (s : σ) (c : String) (i : Nat)
    (ctr : Container) (repo tag : String)
    (hat : containerAt podSpec c i = some ctr)
    (hsplit : docker.Split ctr.Image = (repo, tag, none)) :
    ∃ tags,
      lastTagsResult (eventsOf (processPodSpec lib w podSpec specPath ns s).log c i) =
        some tags ∧
      mkPatch specPath c i repo (w.resolver tag tags) ∈
        (processPodSpec lib w podSpec specPath ns s).patches := by
  obtain ⟨s', hev, hp⟩ := processPodSpec_at lib w podSpec specPath ns s c i ctr hat
  obtain ⟨t0, e0, fb, h1, h2, _⟩ := containerBody_ok lib w specPath c
    (fetchedSecrets (processPodSpec lib w podSpec specPath ns s).log c) i ctr s' repo tag hsplit
  refine ⟨tagsAfter t0 fb, ?_, ?_⟩
  · rw [hev, h1, lastTagsResult_cons_tags, tagsAfter_append_resolve]
  · apply hp
    rw [h2]
    exact List.mem_singleton.mpr rfl

/-- Claim C6. The number of patches is the number of init and regular containers whose
image has exactly one `:`, whether or not a listing succeeded; and the patch of each such
container carries `repo:Resolve(tag, tags)` where `tags` is the list returned by the last
registry call made for that container (also when that call returned an error). -/
theorem processPodSpec_patch_per_wellformed_image {σ : Type} (lib : Lib) (w : Wrapper σ)
    (podSpec : PodSpec) (specPath ns : String) (s : σ) :
    (processPodSpec lib w podSpec specPath ns s).patches.length =
      (podSpec.InitContainers ++ podSpec.Containers).countP
        (fun ctr => ctr.Image.toList.count ':' = 1) ∧
    ∀ (c : String) (i : Nat) (ctr : Container) (repo tag : String),
      containerAt podSpec c i = some ctr →
      docker.Split ctr.Image = (repo, tag, none) →
      ∃ tags,
        lastTagsResult (eventsOf (processPodSpec lib w podSpec specPath ns s).log c i) =
          some tags ∧
        ({ From := "", Op := "replace",
           Path := specPath ++ "/" ++ c ++ "/" ++ toString i ++ "/image",
           Value := repo ++ ":" ++ w.resolver tag tags } : JSONPatch) ∈
          (processPodSpec lib w podSpec specPath ns s).patches :=
  ⟨processPodSpec_length lib w podSpec specPath ns s,
    fun c i ctr repo tag hat hsplit =>
      processPodSpec_last_listing lib w podSpec specPath ns s c i ctr repo tag hat hsplit⟩

theorem processPodSpec_patch_per_wellformed_image_witness :
    containerAt privatePodSpec "containers" 0 = some ⟨"alpine:latest"⟩ ∧
    docker.Split "alpine:latest" = ("alpine", "latest", none) ∧
    ∃ tags,
      lastTagsResult (eventsOf
        (processPodSpec sampleLib downWrapper privatePodSpec "/spec" "" ()).log
        "containers" 0) = some tags ∧
      ({ From := "", Op := "replace",
         Path := "/spec" ++ "/" ++ "containers" ++ "/" ++ toString 0 ++ "/image",
         Value := "alpine" ++ ":" ++ downWrapper.resolver "latest" tags } : JSONPatch) ∈
        (processPodSpec sampleLib downWrapper privatePodSpec "/spec" "" ()).patches :=
  ⟨by decide, by decide,
    (processPodSpec_patch_per_wellformed_image sampleLib downWrapper privatePodSpec "/spec" ""
      ()).2 "containers" 0 ⟨"alpine:latest"⟩ "alpine" "latest" (by decide) (by decide)⟩

/-! ## The sequence of registry calls -/

/-- The registry calls of one pass for a well-formed image, with the anonymous call in
front: failed calls, then at most one successful call, along the candidates "no
credential, then each decoded credential". -/
theorem containerBody_calls {σ : Type} (lib : Lib) (w : Wrapper σ)
    (specPath ct : String) (secrets : List Secret) (i : Nat) (ctr : Container) (s : σ)
    (repo tag : String) (h : docker.Split ctr.Image = (repo, tag, none)) :
    ∃ (failed : List (Option docker.Auth × List String × Err))
      (final : Option (Option docker.Auth × List String)),
      (containerBody lib w specPath ct secrets i ctr s).2.2.filter Event.isTags =
        failed.map (fun x => Event.Tags x.1 repo x.2.1 (some x.2.2)) ++
        final.toList.map (fun x => Event.Tags x.1 repo x.2 none) ∧
      failed.map (fun x => x.1) ++ final.toList.map (fun x => x.1) <+:
        none :: (credentials lib ctr.Image secrets).map some ∧
      (failed.map (fun x => x.1) ++ final.toList.map (fun x => x.1)).head? = some none ∧
      (final = none →
        failed.map (fun x => x.1) = none :: (credentials lib ctr.Image secrets).map some) ∧
      (∀ x, final = some x →
        (containerBody lib w specPath ct secrets i ctr s).2.2.filter Event.isResolve =
          [Event.Resolve tag x.2]) := by
  obtain ⟨t0, e0, fb, h1, _, h3, h4, h5⟩ :=
    containerBody_ok lib w specPath ct secrets i ctr s repo tag h
  have hres : ∀ l : List String,
      (Event.Tags none repo t0 e0 :: (fb ++ [Event.Resolve tag l])).filter Event.isResolve =
        [Event.Resolve tag l] := by
    intro l
    have hfb : fb.filter Event.isResolve = [] := by
      rw [List.filter_eq_nil_iff]
      intro e he
      simp [(h3 e he).1]
    simp [List.filter_cons, Event.isResolve, hfb]
  cases e0 with
  | none =>
    have hfb := h4 rfl
    subst hfb
    refine ⟨[], some (none, t0), ?_, ?_, ?_, ?_, ?_⟩
    · rw [h1]
      simp [List.filter_cons, Event.isTags]
    · simp
    · simp
    · simp
    · intro x hx
      simp only [Option.some.injEq] at hx
      subst hx
      rw [h1]
      exact hres _
  | some err =>
    obtain ⟨failed, final, g1, g2, g3, g4⟩ := h5 (by simp)
    refine ⟨(none, t0, err) :: failed.map (fun x => (some x.1, x.2.1, x.2.2)),
      final.map (fun x => (some x.1, x.2)), ?_, ?_, ?_, ?_, ?_⟩
    · rw [h1, List.filter_cons_of_pos (by simp [Event.isTags]), List.filter_append, g1]
      cases final <;> simp [List.filter_cons, Event.isTags, Function.comp_def]
    · have := List.IsPrefix.map some g2
      cases final <;> simpa [Function.comp_def] using this
    · simp
    · intro hf
      have hf' : final = none := by
        cases final with
        | none => rfl
        | some x => simp at hf
      have := g3 hf'
      simp [Function.comp_def, ← this]
    · intro x hx
      cases final with
      | none => simp at hx
      | some y =>
        simp only [Option.map_some', Option.some.injEq] at hx
        subst hx
        rw [h1, hres, g4 y rfl]

/-- When the anonymous call succeeds, the pass consists of that call and the resolver
call: no credential is decoded and no further registry call is made. -/
theorem containerBody_anonymous_ok {σ : Type} (lib : Lib) (w : Wrapper σ)
    (specPath ct : String) (secrets : List Secret) (i : Nat) (ctr : Container) (s : σ)
    (repo tag : String) (h : docker.Split ctr.Image = (repo, tag, none)) (t : List String)
    (hmem : Event.Tags none repo t none ∈
      (containerBody lib w specPath ct secrets i ctr s).2.2) :
    (containerBody lib w specPath ct secrets i ctr s).2.2 =
      [Event.Tags none repo t none, Event.Resolve tag t] := by
  obtain ⟨t0, e0, fb, h1, _, _, h4, h5⟩ :=
    containerBody_ok lib w specPath ct secrets i ctr s repo tag h
  rw [h1] at hmem ⊢
  cases e0 with
  | none =>
    have hfb := h4 rfl
    subst hfb
    simp at hmem
    subst hmem
    simp [tagsAfter]
  | some err =>
    exfalso
    obtain ⟨failed, final, g1, _, _, _⟩ := h5 (by simp)
    simp only [List.mem_cons, Event.Tags.injEq, List.mem_append, List.mem_singleton] at hmem
    rcases hmem with ⟨_, _, _, h⟩ | h | h
    · simp at h
    · have hin : Event.Tags none repo t none ∈ fb.filter Event.isTags :=
        List.mem_filter.mpr ⟨h, rfl⟩
      rw [g1] at hin
      simp at hin
    · simp at h

/-- Claim C7. For a container with a well-formed image the registry calls are: failed
calls followed by at most one successful call, which is the last; the credentials used
are, in order, "none" and then the credentials decoded from the fetched secrets in
pull-secret order, possibly cut short; the sequence starts with the anonymous call, uses
every decoded credential when no call succeeds, and the resolver receives the tag list
of the successful call. If the anonymous call succeeds, nothing else happens for that
container but the resolver call. -/
theorem processPodSpec_tags_calls {σ : Type} (lib : Lib) (w : Wrapper σ)
    (podSpec : PodSpec) (specPath ns : String) (s : σ) (c : String) (i : Nat)
    (ctr : Container) (repo tag : String)
    (hat : containerAt podSpec c i = some ctr)
    (hsplit : docker.Split ctr.Image = (repo, tag, none)) :
    (∃ (failed : List (Option docker.Auth × List String × Err))
      (final : Option (Option docker.Auth × List String)),
      (eventsOf (processPodSpec lib w podSpec specPath ns s).log c i).filter Event.isTags =
        failed.map (fun x => Event.Tags x.1 repo x.2.1 (some x.2.2)) ++
        final.toList.map (fun x => Event.Tags x.1 repo x.2 none) ∧
      failed.map (fun x => x.1) ++ final.toList.map (fun x => x.1) <+:
        none :: (credentials lib ctr.Image
          (fetchedSecrets (processPodSpec lib w podSpec specPath ns s).log c)).map some ∧
      (failed.map (fun x => x.1) ++ final.toList.map (fun x => x.1)).head? = some none ∧
      (final = none →
        failed.map (fun x => x.1) = none :: (credentials lib ctr.Image
          (fetchedSecrets (processPodSpec lib w podSpec specPath ns s).log c)).map some) ∧
      (∀ x, final = some x →
        (eventsOf (processPodSpec lib w podSpec specPath ns s).log c i).filter
          Event.isResolve = [Event.Resolve tag x.2])) ∧
    (∀ t, Event.Tags none repo t none ∈
        eventsOf (processPodSpec lib w podSpec specPath ns s).log c i →
      eventsOf (processPodSpec lib w podSpec specPath ns s).log c i =
        [Event.Tags none repo t none, Event.Resolve tag t]) := by
  obtain ⟨s', hev, _⟩ := processPodSpec_at lib w podSpec specPath ns s c i ctr hat
  rw [hev]
  exact ⟨containerBody_calls lib w specPath c _ i ctr s' repo tag hsplit,
    fun t ht => containerBody_anonymous_ok lib w specPath c _ i ctr s' repo tag hsplit t ht⟩

theorem processPodSpec_tags_calls_witness :
    containerAt privatePodSpec "containers" 0 = some ⟨"alpine:latest"⟩ ∧
    docker.Split "alpine:latest" = ("alpine", "latest", none) ∧
    (∃ (failed : List (Option docker.Auth × List String × Err))
      (final : Option (Option docker.Auth × List String)),
      (eventsOf (processPodSpec sampleLib privateWrapper privatePodSpec "/spec" "" ()).log
        "containers" 0).filter Event.isTags =
        failed.map (fun x => Event.Tags x.1 "alpine" x.2.1 (some x.2.2)) ++
        final.toList.map (fun x => Event.Tags x.1 "alpine" x.2 none) ∧
      failed.map (fun x => x.1) ++ final.toList.map (fun x => x.1) <+:
        none :: (credentials sampleLib "alpine:latest"
          (fetchedSecrets
            (processPodSpec sampleLib privateWrapper privatePodSpec "/spec" "" ()).log
            "containers")).map some ∧
      (failed.map (fun x => x.1) ++ final.toList.map (fun x => x.1)).head? = some none ∧
      (final = none →
        failed.map (fun x => x.1) = none :: (credentials sampleLib "alpine:latest"
          (fetchedSecrets
            (processPodSpec sampleLib privateWrapper privatePodSpec "/spec" "" ()).log
            "containers")).map some) ∧
      (∀ x, final = some x →
        (eventsOf (processPodSpec sampleLib privateWrapper privatePodSpec "/spec" "" ()).log
          "containers" 0).filter Event.isResolve = [Event.Resolve "latest" x.2])) ∧
    (∀ t, Event.Tags none "alpine" t none ∈
        eventsOf (processPodSpec sampleLib privateWrapper privatePodSpec "/spec" "" ()).log
          "containers" 0 →
      eventsOf (processPodSpec sampleLib privateWrapper privatePodSpec "/spec" "" ()).log
        "containers" 0 = [Event.Tags none "alpine" t none, Event.Resolve "latest" t]) :=
  ⟨by decide, by decide,
    processPodSpec_tags_calls sampleLib privateWrapper privatePodSpec "/spec" "" ()
      "containers" 0 ⟨"alpine:latest"⟩ "alpine" "latest" (by decide) (by decide)⟩

/-- The run behind the witness above: secret `a` does not decode, the listing with the
credential of `b` succeeds, and the resolver gets the list obtained with `b`. -/
theorem privateWrapper_run :
    eventsOf (processPodSpec sampleLib privateWrapper privatePodSpec "/spec" "" ()).log
      "containers" 0 =
      [Event.Tags none "alpine" ["0.1"] (some "unauthorized"),
       Event.glogError "no docker config found in secret",
       Event.Tags (some ⟨"testuser", "testpass"⟩) "alpine" ["1.0"] none,
       Event.Resolve "latest" ["1.0"]] ∧
    (processPodSpec sampleLib privateWrapper privatePodSpec "/spec" "" ()).patches =
      [⟨"", "replace", "/spec/containers/0/image", "alpine:1.0"⟩] := by
  decide

/-! ## When every listing fails -/

/-- Counterexample to claim C5. With a registry that fails every listing, pull secret
`a` failing to decode and the listing with the credential of `b` failing, no registry
call of the container succeeds, yet its patch is emitted. -/
theorem processPodSpec_skips_unlisted_container_counterexample :
    (∀ e ∈ eventsOf (processPodSpec sampleLib downWrapper privatePodSpec "/spec" "" ()).log
      "containers" 0, e.isSuccess = false) ∧
    eventsOf (processPodSpec sampleLib downWrapper privatePodSpec "/spec" "" ()).log
      "containers" 0 =
      [Event.Tags none "alpine" [] (some "not-valid-secret"),
       Event.glogError "no docker config found in secret",
       Event.Tags (some ⟨"testuser", "testpass"⟩) "alpine" [] (some "not-valid-secret"),
       Event.glogError "not-valid-secret",
       Event.Resolve "latest" []] ∧
    (processPodSpec sampleLib downWrapper privatePodSpec "/spec" "" ()).patches =
      [⟨"", "replace", "/spec/containers/0/image", "alpine:1.0"⟩] ∧
    (processPodSpec sampleLib downWrapper privatePodSpec "/spec" "" ()).err = none := by
  decide

/-- Claim C5, amended. If no registry call made for a well-formed container succeeds,
then the anonymous call and one call per decoded credential were made,
`processPodSpec` returns no error, and the patch of that container is still emitted,
with `repo:Resolve(tag, tags)` where `tags` is the list returned by the last of these
failed calls. -/
theorem processPodSpec_patch_when_listings_fail {σ : Type} (lib : Lib) (w : Wrapper σ)
    (podSpec : PodSpec) (specPath ns : String) (s : σ) (c : String) (i : Nat)
    (ctr : Container) (repo tag : String)
    (hat : containerAt podSpec c i = some ctr)
    (hsplit : docker.Split ctr.Image = (repo, tag, none))
    (hfail : ∀ e ∈ eventsOf (processPodSpec lib w podSpec specPath ns s).log c i,
      e.isSuccess = false) :
    (processPodSpec lib w podSpec specPath ns s).err = none ∧
    ((eventsOf (processPodSpec lib w podSpec specPath ns s).log c i).filter
      Event.isTags).length =
      1 + (credentials lib ctr.Image
        (fetchedSecrets (processPodSpec lib w podSpec specPath ns s).log c)).length ∧
    ∃ tags,
      lastTagsResult (eventsOf (processPodSpec lib w podSpec specPath ns s).log c i) =
        some tags ∧
      ({ From := "", Op := "replace",
         Path := specPath ++ "/" ++ c ++ "/" ++ toString i ++ "/image",
         Value := repo ++ ":" ++ w.resolver tag tags } : JSONPatch) ∈
        (processPodSpec lib w podSpec specPath ns s).patches := by
  refine ⟨processPodSpec_err lib w podSpec specPath ns s, ?_,
    processPodSpec_last_listing lib w podSpec specPath ns s c i ctr repo tag hat hsplit⟩
  obtain ⟨s', hev, _⟩ := processPodSpec_at lib w podSpec specPath ns s c i ctr hat
  obtain ⟨failed, final, h1, _, _, h4, _⟩ := containerBody_calls lib w specPath c
    (fetchedSecrets (processPodSpec lib w podSpec specPath ns s).log c) i ctr s' repo tag hsplit
  rw [hev] at hfail ⊢
  have hfinal : final = none := by
    cases hf : final with
    | none => rfl
    | some x =>
      exfalso
      have hin : Event.Tags x.1 repo x.2 none ∈
          (containerBody lib w specPath c
            (fetchedSecrets (processPodSpec lib w podSpec specPath ns s).log c) i ctr
            s').2.2.filter Event.isTags := by
        rw [h1, hf]
        simp
      have := hfail _ (List.mem_filter.mp hin).1
      simp [Event.isSuccess] at this
  have hlen := congrArg List.length (h4 hfinal)
  rw [h1, hfinal]
  simp only [List.length_map, List.length_cons] at hlen
  simp only [Option.toList_none, List.map_nil, List.append_nil, List.length_map]
  omega

theorem processPodSpec_patch_when_listings_fail_witness :
    containerAt privatePodSpec "containers" 0 = some ⟨"alpine:latest"⟩ ∧
    docker.Split "alpine:latest" = ("alpine", "latest", none) ∧
    (∀ e ∈ eventsOf (processPodSpec sampleLib downWrapper privatePodSpec "/spec" "" ()).log
      "containers" 0, e.isSuccess = false) ∧
    (processPodSpec sampleLib downWrapper privatePodSpec "/spec" "" ()).err = none ∧
    ((eventsOf (processPodSpec sampleLib downWrapper privatePodSpec "/spec" "" ()).log
      "containers" 0).filter Event.isTags).length =
      1 + (credentials sampleLib "alpine:latest"
        (fetchedSecrets (processPodSpec sampleLib downWrapper privatePodSpec "/spec" ""
          ()).log "containers")).length ∧
    ∃ tags,
      lastTagsResult (eventsOf
        (processPodSpec sampleLib downWrapper privatePodSpec "/spec" "" ()).log
        "containers" 0) = some tags ∧
      ({ From := "", Op := "replace",
         Path := "/spec" ++ "/" ++ "containers" ++ "/" ++ toString 0 ++ "/image",
         Value := "alpine" ++ ":" ++ downWrapper.resolver "latest" tags } : JSONPatch) ∈
        (processPodSpec sampleLib downWrapper privatePodSpec "/spec" "" ()).patches :=
  ⟨by decide, by decide, by decide,
    processPodSpec_patch_when_listings_fail sampleLib downWrapper privatePodSpec "/spec" ""
      () "containers" 0 ⟨"alpine:latest"⟩ "alpine" "latest" (by decide) (by decide)
      (by decide)⟩

/-! ## Malformed images -/

theorem Split_fails_of_bad (image : String)
    (h : image = "" ∨ image.toList.count ':' ≠ 1) : (docker.Split image).2.2 ≠ none := by
  intro hok
  have h1 := (Split_ok_iff image).mp hok
  rcases h with h | h
  · rw [h] at h1
    revert h1
    decide
  · exact h h1

/-- Claim C8. A container whose image is empty or does not have exactly one `:` only
has its error logged (no registry call, no resolver call), no returned patch carries its
path, no error is returned, and every well-formed container of the same class still gets
its resolver call and its patch, under its own array index. -/
theorem processPodSpec_malformed_image {σ : Type} (lib : Lib) (w : Wrapper σ)
    (podSpec : PodSpec) (specPath ns : String) (s : σ) (c : String) (i : Nat)
    (ctr : Container)
    (hat : containerAt podSpec c i = some ctr)
    (hbad : ctr.Image = "" ∨ ctr.Image.toList.count ':' ≠ 1) :
    (∃ err, eventsOf (processPodSpec lib w podSpec specPath ns s).log c i =
      [Event.glogError err]) ∧
    (∀ p ∈ (processPodSpec lib w podSpec specPath ns s).patches,
      p.Path ≠ specPath ++ "/" ++ c ++ "/" ++ toString i ++ "/image") ∧
    (processPodSpec lib w podSpec specPath ns s).err = none ∧
    (∀ (j : Nat) (sibling : Container) (repo tag : String),
      containerAt podSpec c j = some sibling →
      docker.Split sibling.Image = (repo, tag, none) →
      ∃ tags,
        (eventsOf (processPodSpec lib w podSpec specPath ns s).log c j).filter
          Event.isResolve = [Event.Resolve tag tags] ∧
        ({ From := "", Op := "replace",
           Path := specPath ++ "/" ++ c ++ "/" ++ toString j ++ "/image",
           Value := repo ++ ":" ++ w.resolver tag tags } : JSONPatch) ∈
          (processPodSpec lib w podSpec specPath ns s).patches) := by
  have hfail := Split_fails_of_bad ctr.Image hbad
  refine ⟨?_, ?_, processPodSpec_err lib w podSpec specPath ns s, ?_⟩
  · obtain ⟨s', hev, _⟩ := processPodSpec_at lib w podSpec specPath ns s c i ctr hat
    obtain ⟨err, hb⟩ := containerBody_malformed lib w specPath c
      (fetchedSecrets (processPodSpec lib w podSpec specPath ns s).log c) i ctr s' hfail
    exact ⟨err, by rw [hev, hb]⟩
  · intro p hp hpath
    obtain ⟨c', j, ctr', repo, tag, tags, hat', hsp, rfl⟩ :=
      processPodSpec_patch_form lib w podSpec specPath ns s p hp
    have hinj := imagePath_injective specPath c' c j i
      (containerAt_class podSpec c' j ctr' hat') (containerAt_class podSpec c i ctr hat) hpath
    obtain ⟨rfl, rfl⟩ := hinj
    rw [hat] at hat'
    simp only [Option.some.injEq] at hat'
    subst hat'
    rw [hsp] at hfail
    simp at hfail
  · intro j sibling repo tag hat' hsp
    exact processPodSpec_resolve_call lib w podSpec specPath ns s c j sibling repo tag hat' hsp

theorem processPodSpec_malformed_image_witness :
    containerAt mixedPodSpec "containers" 0 = some ⟨"alpine"⟩ ∧
    ("alpine" = "" ∨ "alpine".toList.count ':' ≠ 1) ∧
    (∃ err, eventsOf (processPodSpec sampleLib openWrapper mixedPodSpec "/spec" "" ()).log
      "containers" 0 = [Event.glogError err]) ∧
    (∀ p ∈ (processPodSpec sampleLib openWrapper mixedPodSpec "/spec" "" ()).patches,
      p.Path ≠ "/spec" ++ "/" ++ "containers" ++ "/" ++ toString 0 ++ "/image") ∧
    (processPodSpec sampleLib openWrapper mixedPodSpec "/spec" "" ()).err = none ∧
    (∀ (j : Nat) (sibling : Container) (repo tag : String),
      containerAt mixedPodSpec "containers" j = some sibling →
      docker.Split sibling.Image = (repo, tag, none) →
      ∃ tags,
        (eventsOf (processPodSpec sampleLib openWrapper mixedPodSpec "/spec" "" ()).log
          "containers" j).filter Event.isResolve = [Event.Resolve tag tags] ∧
        ({ From := "", Op := "replace",
           Path := "/spec" ++ "/" ++ "containers" ++ "/" ++ toString j ++ "/image",
           Value := repo ++ ":" ++ openWrapper.resolver tag tags } : JSONPatch) ∈
          (processPodSpec sampleLib openWrapper mixedPodSpec "/spec" "" ()).patches) :=
  ⟨by decide, by decide,
    processPodSpec_malformed_image sampleLib openWrapper mixedPodSpec "/spec" "" ()
      "containers" 0 ⟨"alpine"⟩ (by decide) (by decide)⟩

/-- The run behind the witness above: for the containers `alpine` (malformed) and
`alpine:latest`, the only patch is written at index 1. -/
theorem mixedPodSpec_run :
    (processPodSpec sampleLib openWrapper mixedPodSpec "/spec" "" ()).patches =
      [⟨"", "replace", "/spec/containers/1/image", "alpine:1.0"⟩] ∧
    eventsOf (processPodSpec sampleLib openWrapper mixedPodSpec "/spec" "" ()).log
      "containers" 0 = [Event.glogError "invalid image format"] := by
  decide

/-! ## Errors -/

/-- Claim C10. `GetImagePullSecrets` and `processPodSpec` return no error, whatever the
pod spec and the collaborators do; an error returned by `GetPatches` is the decode error
of the payload of a supported kind. -/
theorem GetPatches_error_is_decode_error {σ : Type} (lib : Lib) (w : Wrapper σ) :
    (∀ (refs : List LocalObjectReference) (ns : String) (s : σ),
      (GetImagePullSecrets w refs ns s).err = none) ∧
    (∀ (podSpec : PodSpec) (specPath ns : String) (s : σ),
      (processPodSpec lib w podSpec specPath ns s).err = none) ∧
    (∀ (ar : AdmissionRequest) (s : σ) (e : Err), (GetPatches lib w ar s).err = some e →
      (ar.Kind.Kind = "Pod" ∧ lib.unmarshalPod ar.Object.Raw = .error e) ∨
      (ar.Kind.Kind ∈ ["ReplicationController", "Job", "ReplicaSet", "Deployment",
        "StatefulSet", "DaemonSet"] ∧ lib.unmarshalTemplateKind ar.Object.Raw = .error e) ∨
      (ar.Kind.Kind = "CronJob" ∧ lib.unmarshalCronJob ar.Object.Raw = .error e)) := by
  refine ⟨fun refs ns s => GetImagePullSecrets_err w refs ns s,
    fun podSpec specPath ns s => processPodSpec_err lib w podSpec specPath ns s, ?_⟩
  intro ar s e he
  unfold GetPatches at he
  by_cases h1 : ar.Kind.Kind = "Pod"
  · rw [if_pos h1] at he
    left
    refine ⟨h1, ?_⟩
    cases hd : lib.unmarshalPod ar.Object.Raw with
    | error err =>
      rw [hd] at he
      simp only [Option.some.injEq] at he
      rw [he]
    | ok pod =>
      rw [hd] at he
      simp only [processPodSpec_err] at he
      simp at he
  · rw [if_neg h1] at he
    by_cases h2 : ar.Kind.Kind ∈ templateKinds
    · rw [if_pos h2] at he
      right; left
      refine ⟨h2, ?_⟩
      cases hd : lib.unmarshalTemplateKind ar.Object.Raw with
      | error err =>
        rw [hd] at he
        simp only [Option.some.injEq] at he
        rw [he]
      | ok t =>
        rw [hd] at he
        simp only [processPodSpec_err] at he
        simp at he
    · rw [if_neg h2] at he
      by_cases h3 : ar.Kind.Kind = "CronJob"
      · rw [if_pos h3] at he
        right; right
        refine ⟨h3, ?_⟩
        cases hd : lib.unmarshalCronJob ar.Object.Raw with
        | error err =>
          rw [hd] at he
          simp only [Option.some.injEq] at he
          rw [he]
        | ok cj =>
          rw [hd] at he
          simp only [processPodSpec_err] at he
          simp at he
      · rw [if_neg h3] at he
        simp at he

theorem GetPatches_error_is_decode_error_witness :
    (GetPatches sampleLib downWrapper ⟨"uid", ⟨"CronJob"⟩, ⟨"not json"⟩⟩ ()).err =
      some "unexpected end of JSON input" ∧
    (("CronJob" = "Pod" ∧
        sampleLib.unmarshalPod "not json" = .error "unexpected end of JSON input") ∨
      ("CronJob" ∈ ["ReplicationController", "Job", "ReplicaSet", "Deployment",
        "StatefulSet", "DaemonSet"] ∧
        sampleLib.unmarshalTemplateKind "not json" = .error "unexpected end of JSON input") ∨
      ("CronJob" = "CronJob" ∧
        sampleLib.unmarshalCronJob "not json" = .error "unexpected end of JSON input")) :=
  ⟨by decide,
    (GetPatches_error_is_decode_error sampleLib downWrapper).2.2
      ⟨"uid", ⟨"CronJob"⟩, ⟨"not json"⟩⟩ () "unexpected end of JSON input" (by decide)⟩

/-! ## `Split` -/

/-- Claim C12. `Split` returns an error exactly when the image is empty or its number of
`:` differs from one, and then both returned strings are empty. -/
theorem Split_error_iff (image : String) :
    ((docker.Split image).2.2 ≠ none ↔ image = "" ∨ image.toList.count ':' ≠ 1) ∧
    ((docker.Split image).2.2 ≠ none →
      (docker.Split image).1 = "" ∧ (docker.Split image).2.1 = "") := by
  refine ⟨⟨?_, Split_fails_of_bad image⟩, ?_⟩
  · intro h
    right
    intro hc
    exact h ((Split_ok_iff image).mpr hc)
  · intro h
    obtain ⟨err, herr⟩ := Split_err image h
    rw [herr]
    exact ⟨rfl, rfl⟩

theorem Split_error_iff_witness :
    (docker.Split "a:b:c").2.2 ≠ none ∧
    (docker.Split "a:b:c").1 = "" ∧ (docker.Split "a:b:c").2.1 = "" :=
  ⟨by decide, (Split_error_iff "a:b:c").2 (by decide)⟩

theorem splitChars_no_sep (sep : Char) (l : List Char) (h : sep ∉ l) :
    splitChars sep l = [l] := by
  induction l with
  | nil => rfl
  | cons c cs ih =>
    have hc : c ≠ sep := fun hc => h (by simp [hc])
    have hcs : sep ∉ cs := fun hcs => h (List.mem_cons_of_mem _ hcs)
    rw [splitChars, if_neg hc, ih hcs]

theorem splitChars_append_sep (sep : Char) (a b : List Char) (h : sep ∉ a) :
    splitChars sep (a ++ sep :: b) = a :: splitChars sep b := by
  induction a with
  | nil => simp [splitChars]
  | cons c cs ih =>
    have hc : c ≠ sep := fun hc => h (by simp [hc])
    have hcs : sep ∉ cs := fun hcs => h (List.mem_cons_of_mem _ hcs)
    rw [List.cons_append, splitChars, if_neg hc, ih hcs]

/-- The pieces contain no separator, and joining them with the separator gives the list
back. -/
theorem splitChars_spec (sep : Char) (l : List Char) :
    (∀ p ∈ splitChars sep l, sep ∉ p) ∧ List.intercalate [sep] (splitChars sep l) = l := by
  induction l with
  | nil => simp [splitChars, List.intercalate]
  | cons c cs ih =>
    obtain ⟨ih1, ih2⟩ := ih
    unfold splitChars
    by_cases hc : c = sep
    · subst hc
      rw [if_pos rfl]
      refine ⟨?_, ?_⟩
      · intro p hp
        rcases List.mem_cons.mp hp with rfl | hp
        · simp
        · exact ih1 p hp
      · cases hs : splitChars c cs with
        | nil => exact absurd hs (splitChars_ne_nil c cs)
        | cons q qs =>
          rw [hs] at ih2
          rw [← ih2]
          simp [List.intercalate, List.intersperse]
    · rw [if_neg hc]
      cases hs : splitChars sep cs with
      | nil => exact absurd hs (splitChars_ne_nil sep cs)
      | cons q qs =>
        rw [hs] at ih1 ih2
        refine ⟨?_, ?_⟩
        · intro p hp
          rcases List.mem_cons.mp hp with rfl | hp
          · intro hmem
            rcases List.mem_cons.mp hmem with h | h
            · exact hc h.symm
            · exact ih1 q (List.mem_cons_self _ _) h
          · exact ih1 p (List.mem_cons_of_mem _ hp)
        · rw [← ih2]
          cases qs <;> simp [List.intercalate, List.intersperse]

/-- The parts of a successful `Split` join back to the image and contain no `:`. -/
theorem Split_parts (image base tag : String) (h : docker.Split image = (base, tag, none)) :
    base ++ ":" ++ tag = image ∧ ':' ∉ base.toList ∧ ':' ∉ tag.toList := by
  unfold docker.Split at h
  by_cases h0 : image = ""
  · rw [if_pos h0] at h
    simp at h
  · rw [if_neg h0] at h
    obtain ⟨hno, hjoin⟩ := splitChars_spec ':' image.toList
    cases hs : splitChars ':' image.toList with
    | nil => exact absurd hs (splitChars_ne_nil _ _)
    | cons a rest =>
      cases rest with
      | nil =>
        simp only [stringsSplit, hs, List.map_cons, List.map_nil] at h
        simp at h
      | cons b rest2 =>
        cases rest2 with
        | cons c rest3 =>
          simp only [stringsSplit, hs, List.map_cons] at h
          simp at h
        | nil =>
          simp only [stringsSplit, hs, List.map_cons, List.map_nil, Prod.mk.injEq,
            and_true] at h
          obtain ⟨rfl, rfl⟩ := h
          rw [hs] at hno hjoin
          refine ⟨?_, hno a (by simp), hno b (by simp)⟩
          apply String.ext
          simp only [String.data_append]
          rw [← show image.toList = image.data from rfl, ← hjoin]
          simp [List.intercalate, List.intersperse]

/-- Claim C13. When `Split` succeeds with `(base, tag)`, the image is `base:tag` and
neither part contains `:`; and for every `base` and `tag` without `:`, also empty ones,
`Split` of `base:tag` gives back `(base, tag)`. -/
theorem Split_roundtrip :
    (∀ image base tag : String, docker.Split image = (base, tag, none) →
      base ++ ":" ++ tag = image ∧ ':' ∉ base.toList ∧ ':' ∉ tag.toList) ∧
    (∀ base tag : String, ':' ∉ base.toList → ':' ∉ tag.toList →
      docker.Split (base ++ ":" ++ tag) = (base, tag, none)) := by
  refine ⟨fun image base tag h => Split_parts image base tag h, ?_⟩
  intro base tag hb ht
  have hne : base ++ ":" ++ tag ≠ "" := by
    intro h
    have := congrArg String.length h
    simp at this
    exact absurd this.1.2 (by decide)
  have hsplit : splitChars ':' (base ++ ":" ++ tag).toList = [base.toList, tag.toList] := by
    have : (base ++ ":" ++ tag).toList = base.toList ++ ':' :: tag.toList := by
      simp [String.toList, String.data_append]
    rw [this, splitChars_append_sep ':' _ _ hb, splitChars_no_sep ':' _ ht]
  unfold docker.Split
  rw [if_neg hne]
  simp only [stringsSplit, hsplit, List.map_cons, List.map_nil]
  rfl

theorem Split_roundtrip_witness :
    docker.Split "alpine:latest" = ("alpine", "latest", none) ∧
    ("alpine" ++ ":" ++ "latest" = "alpine:latest" ∧ ':' ∉ "alpine".toList ∧
      ':' ∉ "latest".toList) ∧
    (':' ∉ "".toList ∧ ':' ∉ "".toList) ∧ docker.Split ("" ++ ":" ++ "") = ("", "", none) :=
  ⟨by decide, Split_roundtrip.1 "alpine:latest" "alpine" "latest" (by decide),
    by decide, Split_roundtrip.2 "" "" (by decide) (by decide)⟩

/-! ## The lookups of `GetImagePullSecrets` -/

theorem pullSecretLoop_cons {σ : Type} (w : Wrapper σ) (ns : String)
    (ref : LocalObjectReference) (rest : List LocalObjectReference) (secrets : List Secret)
    (s : σ) :
    ∃ extra glog,
      (pullSecretLoop w ns (ref :: rest) secrets s).log =
        Event.Get ns ref.Name (w.secretRetriever ns ref.Name s).1 ::
          (glog ++ (pullSecretLoop w ns rest (secrets ++ extra)
            (w.secretRetriever ns ref.Name s).2).log) ∧
      (pullSecretLoop w ns (ref :: rest) secrets s).secrets =
        (pullSecretLoop w ns rest (secrets ++ extra)
          (w.secretRetriever ns ref.Name s).2).secrets ∧
      extra = (w.secretRetriever ns ref.Name s).1.secret?.toList ∧
      (∀ e ∈ glog, e.isGet = false ∧ e.lookupKey = none) := by
  rw [pullSecretLoop]
  split
  · rename_i err herr
    split
    · exact ⟨[], [], by simp, by simp, by simp [herr, GetResult.secret?], by simp⟩
    · exact ⟨[], [Event.glogError err.msg], by simp, by simp,
        by simp [herr, GetResult.secret?], by simp [Event.isGet, Event.lookupKey]⟩
  · rename_i secret hsec
    exact ⟨[secret], [], by simp, by simp, by simp [hsec, GetResult.secret?], by simp⟩

/-- One lookup per reference, in order, whatever the lookups answer; the secrets returned
are those of the answers that carry one. -/
theorem pullSecretLoop_results {σ : Type} (w : Wrapper σ) (ns : String)
    (refs : List LocalObjectReference) :
    ∀ (secrets : List Secret) (s : σ),
      ∃ results : List GetResult, results.length = refs.length ∧
        (pullSecretLoop w ns refs secrets s).log.filter Event.isGet =
          List.zipWith (fun ref res => Event.Get ns ref.Name res) refs results ∧
        (pullSecretLoop w ns refs secrets s).secrets =
          secrets ++ results.filterMap GetResult.secret? := by
  induction refs with
  | nil => intro secrets s; exact ⟨[], rfl, by simp [pullSecretLoop], by simp [pullSecretLoop]⟩
  | cons ref rest ih =>
    intro secrets s
    obtain ⟨extra, glog, hlog, hsec, hextra, hglog⟩ := pullSecretLoop_cons w ns ref rest secrets s
    obtain ⟨results, hlen, h1, h2⟩ := ih (secrets ++ extra) (w.secretRetriever ns ref.Name s).2
    refine ⟨(w.secretRetriever ns ref.Name s).1 :: results, by simp [hlen], ?_, ?_⟩
    · have hg : glog.filter Event.isGet = [] := by
        rw [List.filter_eq_nil_iff]
        intro e he
        simp [(hglog e he).1]
      rw [hlog, List.filter_cons_of_pos (by simp [Event.isGet]), List.filter_append, hg, h1]
      simp
    · rw [hsec, h2, hextra]
      cases (w.secretRetriever ns ref.Name s).1 <;> simp [GetResult.secret?]

theorem pullSecretLoop_keys {σ : Type} (w : Wrapper σ) (ns : String)
    (refs : List LocalObjectReference) :
    ∀ (secrets : List Secret) (s : σ),
      (pullSecretLoop w ns refs secrets s).log.filterMap Event.lookupKey =
        refs.map (fun ref => (ns, ref.Name)) := by
  induction refs with
  | nil => intro secrets s; simp [pullSecretLoop]
  | cons ref rest ih =>
    intro secrets s
    obtain ⟨extra, glog, hlog, _, _, hglog⟩ := pullSecretLoop_cons w ns ref rest secrets s
    have hg : glog.filterMap Event.lookupKey = [] := by
      rw [List.filterMap_eq_nil_iff]
      intro e he
      exact (hglog e he).2
    rw [hlog, List.filterMap_cons, List.filterMap_append, hg, ih]
    simp [Event.lookupKey]

/-- Claim C20. `GetImagePullSecrets` returns no error; it performs one lookup per
pull-secret reference, in order, whatever the earlier lookups answered, and returns the
secrets of the lookups that reported no error, in that order. -/
theorem GetImagePullSecrets_result {σ : Type} (w : Wrapper σ)
    (refs : List LocalObjectReference) (ns : String) (s : σ) :
    (GetImagePullSecrets w refs ns s).err = none ∧
    ∃ results : List GetResult, results.length = refs.length ∧
      (GetImagePullSecrets w refs ns s).log.filter Event.isGet =
        List.zipWith (fun ref res => Event.Get (if ns = "" then "default" else ns) ref.Name res)
          refs results ∧
      (GetImagePullSecrets w refs ns s).secrets = results.filterMap GetResult.secret? ∧
      List.Sublist ((GetImagePullSecrets w refs ns s).secrets.map GetResult.found) results := by
  refine ⟨GetImagePullSecrets_err w refs ns s, ?_⟩
  obtain ⟨results, hlen, h1, h2⟩ :=
    pullSecretLoop_results w (if ns = "" then "default" else ns) refs [] s
  refine ⟨results, hlen, h1, by simpa [GetImagePullSecrets] using h2, ?_⟩
  have h3 : (GetImagePullSecrets w refs ns s).secrets = results.filterMap GetResult.secret? := by
    simpa [GetImagePullSecrets] using h2
  rw [h3]
  clear h1 h2 h3 hlen
  induction results with
  | nil => simp
  | cons r rs ih =>
    cases r with
    | found secret =>
      simp only [List.filterMap_cons, GetResult.secret?, List.map_cons]
      exact List.Sublist.cons₂ _ ih
    | failed err =>
      simp only [List.filterMap_cons, GetResult.secret?]
      exact List.Sublist.cons _ ih

/-- A run of `GetImagePullSecrets`: the lookup of `a` fails, is logged and skipped, and
the lookup of `mysecret` still takes place. -/
theorem flakyWrapper_run :
    (GetImagePullSecrets flakyWrapper [⟨"a"⟩, ⟨"mysecret"⟩] "default" ()).secrets =
      [⟨[("name", "mysecret")]⟩] ∧
    (GetImagePullSecrets flakyWrapper [⟨"a"⟩, ⟨"mysecret"⟩] "default" ()).log =
      [Event.Get "default" "a" (.failed ⟨false, "test error"⟩),
       Event.glogError "test error",
       Event.Get "default" "mysecret" (.found ⟨[("name", "mysecret")]⟩)] := by
  decide

/-! ## When the pull secrets are fetched -/

theorem containerBody_no_lookup {σ : Type} (lib : Lib) (w : Wrapper σ)
    (specPath ct : String) (secrets : List Secret) (i : Nat) (ctr : Container) (s : σ) :
    ∀ e ∈ (containerBody lib w specPath ct secrets i ctr s).2.2, e.isGet = false := by
  intro e he
  rcases hsp : docker.Split ctr.Image with ⟨repo, tag, err⟩
  cases err with
  | some err =>
    obtain ⟨err', hb⟩ := containerBody_malformed lib w specPath ct secrets i ctr s
      (by rw [hsp]; simp)
    rw [hb] at he
    simp only [List.mem_singleton] at he
    subst he
    rfl
  | none =>
    obtain ⟨t0, e0, fb, h1, _, h3, _⟩ :=
      containerBody_ok lib w specPath ct secrets i ctr s repo tag hsp
    rw [h1] at he
    simp only [List.mem_cons, List.mem_append, List.not_mem_nil, or_false] at he
    rcases he with rfl | he | rfl
    · rfl
    · exact (h3 e he).2
    · rfl

theorem containerLoop_no_lookup {σ : Type} (lib : Lib) (w : Wrapper σ) (specPath ct : String)
    (secrets : List Secret) (cs : List Container) :
    ∀ (k : Nat) (patches : List JSONPatch) (s : σ),
      ∀ e ∈ (containerLoop lib w specPath ct secrets k cs patches s).2.2,
        e.event.isGet = false := by
  induction cs with
  | nil => intro k patches s e he; simp [containerLoop_nil] at he
  | cons ctr rest ih =>
    intro k patches s e he
    rw [containerLoop_cons] at he
    simp only [List.mem_append, List.mem_map] at he
    rcases he with ⟨ev, hev, rfl⟩ | he
    · exact containerBody_no_lookup lib w specPath ct secrets k ctr s ev hev
    · exact ih _ _ _ e he

/-- Counterexample to claim C11. With a registry whose anonymous listing succeeds for
every container, the pull secrets `a` and `b` are looked up all the same, once for each
container class; and a pod spec without any container has its pull secret looked up
twice. -/
theorem processPodSpec_lazy_lookup_counterexample :
    (∀ e ∈ (processPodSpec sampleLib openWrapper privatePodSpec "/spec" "" ()).log,
      e.event.isTags = true → e.event.isSuccess = true) ∧
    (processPodSpec sampleLib openWrapper privatePodSpec "/spec" "" ()).log.filterMap
      (fun e => e.event.lookupKey) =
      [("default", "a"), ("default", "b"), ("default", "a"), ("default", "b")] ∧
    (processPodSpec sampleLib openWrapper idlePodSpec "/spec" "" ()).log.filterMap
      (fun e => e.event.lookupKey) = [("default", "a"), ("default", "a")] := by
  decide

/-- Claim C11, amended. The pull secrets are fetched eagerly: the log of
`processPodSpec` is the lookups for the init containers (one per pull-secret reference,
in order), then the events of the init containers, then the same lookups again for the
regular containers, then the events of the regular containers; no lookup is made while a
container is processed, and the lookups do not depend on any registry call. -/
theorem processPodSpec_lookups_before_containers {σ : Type} (lib : Lib) (w : Wrapper σ)
    (podSpec : PodSpec) (specPath ns : String) (s : σ) :
    ∃ L1 C1 L2 C2 : List Entry,
      (processPodSpec lib w podSpec specPath ns s).log = L1 ++ (C1 ++ (L2 ++ C2)) ∧
      L1.filterMap (fun e => e.event.lookupKey) =
        podSpec.ImagePullSecrets.map
          (fun ref => (if ns = "" then "default" else ns, ref.Name)) ∧
      (∀ e ∈ L1, e.containerType = "initContainers" ∧ e.containerIndex = none) ∧
      (∀ e ∈ C1, e.containerType = "initContainers" ∧ e.containerIndex ≠ none ∧
        e.event.isGet = false) ∧
      L2.filterMap (fun e => e.event.lookupKey) =
        podSpec.ImagePullSecrets.map
          (fun ref => (if ns = "" then "default" else ns, ref.Name)) ∧
      (∀ e ∈ L2, e.containerType = "containers" ∧ e.containerIndex = none) ∧
      (∀ e ∈ C2, e.containerType = "containers" ∧ e.containerIndex ≠ none ∧
        e.event.isGet = false) := by
  rw [processPodSpec_eq]
  refine ⟨_, _, _, _, by simp only [List.append_nil]; rfl, ?_, ?_, ?_, ?_, ?_, ?_⟩
  · rw [List.filterMap_map]
    exact pullSecretLoop_keys w _ podSpec.ImagePullSecrets [] s
  · intro e he
    simp only [List.mem_map] at he
    obtain ⟨ev, _, rfl⟩ := he
    exact ⟨rfl, rfl⟩
  · intro e he
    obtain ⟨h1, j, h2, _⟩ := containerLoop_log_tag lib w specPath _ _ _ _ _ _ e he
    exact ⟨h1, by rw [h2]; simp, containerLoop_no_lookup lib w specPath _ _ _ _ _ _ e he⟩
  · rw [List.filterMap_map]
    exact pullSecretLoop_keys w _ podSpec.ImagePullSecrets [] _
  · intro e he
    simp only [List.mem_map] at he
    obtain ⟨ev, _, rfl⟩ := he
    exact ⟨rfl, rfl⟩
  · intro e he
    obtain ⟨h1, j, h2, _⟩ := containerLoop_log_tag lib w specPath _ _ _ _ _ _ e he
    exact ⟨h1, by rw [h2]; simp, containerLoop_no_lookup lib w specPath _ _ _ _ _ _ e he⟩

/-! ## `Resolve` -/

theorem mem_compatibles {C V : Type} (lib : SemverLib C V) (c : C) (versions : List String)
    (v : V) :
    v ∈ compatibles lib c versions ↔
      ∃ tag ∈ versions, lib.NewVersion tag = .ok v ∧ lib.Check c v = true := by
  unfold compatibles
  rw [List.mem_filterMap]
  constructor
  · rintro ⟨tag, htag, h⟩
    refine ⟨tag, htag, ?_⟩
    cases hv : lib.NewVersion tag with
    | error e => rw [hv] at h; simp at h
    | ok u =>
      rw [hv] at h
      by_cases hck : lib.Check c u = true
      · simp only [hck, if_true, Option.some.injEq] at h
        subst h
        exact ⟨rfl, hck⟩
      · simp [hck] at h
  · rintro ⟨tag, htag, hv, hck⟩
    exact ⟨tag, htag, by simp [hv, hck]⟩

theorem compatibles_eq_nil_iff {C V : Type} (lib : SemverLib C V) (c : C)
    (versions : List String) :
    compatibles lib c versions = [] ↔
      ∀ tag ∈ versions, ∀ v, lib.NewVersion tag = .ok v → lib.Check c v = false := by
  constructor
  · intro h tag htag v hv
    by_contra hck
    have : v ∈ compatibles lib c versions :=
      (mem_compatibles lib c versions v).mpr ⟨tag, htag, hv, by simpa using hck⟩
    rw [h] at this
    simp at this
  · intro h
    rw [List.eq_nil_iff_forall_not_mem]
    intro v hv
    obtain ⟨tag, htag, hp, hck⟩ := (mem_compatibles lib c versions v).mp hv
    rw [h tag htag v hp] at hck
    simp at hck

theorem compatibles_filter {C V : Type} (lib : SemverLib C V) (c : C)
    (versions : List String) :
    compatibles lib c (versions.filter (isCompatible lib c)) = compatibles lib c versions := by
  induction versions with
  | nil => rfl
  | cons tag rest ih =>
    unfold compatibles at ih ⊢
    cases hv : lib.NewVersion tag with
    | error e =>
      rw [List.filter_cons_of_neg (by simp [isCompatible, hv]), List.filterMap_cons, ih]
      simp [hv]
    | ok v =>
      by_cases hck : lib.Check c v = true
      · rw [List.filter_cons_of_pos (by simp [isCompatible, hv, hck]), List.filterMap_cons,
          List.filterMap_cons, ih]
      · rw [List.filter_cons_of_neg (by simp [isCompatible, hv, hck]), List.filterMap_cons, ih]
        simp [hv, hck]

theorem Resolve_of_constraint {C V : Type} (lib : SemverLib C V) (constraint : String)
    (versions : List String) (c : C) (hc : lib.NewConstraint constraint = .ok c) :
    Resolve lib constraint versions =
      match lib.SortSlice (fun a b => lib.LessThan b a) (compatibles lib c versions) with
      | [] => constraint
      | v :: _ => lib.Original v := by
  unfold Resolve
  rw [hc]

/-- Claim C15. When the constraint does not parse, `Resolve` returns it unchanged,
whatever the candidates. -/
theorem Resolve_unparsed_constraint {C V : Type} (lib : SemverLib C V)
    (constraint : String) (versions : List String) (e : Err)
    (h : lib.NewConstraint constraint = .error e) :
    Resolve lib constraint versions = constraint := by
  unfold Resolve
  rw [h]

theorem Resolve_unparsed_constraint_witness :
    semverLib.NewConstraint "latest" = .error "improper constraint: latest" ∧
    Resolve semverLib "latest" ["1.0", "2.0"] = "latest" :=
  ⟨rfl,
    Resolve_unparsed_constraint semverLib "latest" ["1.0", "2.0"] "improper constraint: latest"
      rfl⟩

/-- The test case of an unparseable constraint, and the tag `latest`. -/
theorem Resolve_unparsed_run :
    Resolve semverLib "@" [] = "@" ∧ Resolve semverLib "latest" [] = "latest" := by
  decide

/-- Claim C16. When the constraint parses and no candidate both parses and satisfies
it, `Resolve` returns the constraint string unchanged, provided `sort.Sort` leaves the
empty slice a rearrangement of itself. -/
theorem Resolve_no_compatible {C V : Type} (lib : SemverLib C V) (constraint : String)
    (versions : List String) (c : C)
    (hc : lib.NewConstraint constraint = .ok c)
    (hnone : ∀ tag ∈ versions, ∀ v, lib.NewVersion tag = .ok v → lib.Check c v = false)
    (hsort : SortsSlice lib (compatibles lib c versions)) :
    Resolve lib constraint versions = constraint := by
  have hnil := (compatibles_eq_nil_iff lib c versions).mpr hnone
  rw [Resolve_of_constraint lib constraint versions c hc]
  have hperm := hsort.1
  rw [hnil] at hperm ⊢
  rw [List.Perm.eq_nil hperm]

theorem insertFromBack_perm {α : Type} (less : α → α → Bool) (x : α) (sorted : List α) :
    (semver.insertFromBack less x sorted).Perm (x :: sorted) := by
  unfold semver.insertFromBack
  have h : (sorted.reverse.dropWhile (less x)).reverse ++
      (sorted.reverse.takeWhile (less x)).reverse = sorted := by
    rw [← List.reverse_append, List.takeWhile_append_dropWhile, List.reverse_reverse]
  refine List.perm_middle.trans ?_
  rw [h]

theorem insertionSort_perm {α : Type} (less : α → α → Bool) (l : List α) :
    (semver.insertionSort less l).Perm l := by
  have h : ∀ (l acc : List α),
      (l.foldl (fun sorted x => semver.insertFromBack less x sorted) acc).Perm (acc ++ l) := by
    intro l
    induction l with
    | nil => intro acc; simp
    | cons x rest ih =>
      intro acc
      rw [List.foldl_cons]
      refine (ih _).trans ?_
      refine ((insertFromBack_perm less x acc).append_right rest).trans ?_
      have hmid : (x :: (acc ++ rest)).Perm (acc ++ x :: rest) := List.perm_middle.symm
      simpa using hmid
  simpa [semver.insertionSort] using h l []

theorem Resolve_no_compatible_witness :
    semverLib.NewConstraint "^0.5.0" = .ok caret050 ∧
    (∀ tag ∈ oldTags, ∀ v, semverLib.NewVersion tag = .ok v →
      semverLib.Check caret050 v = false) ∧
    SortsSlice semverLib (compatibles semverLib caret050 oldTags) ∧
    Resolve semverLib "^0.5.0" oldTags = "^0.5.0" :=
  ⟨rfl,
    (compatibles_eq_nil_iff semverLib caret050 oldTags).mp (by decide),
    ⟨insertionSort_perm _ _, by decide⟩,
    Resolve_no_compatible semverLib "^0.5.0" oldTags caret050 rfl
      ((compatibles_eq_nil_iff semverLib caret050 oldTags).mp (by decide))
      ⟨insertionSort_perm _ _, by decide⟩⟩

/-- Claim C14. When the constraint parses, some candidate parses and satisfies it, and
`sort.Sort` has sorted the satisfying versions, `Resolve` returns the original string of
a candidate that parses and satisfies the constraint and whose version is not
`LessThan` the version of any candidate that parses and satisfies it; and the result is
the same as on the list of the parsing and satisfying candidates alone. -/
theorem Resolve_highest {C V : Type} (lib : SemverLib C V) (constraint : String)
    (versions : List String) (c : C)
    (hc : lib.NewConstraint constraint = .ok c)
    (hex : ∃ tag ∈ versions, ∃ v, lib.NewVersion tag = .ok v ∧ lib.Check c v = true)
    (hsort : SortsSlice lib (compatibles lib c versions))
    (hirr : ∀ v ∈ compatibles lib c versions, lib.LessThan v v = false) :
    (∃ tag ∈ versions, ∃ v, lib.NewVersion tag = .ok v ∧ lib.Check c v = true ∧
      Resolve lib constraint versions = lib.Original v ∧
      ∀ other ∈ versions, ∀ u, lib.NewVersion other = .ok u → lib.Check c u = true →
        lib.LessThan v u = false) ∧
    Resolve lib constraint versions =
      Resolve lib constraint (versions.filter (isCompatible lib c)) := by
  refine ⟨?_, ?_⟩
  · obtain ⟨tag0, htag0, v0, hv0, hck0⟩ := hex
    have hmem0 : v0 ∈ compatibles lib c versions :=
      (mem_compatibles lib c versions v0).mpr ⟨tag0, htag0, hv0, hck0⟩
    obtain ⟨hperm, hpair⟩ := hsort
    rw [Resolve_of_constraint lib constraint versions c hc]
    cases hs : lib.SortSlice (fun a b => lib.LessThan b a) (compatibles lib c versions) with
    | nil =>
      rw [hs] at hperm
      rw [hperm.symm.eq_nil] at hmem0
      simp at hmem0
    | cons v rest =>
      rw [hs] at hperm hpair
      have hv : v ∈ compatibles lib c versions := hperm.subset (List.mem_cons_self _ _)
      obtain ⟨tag, htag, hp, hck⟩ := (mem_compatibles lib c versions v).mp hv
      refine ⟨tag, htag, v, hp, hck, rfl, ?_⟩
      intro other hother u hu hcu
      have hu' : u ∈ v :: rest :=
        hperm.symm.subset ((mem_compatibles lib c versions u).mpr ⟨other, hother, hu, hcu⟩)
      rcases List.mem_cons.mp hu' with rfl | hin
      · exact hirr _ hv
      · exact (List.pairwise_cons.mp hpair).1 u hin
  · rw [Resolve_of_constraint lib constraint versions c hc,
      Resolve_of_constraint lib constraint _ c hc, compatibles_filter]

theorem Resolve_highest_witness :
    semverLib.NewConstraint "~0.4.0" = .ok tilde040 ∧
    (∃ tag ∈ patchTags, ∃ v, semverLib.NewVersion tag = .ok v ∧
      semverLib.Check tilde040 v = true) ∧
    SortsSlice semverLib (compatibles semverLib tilde040 patchTags) ∧
    (∀ v ∈ compatibles semverLib tilde040 patchTags, semverLib.LessThan v v = false) ∧
    (∃ tag ∈ patchTags, ∃ v, semverLib.NewVersion tag = .ok v ∧
      semverLib.Check tilde040 v = true ∧
      Resolve semverLib "~0.4.0" patchTags = semverLib.Original v ∧
      ∀ other ∈ patchTags, ∀ u, semverLib.NewVersion other = .ok u →
        semverLib.Check tilde040 u = true → semverLib.LessThan v u = false) ∧
    Resolve semverLib "~0.4.0" patchTags =
      Resolve semverLib "~0.4.0" (patchTags.filter (isCompatible semverLib tilde040)) :=
  ⟨rfl, ⟨"0.4.0", by decide, ⟨0, 4, 0, "", "", "0.4.0"⟩, rfl, by decide⟩,
    ⟨insertionSort_perm _ _, by decide⟩, by decide,
    Resolve_highest semverLib "~0.4.0" patchTags tilde040 rfl
      ⟨"0.4.0", by decide, ⟨0, 4, 0, "", "", "0.4.0"⟩, rfl, by decide⟩
      ⟨insertionSort_perm _ _, by decide⟩ (by decide)⟩

/-- The input of the statement above has two satisfying candidates, `0.4.0` before
`0.4.1`, which the sort puts in the other order; the higher one is returned. A list with
three satisfying candidates out of order behaves alike. -/
theorem patchTags_tilde_run :
    compatibles semverLib tilde040 patchTags =
      [⟨0, 4, 0, "", "", "0.4.0"⟩, ⟨0, 4, 1, "", "", "0.4.1"⟩] ∧
    semverLib.SortSlice (fun a b => semverLib.LessThan b a)
        (compatibles semverLib tilde040 patchTags) =
      [⟨0, 4, 1, "", "", "0.4.1"⟩, ⟨0, 4, 0, "", "", "0.4.0"⟩] ∧
    semverLib.LessThan ⟨0, 4, 0, "", "", "0.4.0"⟩ ⟨0, 4, 1, "", "", "0.4.1"⟩ = true ∧
    Resolve semverLib "~0.4.0" patchTags = "0.4.1" ∧
    Resolve semverLib "~0.4.0" ["0.4.1", "hello", "0.4.3", "0.4.0-beta", "0.4.2", "0.5.0"] =
      "0.4.3" := by
  decide

/-- Claim C17. With the semantic-version library as modelled, `^0.5.0` resolves to
`0.6` on the tags of the test case and on the three tags of the specification: `0.6`
satisfies the caret constraint although its minor version is higher, and neither `0.1`
nor the pre-release `0.5-beta` satisfies it. -/
theorem Resolve_caret :
    Resolve semverLib "^0.5.0"
      ["hello", "some_version", "0.1", "0.1-beta", "0.5-beta", "0.6"] = "0.6" ∧
    Resolve semverLib "^0.5.0" ["0.1", "0.5-beta", "0.6"] = "0.6" ∧
    isCompatible semverLib caret050 "0.6" = true ∧
    isCompatible semverLib caret050 "0.5-beta" = false ∧
    isCompatible semverLib caret050 "0.1" = false ∧
    isCompatible semverLib caret050 "hello" = false ∧
    semverLib.NewConstraint "^0.5.0" = .ok caret050 := by
  refine ⟨by decide, by decide, by decide, by decide, by decide, by decide, rfl⟩

/-- Claim C18. With the semantic-version library as modelled, on the tags `0.4.0`,
`0.4.0-beta`, `0.4.1` and `0.5-beta` (with or without the unparseable tags of the test
case) `~0.4.0` resolves to `0.4.1` and the exact constraint `0.4.0` to `0.4.0`. -/
theorem Resolve_tilde_and_exact :
    Resolve semverLib "~0.4.0" ["0.4.0", "0.4.0-beta", "0.4.1", "0.5-beta"] = "0.4.1" ∧
    Resolve semverLib "0.4.0" ["0.4.0", "0.4.0-beta", "0.4.1", "0.5-beta"] = "0.4.0" ∧
    Resolve semverLib "~0.4.0" patchTags = "0.4.1" ∧
    Resolve semverLib "0.4.0" patchTags = "0.4.0" ∧
    compatibles semverLib [[⟨.tilde, ⟨0, 4, 0, "", "", "0.4.0"⟩⟩]] patchTags =
      [⟨0, 4, 0, "", "", "0.4.0"⟩, ⟨0, 4, 1, "", "", "0.4.1"⟩] ∧
    compatibles semverLib [[⟨.eq, ⟨0, 4, 0, "", "", "0.4.0"⟩⟩]] patchTags =
      [⟨0, 4, 0, "", "", "0.4.0"⟩] := by
  refine ⟨by decide, by decide, by decide, by decide, by decide, by decide⟩

/-! ## `Resolve` and the order of the candidates -/

/-- Counterexample to claim C19. `1.0` and `1.0.0` denote the same version and both
satisfy `>=1.0.0`; the sorted slice keeps them in the order of the candidates, so
`Resolve` returns the one that comes first in the list. The same happens for two tags
that differ in build metadata only. -/
theorem Resolve_permutation_counterexample :
    List.Perm ["1.0", "1.0.0"] ["1.0.0", "1.0"] ∧
    SortsSlice semverLib (compatibles semverLib atLeast100 ["1.0", "1.0.0"]) ∧
    SortsSlice semverLib (compatibles semverLib atLeast100 ["1.0.0", "1.0"]) ∧
    Resolve semverLib ">=1.0.0" ["1.0", "1.0.0"] = "1.0" ∧
    Resolve semverLib ">=1.0.0" ["1.0.0", "1.0"] = "1.0.0" ∧
    Resolve semverLib ">=1.0.0" ["1.0.0+a", "1.0.0+b"] = "1.0.0+a" ∧
    Resolve semverLib ">=1.0.0" ["1.0.0+b", "1.0.0+a"] = "1.0.0+b" :=
  ⟨List.Perm.swap _ _ _, ⟨insertionSort_perm _ _, by decide⟩,
    ⟨insertionSort_perm _ _, by decide⟩, by decide, by decide, by decide, by decide⟩

theorem compatibles_perm {C V : Type} (lib : SemverLib C V) (c : C) (l₁ l₂ : List String)
    (h : l₁.Perm l₂) : (compatibles lib c l₁).Perm (compatibles lib c l₂) :=
  List.Perm.filterMap _ h

/-- Claim C19, amended. For two candidate lists that are permutations of one another,
`Resolve` returns the same string, provided `sort.Sort` has sorted the satisfying
versions of both and no two satisfying candidates that are equal in precedence (neither
`LessThan` the other) have different original strings. -/
theorem Resolve_perm {C V : Type} (lib : SemverLib C V) (constraint : String)
    (l₁ l₂ : List String) (hperm : l₁.Perm l₂)
    (h : ∀ c, lib.NewConstraint constraint = .ok c →
      SortsSlice lib (compatibles lib c l₁) ∧ SortsSlice lib (compatibles lib c l₂) ∧
      ∀ u ∈ compatibles lib c l₁, ∀ v ∈ compatibles lib c l₁,
        lib.LessThan u v = false → lib.LessThan v u = false →
        lib.Original u = lib.Original v) :
    Resolve lib constraint l₁ = Resolve lib constraint l₂ := by
  cases hc : lib.NewConstraint constraint with
  | error e =>
    unfold Resolve
    rw [hc]
  | ok c =>
    obtain ⟨⟨hp1, hs1⟩, ⟨hp2, hs2⟩, htie⟩ := h c hc
    rw [Resolve_of_constraint lib constraint l₁ c hc,
      Resolve_of_constraint lib constraint l₂ c hc]
    have hcomp := compatibles_perm lib c l₁ l₂ hperm
    have h12 : (lib.SortSlice (fun a b => lib.LessThan b a) (compatibles lib c l₁)).Perm
        (lib.SortSlice (fun a b => lib.LessThan b a) (compatibles lib c l₂)) :=
      hp1.trans (hcomp.trans hp2.symm)
    cases hs : lib.SortSlice (fun a b => lib.LessThan b a) (compatibles lib c l₁) with
    | nil =>
      rw [hs] at h12
      rw [h12.symm.eq_nil]
    | cons v₁ r₁ =>
      cases ht : lib.SortSlice (fun a b => lib.LessThan b a) (compatibles lib c l₂) with
      | nil =>
        rw [hs, ht] at h12
        exact absurd h12.eq_nil (by simp)
      | cons v₂ r₂ =>
        rw [hs] at hp1 hs1 h12
        rw [ht] at hs2 h12
        show lib.Original v₁ = lib.Original v₂
        have hv1 : v₁ ∈ compatibles lib c l₁ := hp1.subset (List.mem_cons_self _ _)
        have hv2 : v₂ ∈ compatibles lib c l₁ :=
          hp1.subset (h12.symm.subset (List.mem_cons_self _ _))
        have h21 : v₂ ∈ v₁ :: r₁ := h12.symm.subset (List.mem_cons_self _ _)
        have h12' : v₁ ∈ v₂ :: r₂ := h12.subset (List.mem_cons_self _ _)
        rcases List.mem_cons.mp h21 with heq | hin
        · rw [heq]
        · rcases List.mem_cons.mp h12' with heq | hin'
          · rw [heq]
          · exact htie v₁ hv1 v₂ hv2 ((List.pairwise_cons.mp hs1).1 v₂ hin)
              ((List.pairwise_cons.mp hs2).1 v₁ hin')

theorem Resolve_perm_witness :
    List.Perm ["1.0.0", "1.1.0", "hello"] ["1.1.0", "1.0.0", "hello"] ∧
    (∀ c, semverLib.NewConstraint ">=1.0.0" = .ok c →
      SortsSlice semverLib (compatibles semverLib c ["1.0.0", "1.1.0", "hello"]) ∧
      SortsSlice semverLib (compatibles semverLib c ["1.1.0", "1.0.0", "hello"]) ∧
      ∀ u ∈ compatibles semverLib c ["1.0.0", "1.1.0", "hello"],
        ∀ v ∈ compatibles semverLib c ["1.0.0", "1.1.0", "hello"],
        semverLib.LessThan u v = false → semverLib.LessThan v u = false →
        semverLib.Original u = semverLib.Original v) ∧
    Resolve semverLib ">=1.0.0" ["1.0.0", "1.1.0", "hello"] =
      Resolve semverLib ">=1.0.0" ["1.1.0", "1.0.0", "hello"] :=
  have hyp : ∀ c, semverLib.NewConstraint ">=1.0.0" = .ok c →
      SortsSlice semverLib (compatibles semverLib c ["1.0.0", "1.1.0", "hello"]) ∧
      SortsSlice semverLib (compatibles semverLib c ["1.1.0", "1.0.0", "hello"]) ∧
      ∀ u ∈ compatibles semverLib c ["1.0.0", "1.1.0", "hello"],
        ∀ v ∈ compatibles semverLib c ["1.0.0", "1.1.0", "hello"],
        semverLib.LessThan u v = false → semverLib.LessThan v u = false →
        semverLib.Original u = semverLib.Original v := by
    intro c hc
    have hceq : atLeast100 = c :=
      Except.ok.inj ((show semverLib.NewConstraint ">=1.0.0" = .ok atLeast100 from rfl).symm.trans hc)
    subst hceq
    exact ⟨⟨insertionSort_perm _ _, by decide⟩, ⟨insertionSort_perm _ _, by decide⟩, by decide⟩
  ⟨List.Perm.swap _ _ _, hyp,
    Resolve_perm semverLib ">=1.0.0" ["1.0.0", "1.1.0", "hello"] ["1.1.0", "1.0.0", "hello"]
      (List.Perm.swap _ _ _) hyp⟩

/-! ## The namespace of the lookups -/

theorem lookupKey_of_not_isGet (l : List Entry) (h : ∀ e ∈ l, e.event.isGet = false) :
    l.filterMap (fun e => e.event.lookupKey) = [] := by
  rw [List.filterMap_eq_nil_iff]
  intro e he
  have := h e he
  cases hev : e.event <;> simp [hev, Event.isGet] at this ⊢ <;> rfl

/-- The lookups of `processPodSpec`: those of the pull-secret references, in order, once
for each of the two container classes, in the namespace given (`default` when empty). -/
theorem processPodSpec_lookup_keys {σ : Type} (lib : Lib) (w : Wrapper σ) (podSpec : PodSpec)
    (specPath ns : String) (s : σ) :
    (processPodSpec lib w podSpec specPath ns s).log.filterMap (fun e => e.event.lookupKey) =
      podSpec.ImagePullSecrets.map (fun ref => (if ns = "" then "default" else ns, ref.Name)) ++
      podSpec.ImagePullSecrets.map (fun ref => (if ns = "" then "default" else ns, ref.Name)) := by
  rw [processPodSpec_eq]
  simp only [List.filterMap_append, List.filterMap_map, List.filterMap_nil, List.append_nil]
  rw [lookupKey_of_not_isGet _ (containerLoop_no_lookup lib w specPath _ _ _ _ _ _),
    lookupKey_of_not_isGet _ (containerLoop_no_lookup lib w specPath _ _ _ _ _ _)]
  have h1 := pullSecretLoop_keys w (if ns = "" then "default" else ns)
    podSpec.ImagePullSecrets [] s
  have h2 := pullSecretLoop_keys w (if ns = "" then "default" else ns)
    podSpec.ImagePullSecrets []
    (containerLoop lib w specPath "initContainers"
      (GetImagePullSecrets w podSpec.ImagePullSecrets ns s).secrets 0
      podSpec.InitContainers [] (GetImagePullSecrets w podSpec.ImagePullSecrets ns s).state).2.1
  simp only [List.nil_append, List.append_nil]
  exact congrArg₂ (· ++ ·) h1 h2

/-- Claim C21. Every lookup of `GetImagePullSecrets` is made in the namespace `default`
when the given namespace is empty and in the given namespace otherwise; and the lookups
of `GetPatches` are made in the namespace so derived from the `metadata.namespace` of
the decoded object. -/
theorem GetImagePullSecrets_namespace {σ : Type} (lib : Lib) (w : Wrapper σ) :
    (∀ (refs : List LocalObjectReference) (ns : String) (s : σ),
      (GetImagePullSecrets w refs ns s).log.filterMap Event.lookupKey =
        refs.map (fun ref => (if ns = "" then "default" else ns, ref.Name))) ∧
    (∀ (ar : AdmissionRequest) (s : σ) (pod : Pod), ar.Kind.Kind = "Pod" →
      lib.unmarshalPod ar.Object.Raw = .ok pod →
      ∀ k ∈ (GetPatches lib w ar s).log.filterMap (fun e => e.event.lookupKey),
        k.1 = if pod.Namespace = "" then "default" else pod.Namespace) ∧
    (∀ (ar : AdmissionRequest) (s : σ) (t : templateKind),
      ar.Kind.Kind ∈ ["ReplicationController", "Job", "ReplicaSet", "Deployment",
        "StatefulSet", "DaemonSet"] →
      lib.unmarshalTemplateKind ar.Object.Raw = .ok t →
      ∀ k ∈ (GetPatches lib w ar s).log.filterMap (fun e => e.event.lookupKey),
        k.1 = if t.Namespace = "" then "default" else t.Namespace) ∧
    (∀ (ar : AdmissionRequest) (s : σ) (cj : CronJob), ar.Kind.Kind = "CronJob" →
      lib.unmarshalCronJob ar.Object.Raw = .ok cj →
      ∀ k ∈ (GetPatches lib w ar s).log.filterMap (fun e => e.event.lookupKey),
        k.1 = if cj.Namespace = "" then "default" else cj.Namespace) := by
  have hkeys : ∀ (podSpec : PodSpec) (specPath ns : String) (s : σ),
      ∀ k ∈ (processPodSpec lib w podSpec specPath ns s).log.filterMap
        (fun e => e.event.lookupKey), k.1 = if ns = "" then "default" else ns := by
    intro podSpec specPath ns s k hk
    rw [processPodSpec_lookup_keys] at hk
    simp only [List.mem_append, List.mem_map, or_self] at hk
    obtain ⟨ref, _, rfl⟩ := hk
    rfl
  refine ⟨fun refs ns s => pullSecretLoop_keys w _ refs [] s, ?_, ?_, ?_⟩
  · intro ar s pod hk hd
    have heq : GetPatches lib w ar s =
        processPodSpec lib w pod.Spec podSpecPath pod.Namespace s := by
      simp [GetPatches, hk, hd]
    rw [heq]
    exact hkeys _ _ _ _
  · intro ar s t hk hd
    have hne : ar.Kind.Kind ≠ "Pod" := by
      intro h
      rw [h] at hk
      revert hk
      decide
    have hk' : ar.Kind.Kind ∈ templateKinds := hk
    have heq : GetPatches lib w ar s =
        processPodSpec lib w t.Spec.Template.Spec templateSpecPath t.Namespace s := by
      unfold GetPatches
      rw [if_neg hne, if_pos hk', hd]
    rw [heq]
    exact hkeys _ _ _ _
  · intro ar s cj hk hd
    have hne : ar.Kind.Kind ≠ "Pod" := by rw [hk]; decide
    have hnt : ar.Kind.Kind ∉ templateKinds := by rw [hk]; decide
    have heq : GetPatches lib w ar s =
        processPodSpec lib w cj.Spec.JobTemplate.Spec.Template.Spec cronJobSpecPath
          cj.Namespace s := by
      unfold GetPatches
      rw [if_neg hne, if_neg hnt, if_pos hk, hd]
    rw [heq]
    exact hkeys _ _ _ _

theorem GetImagePullSecrets_namespace_witness :
    ("Pod" = "Pod") ∧
    teamLib.unmarshalPod "pod" = .ok ⟨"mynamespace", privatePodSpec⟩ ∧
    ∀ k ∈ (GetPatches teamLib openWrapper ⟨"uid", ⟨"Pod"⟩, ⟨"pod"⟩⟩ ()).log.filterMap
        (fun e => e.event.lookupKey),
      k.1 = if "mynamespace" = "" then "default" else "mynamespace" :=
  ⟨rfl, rfl,
    (GetImagePullSecrets_namespace teamLib openWrapper).2.1
      ⟨"uid", ⟨"Pod"⟩, ⟨"pod"⟩⟩ () ⟨"mynamespace", privatePodSpec⟩ rfl rfl⟩

/-- The lookups of two runs: in the namespace of the pod, and in `default` for a pod
without namespace. -/
theorem namespace_run :
    (GetPatches teamLib openWrapper ⟨"uid", ⟨"Pod"⟩, ⟨"pod"⟩⟩ ()).log.filterMap
      (fun e => e.event.lookupKey) =
      [("mynamespace", "a"), ("mynamespace", "b"), ("mynamespace", "a"),
        ("mynamespace", "b")] ∧
    (GetImagePullSecrets openWrapper [⟨"a"⟩] "" ()).log.filterMap Event.lookupKey =
      [("default", "a")] := by
  decide

/-! ## Distinct paths -/

theorem targetsFrom_sorted (c : String) (cs : List Container) :
    ∀ k, (targetsFrom c k cs).Pairwise (fun a b => a.2.1 < b.2.1) ∧
      ∀ t ∈ targetsFrom c k cs, t.1 = c ∧ k ≤ t.2.1 := by
  induction cs with
  | nil => intro k; simp [targetsFrom_nil]
  | cons ctr rest ih =>
    intro k
    obtain ⟨ih1, ih2⟩ := ih (k + 1)
    rcases hsp : docker.Split ctr.Image with ⟨repo, tag, e⟩
    cases e with
    | none =>
      rw [targetsFrom_cons_ok c k ctr rest repo tag hsp]
      refine ⟨List.pairwise_cons.mpr ⟨?_, ih1⟩, ?_⟩
      · intro t ht
        have := (ih2 t ht).2
        show k < t.2.1
        omega
      · intro t ht
        rcases List.mem_cons.mp ht with rfl | ht
        · exact ⟨rfl, le_refl k⟩
        · exact ⟨(ih2 t ht).1, by have := (ih2 t ht).2; omega⟩
    | some err =>
      rw [targetsFrom_cons_malformed c k ctr rest (by rw [hsp]; simp)]
      exact ⟨ih1, fun t ht => ⟨(ih2 t ht).1, by have := (ih2 t ht).2; omega⟩⟩

theorem targets_paths_nodup (podSpec : PodSpec) (specPath : String) :
    ((targets podSpec).map (fun t => imagePath specPath t.1 t.2.1)).Nodup := by
  have h1 := targetsFrom_sorted "initContainers" podSpec.InitContainers 0
  have h2 := targetsFrom_sorted "containers" podSpec.Containers 0
  unfold List.Nodup
  rw [List.pairwise_map]
  unfold targets
  rw [List.pairwise_append]
  refine ⟨?_, ?_, ?_⟩
  · refine List.Pairwise.imp_of_mem ?_ h1.1
    intro a b ha hb hlt heq
    have := (imagePath_injective specPath a.1 b.1 a.2.1 b.2.1
      (Or.inl (h1.2 a ha).1) (Or.inl (h1.2 b hb).1) heq).2
    omega
  · refine List.Pairwise.imp_of_mem ?_ h2.1
    intro a b ha hb hlt heq
    have := (imagePath_injective specPath a.1 b.1 a.2.1 b.2.1
      (Or.inr (h2.2 a ha).1) (Or.inr (h2.2 b hb).1) heq).2
    omega
  · intro a ha b hb heq
    have := (imagePath_injective specPath a.1 b.1 a.2.1 b.2.1
      (Or.inl (h1.2 a ha).1) (Or.inr (h2.2 b hb).1) heq).1
    rw [(h1.2 a ha).1, (h2.2 b hb).1] at this
    revert this
    decide

theorem paths_of_forall₂ {σ : Type} (w : Wrapper σ) (specPath : String)
    (ts : List (String × Nat × String × String)) (ps : List JSONPatch)
    (h : List.Forall₂ (IsPatchOf w specPath) ts ps) :
    ps.map (fun p => p.Path) = ts.map (fun t => imagePath specPath t.1 t.2.1) := by
  induction h with
  | nil => rfl
  | cons hab _ ih =>
    obtain ⟨tags, rfl⟩ := hab
    simp only [List.map_cons, ih]
    rfl

theorem processPodSpec_paths_nodup {σ : Type} (lib : Lib) (w : Wrapper σ) (podSpec : PodSpec)
    (specPath ns : String) (s : σ) :
    ((processPodSpec lib w podSpec specPath ns s).patches.map (fun p => p.Path)).Nodup := by
  rw [paths_of_forall₂ w specPath _ _ (processPodSpec_forall₂ lib w podSpec specPath ns s)]
  exact targets_paths_nodup podSpec specPath

/-- The result of `GetPatches` is empty or is the result of `processPodSpec` on some pod
spec. -/
theorem GetPatches_cases {σ : Type} (lib : Lib) (w : Wrapper σ) (ar : AdmissionRequest)
    (s : σ) :
    (GetPatches lib w ar s).patches = [] ∨
    ∃ podSpec specPath ns, GetPatches lib w ar s = processPodSpec lib w podSpec specPath ns s := by
  unfold GetPatches
  split
  · split
    · exact Or.inl rfl
    · exact Or.inr ⟨_, _, _, rfl⟩
  · split
    · split
      · exact Or.inl rfl
      · exact Or.inr ⟨_, _, _, rfl⟩
    · split
      · split
        · exact Or.inl rfl
        · exact Or.inr ⟨_, _, _, rfl⟩
      · exact Or.inl rfl

theorem applyPatches_perm (doc : Document) (ps qs : List JSONPatch) (hperm : ps.Perm qs)
    (hnodup : (ps.map (fun p => p.Path)).Nodup) :
    applyPatches doc ps = applyPatches doc qs := by
  unfold applyPatches
  refine List.Perm.foldl_eq' hperm ?_ doc
  intro x hx y hy z
  by_cases hxy : x.Path = y.Path
  · have : x = y := List.inj_on_of_nodup_map hnodup hx hy hxy
    rw [this]
  · funext path
    unfold applyReplace
    by_cases h1 : path = y.Path
    · have h2 : ¬ y.Path = x.Path := fun h => hxy h.symm
      simp [h1, h2]
    · simp [h1]

/-- Claim C26. In every list returned by `GetPatches` no two patches have the same path;
hence applying the patches in any order, as `replace` operations on the values found at
the paths, gives the same document. -/
theorem GetPatches_paths_nodup {σ : Type} (lib : Lib) (w : Wrapper σ)
    (ar : AdmissionRequest) (s : σ) :
    ((GetPatches lib w ar s).patches.map (fun p => p.Path)).Nodup ∧
    ∀ (doc : Document) (reordered : List JSONPatch),
      (GetPatches lib w ar s).patches.Perm reordered →
      applyPatches doc (GetPatches lib w ar s).patches = applyPatches doc reordered := by
  have hnodup : ((GetPatches lib w ar s).patches.map (fun p => p.Path)).Nodup := by
    rcases GetPatches_cases lib w ar s with h | ⟨podSpec, specPath, ns, h⟩
    · rw [h]
      exact List.nodup_nil
    · rw [h]
      exact processPodSpec_paths_nodup lib w podSpec specPath ns s
  exact ⟨hnodup, fun doc reordered hperm => applyPatches_perm doc _ _ hperm hnodup⟩

theorem GetPatches_paths_nodup_witness :
    (GetPatches busyLib openWrapper ⟨"uid", ⟨"Pod"⟩, ⟨"pod"⟩⟩ ()).patches.Perm
      (GetPatches busyLib openWrapper ⟨"uid", ⟨"Pod"⟩, ⟨"pod"⟩⟩ ()).patches.reverse ∧
    applyPatches (fun _ => none)
        (GetPatches busyLib openWrapper ⟨"uid", ⟨"Pod"⟩, ⟨"pod"⟩⟩ ()).patches =
      applyPatches (fun _ => none)
        (GetPatches busyLib openWrapper ⟨"uid", ⟨"Pod"⟩, ⟨"pod"⟩⟩ ()).patches.reverse :=
  ⟨(List.reverse_perm _).symm,
    (GetPatches_paths_nodup busyLib openWrapper ⟨"uid", ⟨"Pod"⟩, ⟨"pod"⟩⟩ ()).2
      (fun _ => none) _ (List.reverse_perm _).symm⟩

/-- The patches of the run above. -/
theorem busyLib_run :
    (GetPatches busyLib openWrapper ⟨"uid", ⟨"Pod"⟩, ⟨"pod"⟩⟩ ()).patches =
      [⟨"", "replace", "/spec/initContainers/0/image", "busybox:1.0"⟩,
       ⟨"", "replace", "/spec/containers/0/image", "alpine:1.0"⟩,
       ⟨"", "replace", "/spec/containers/1/image", "nginx:1.0"⟩] := by
  decide

/-! ## `ExtractFromDockerSecret` -/

theorem ExtractFromDockerSecret_eq (lib : Lib) (secret : Secret) (image : String) :
    ExtractFromDockerSecret lib secret image =
      match decodedConfig lib secret with
      | .error err => ("", "", some err)
      | .ok registryConfigs => credentialOf lib registryConfigs image := by
  rfl

theorem stringsSplit_join (base tag : String) (hb : ':' ∉ base.toList)
    (ht : ':' ∉ tag.toList) : stringsSplit (base ++ ":" ++ tag) ':' = [base, tag] := by
  have hsplit : splitChars ':' (base ++ ":" ++ tag).toList = [base.toList, tag.toList] := by
    have : (base ++ ":" ++ tag).toList = base.toList ++ ':' :: tag.toList := by
      simp [String.toList, String.data_append]
    rw [this, splitChars_append_sep ':' _ _ hb, splitChars_no_sep ':' _ ht]
  simp only [stringsSplit, hsplit, List.map_cons, List.map_nil]
  rfl

theorem stringsSplit_not_two (b : String) (h : b.toList.count ':' ≠ 1) :
    ∀ u p, stringsSplit b ':' ≠ [u, p] := by
  intro u p heq
  have hlen : 2 = b.toList.count ':' + 1 := by
    rw [← stringsSplit_length b ':', heq]
    rfl
  omega

/-- The credential read from a configuration whose entry for the domain of the image
holds the encoding of `username:password`. -/
theorem credentialOf_ok (lib : Lib) (cfgs : registryConfigs) (image base tag : String)
    (named : Named) (entry : registryAuth) (username password : String)
    (hsplit : docker.Split image = (base, tag, none))
    (hname : lib.ParseNormalizedNamed base = .ok named)
    (hentry : cfgs.Auths.lookup named.domain = some entry)
    (hauth : lib.DecodeString entry.Auth = .ok (username ++ ":" ++ password))
    (hu : ':' ∉ username.toList) (hp : ':' ∉ password.toList) :
    credentialOf lib cfgs image = (username, password, none) := by
  unfold credentialOf
  rw [hsplit]
  simp only [hname, hentry, hauth, stringsSplit_join username password hu hp]

/-- Every error of the second half comes with empty user name and password. -/
theorem credentialOf_error (lib : Lib) (cfgs : registryConfigs) (image : String)
    (h : (credentialOf lib cfgs image).2.2 ≠ none) :
    (credentialOf lib cfgs image).1 = "" ∧ (credentialOf lib cfgs image).2.1 = "" := by
  unfold credentialOf at h ⊢
  rcases hsp : docker.Split image with ⟨base, tag, e⟩
  rw [hsp] at h
  cases e with
  | some err => exact ⟨rfl, rfl⟩
  | none =>
    simp only at h ⊢
    cases hn : lib.ParseNormalizedNamed base with
    | error err => exact ⟨rfl, rfl⟩
    | ok named =>
      rw [hn] at h
      simp only at h ⊢
      cases hl : cfgs.Auths.lookup named.domain with
      | none => exact ⟨rfl, rfl⟩
      | some entry =>
        rw [hl] at h
        simp only at h ⊢
        cases hd : lib.DecodeString entry.Auth with
        | error err => exact ⟨rfl, rfl⟩
        | ok b =>
          rw [hd] at h
          simp only at h ⊢
          split
          · rename_i u p hs
            rw [hs] at h
            simp at h
          · exact ⟨rfl, rfl⟩

/-- Claim C22. For an image that splits into `(base, tag)` and whose normalized name
has domain `D`, and for a user name and a password without `:`, a secret whose entry for
`D` has as `auth` the base64 encoding of `username:password` yields
`(username, password, nil)`, in the nested form under `.dockerconfigjson` and in the
flat form under `.dockercfg`. -/
theorem ExtractFromDockerSecret_roundtrip (lib : Lib) (secret : Secret)
    (image base tag : String) (named : Named) (entry : registryAuth)
    (username password : String)
    (hsplit : docker.Split image = (base, tag, none))
    (hname : lib.ParseNormalizedNamed base = .ok named)
    (hentry :
      (∃ config cfgs, secret.Data.lookup ".dockerconfigjson" = some config ∧
        lib.unmarshalRegistryConfigs config = .ok cfgs ∧
        cfgs.Auths.lookup named.domain = some entry) ∨
      (secret.Data.lookup ".dockerconfigjson" = none ∧
        ∃ config cfg, secret.Data.lookup ".dockercfg" = some config ∧
          lib.unmarshalRegistryConfig config = .ok cfg ∧
          cfg.lookup named.domain = some entry))
    (hauth : lib.DecodeString entry.Auth = .ok (username ++ ":" ++ password))
    (hu : ':' ∉ username.toList) (hp : ':' ∉ password.toList) :
    ExtractFromDockerSecret lib secret image = (username, password, none) := by
  rw [ExtractFromDockerSecret_eq]
  rcases hentry with ⟨config, cfgs, h1, h2, h3⟩ | ⟨h0, config, cfg, h1, h2, h3⟩
  · have hd : decodedConfig lib secret = .ok cfgs := by
      unfold decodedConfig
      rw [show DockerConfigJsonKey = ".dockerconfigjson" from rfl, h1]
      exact h2
    rw [hd]
    exact credentialOf_ok lib cfgs image base tag named entry username password hsplit hname
      h3 hauth hu hp
  · have hd : decodedConfig lib secret = .ok ⟨cfg⟩ := by
      unfold decodedConfig
      rw [show DockerConfigJsonKey = ".dockerconfigjson" from rfl, h0,
        show DockerConfigKey = ".dockercfg" from rfl, h1]
      simp only [h2]
    rw [hd]
    exact credentialOf_ok lib ⟨cfg⟩ image base tag named entry username password hsplit hname
      h3 hauth hu hp

theorem ExtractFromDockerSecret_roundtrip_witness :
    docker.Split "alpine:latest" = ("alpine", "latest", none) ∧
    credLib.ParseNormalizedNamed "alpine" = .ok ⟨"docker.io", "library/alpine"⟩ ∧
    ((∃ config cfgs, (⟨[(".dockercfg", "flat")]⟩ : Secret).Data.lookup ".dockerconfigjson" =
          some config ∧
        credLib.unmarshalRegistryConfigs config = .ok cfgs ∧
        cfgs.Auths.lookup "docker.io" =
          some (⟨"", "", "dGVzdHVzZXI6dGVzdHBhc3M="⟩ : registryAuth)) ∨
      ((⟨[(".dockercfg", "flat")]⟩ : Secret).Data.lookup ".dockerconfigjson" = none ∧
        ∃ config cfg, (⟨[(".dockercfg", "flat")]⟩ : Secret).Data.lookup ".dockercfg" =
            some config ∧
          credLib.unmarshalRegistryConfig config = .ok cfg ∧
          cfg.lookup "docker.io" =
            some (⟨"", "", "dGVzdHVzZXI6dGVzdHBhc3M="⟩ : registryAuth))) ∧
    credLib.DecodeString "dGVzdHVzZXI6dGVzdHBhc3M=" = .ok ("testuser" ++ ":" ++ "testpass") ∧
    ':' ∉ "testuser".toList ∧ ':' ∉ "testpass".toList ∧
    ExtractFromDockerSecret credLib ⟨[(".dockercfg", "flat")]⟩ "alpine:latest" =
      ("testuser", "testpass", none) :=
  ⟨by decide, rfl, Or.inr ⟨by decide, "flat", _, by decide, rfl, by decide⟩, rfl, by decide,
    by decide,
    ExtractFromDockerSecret_roundtrip credLib ⟨[(".dockercfg", "flat")]⟩ "alpine:latest"
      "alpine" "latest" ⟨"docker.io", "library/alpine"⟩ ⟨"", "", "dGVzdHVzZXI6dGVzdHBhc3M="⟩
      "testuser" "testpass" (by decide) rfl
      (Or.inr ⟨by decide, "flat", _, by decide, rfl, by decide⟩) rfl (by decide) (by decide)⟩

/-- The two successful cases of the test of `ExtractFromDockerSecret`, nested and flat
form, for the image `alpine:latest`, whose domain is `docker.io`. -/
theorem credLib_run :
    ExtractFromDockerSecret credLib ⟨[(".dockerconfigjson", "nested")]⟩ "alpine:latest" =
      ("testuser", "testpass", none) ∧
    ExtractFromDockerSecret credLib ⟨[(".dockercfg", "flat")]⟩ "alpine:latest" =
      ("testuser", "testpass", none) ∧
    (normalizedNamed "alpine").domain = "docker.io" := by
  decide

theorem credentialOf_no_entry (lib : Lib) (cfgs : registryConfigs) (image base tag : String)
    (named : Named) (hsplit : docker.Split image = (base, tag, none))
    (hname : lib.ParseNormalizedNamed base = .ok named)
    (hentry : cfgs.Auths.lookup named.domain = none) :
    credentialOf lib cfgs image =
      ("", "", some ("registry domain: " ++ named.domain ++ " does not exist")) := by
  unfold credentialOf
  rw [hsplit]
  simp only [hname, hentry]

theorem credentialOf_bad_encoding (lib : Lib) (cfgs : registryConfigs)
    (image base tag : String) (named : Named) (entry : registryAuth) (e : Err)
    (hsplit : docker.Split image = (base, tag, none))
    (hname : lib.ParseNormalizedNamed base = .ok named)
    (hentry : cfgs.Auths.lookup named.domain = some entry)
    (hauth : lib.DecodeString entry.Auth = .error e) :
    credentialOf lib cfgs image = ("", "", some e) := by
  unfold credentialOf
  rw [hsplit]
  simp only [hname, hentry, hauth]

theorem credentialOf_bad_syntax (lib : Lib) (cfgs : registryConfigs)
    (image base tag : String) (named : Named) (entry : registryAuth) (b : String)
    (hsplit : docker.Split image = (base, tag, none))
    (hname : lib.ParseNormalizedNamed base = .ok named)
    (hentry : cfgs.Auths.lookup named.domain = some entry)
    (hauth : lib.DecodeString entry.Auth = .ok b)
    (hb : b.toList.count ':' ≠ 1) :
    credentialOf lib cfgs image =
      ("", "", some "auth field should equal basic auth syntax") := by
  unfold credentialOf
  rw [hsplit]
  simp only [hname, hentry, hauth]
  split
  · rename_i u p hs
    exact absurd hs (stringsSplit_not_two b hb u p)
  · rfl

/-- Claim C23. Every error of `ExtractFromDockerSecret` comes with an empty user name
and an empty password, and it returns an error (a) when the secret has neither a
`.dockerconfigjson` nor a `.dockercfg` entry, (b) when the decoded configuration has no
entry for the domain of the image, (c) when the `auth` of the entry is not valid base64,
(d) when the decoded `auth` does not have exactly one `:`. -/
theorem ExtractFromDockerSecret_errors (lib : Lib) (secret : Secret) (image : String) :
    ((ExtractFromDockerSecret lib secret image).2.2 ≠ none →
      (ExtractFromDockerSecret lib secret image).1 = "" ∧
      (ExtractFromDockerSecret lib secret image).2.1 = "") ∧
    (secret.Data.lookup ".dockerconfigjson" = none → secret.Data.lookup ".dockercfg" = none →
      ExtractFromDockerSecret lib secret image =
        ("", "", some "no docker config found in secret")) ∧
    (∀ cfgs base tag named, decodedConfig lib secret = .ok cfgs →
      docker.Split image = (base, tag, none) → lib.ParseNormalizedNamed base = .ok named →
      (cfgs.Auths.lookup named.domain = none →
        ExtractFromDockerSecret lib secret image =
          ("", "", some ("registry domain: " ++ named.domain ++ " does not exist"))) ∧
      (∀ entry, cfgs.Auths.lookup named.domain = some entry →
        (∀ e, lib.DecodeString entry.Auth = .error e →
          ExtractFromDockerSecret lib secret image = ("", "", some e)) ∧
        (∀ b, lib.DecodeString entry.Auth = .ok b → b.toList.count ':' ≠ 1 →
          ExtractFromDockerSecret lib secret image =
            ("", "", some "auth field should equal basic auth syntax")))) := by
  refine ⟨?_, ?_, ?_⟩
  · intro h
    rw [ExtractFromDockerSecret_eq] at h ⊢
    cases hd : decodedConfig lib secret with
    | error err => exact ⟨rfl, rfl⟩
    | ok cfgs =>
      rw [hd] at h
      exact credentialOf_error lib cfgs image h
  · intro h1 h2
    have hd : decodedConfig lib secret = .error "no docker config found in secret" := by
      unfold decodedConfig
      rw [show DockerConfigJsonKey = ".dockerconfigjson" from rfl, h1,
        show DockerConfigKey = ".dockercfg" from rfl, h2]
    rw [ExtractFromDockerSecret_eq, hd]
  · intro cfgs base tag named hd hsplit hname
    rw [ExtractFromDockerSecret_eq, hd]
    refine ⟨fun h => credentialOf_no_entry lib cfgs image base tag named hsplit hname h, ?_⟩
    intro entry hentry
    exact ⟨fun e he => credentialOf_bad_encoding lib cfgs image base tag named entry e hsplit
        hname hentry he,
      fun b hb hcount => credentialOf_bad_syntax lib cfgs image base tag named entry b hsplit
        hname hentry hb hcount⟩

theorem ExtractFromDockerSecret_errors_witness :
    (ExtractFromDockerSecret credLib ⟨[(".dockerconfigjson", "nested")]⟩
      "quay.io/alpine:latest").2.2 ≠ none ∧
    (ExtractFromDockerSecret credLib ⟨[(".dockerconfigjson", "nested")]⟩
      "quay.io/alpine:latest").1 = "" ∧
    (ExtractFromDockerSecret credLib ⟨[(".dockerconfigjson", "nested")]⟩
      "quay.io/alpine:latest").2.1 = "" :=
  ⟨by decide,
    (ExtractFromDockerSecret_errors credLib ⟨[(".dockerconfigjson", "nested")]⟩
      "quay.io/alpine:latest").1 (by decide)⟩

/-- The error cases on examples: no docker config in the secret, an image of `quay.io`
against a configuration for `docker.io`, an `auth` that is not base64, a password with
a `:`, an empty `auth`. -/
theorem credLib_error_run :
    ExtractFromDockerSecret credLib ⟨[("notvalidtype", "nested")]⟩ "alpine" =
      ("", "", some "no docker config found in secret") ∧
    ExtractFromDockerSecret credLib ⟨[(".dockerconfigjson", "nested")]⟩
      "quay.io/alpine:latest" = ("", "", some "registry domain: quay.io does not exist") ∧
    ExtractFromDockerSecret credLib ⟨[(".dockerconfigjson", "nested: not base64")]⟩
      "alpine:latest" = ("", "", some "illegal base64 data at input byte 0") ∧
    ExtractFromDockerSecret credLib ⟨[(".dockerconfigjson", "nested: colon in password")]⟩
      "alpine:latest" = ("", "", some "auth field should equal basic auth syntax") ∧
    ExtractFromDockerSecret credLib ⟨[(".dockerconfigjson", "nested: empty auth")]⟩
      "alpine:latest" = ("", "", some "auth field should equal basic auth syntax") := by
  decide

/-! ## Which entry of a secret is read -/

theorem decodedConfig_json (lib : Lib) (secret : Secret) (config : String)
    (h : secret.Data.lookup ".dockerconfigjson" = some config) :
    decodedConfig lib secret = lib.unmarshalRegistryConfigs config := by
  unfold decodedConfig
  rw [show DockerConfigJsonKey = ".dockerconfigjson" from rfl, h]

theorem decodedConfig_dockercfg (lib : Lib) (secret other : Secret)
    (h : secret.Data.lookup ".dockerconfigjson" = none)
    (h' : other.Data.lookup ".dockerconfigjson" = none)
    (hcfg : secret.Data.lookup ".dockercfg" = other.Data.lookup ".dockercfg") :
    decodedConfig lib secret = decodedConfig lib other := by
  unfold decodedConfig
  rw [show DockerConfigJsonKey = ".dockerconfigjson" from rfl, h, h',
    show DockerConfigKey = ".dockercfg" from rfl, hcfg]

theorem credentialOf_auth_only (lib : Lib) (cfgs cfgs' : registryConfigs)
    (image base tag : String) (named : Named) (entry entry' : registryAuth)
    (hsplit : docker.Split image = (base, tag, none))
    (hname : lib.ParseNormalizedNamed base = .ok named)
    (hentry : cfgs.Auths.lookup named.domain = some entry)
    (hentry' : cfgs'.Auths.lookup named.domain = some entry')
    (hauth : entry.Auth = entry'.Auth) :
    credentialOf lib cfgs image = credentialOf lib cfgs' image := by
  unfold credentialOf
  rw [hsplit]
  simp only [hname, hentry, hentry', hauth]

/-- Claim C30. A secret with a `.dockerconfigjson` entry is decoded from that entry
alone: two secrets with the same `.dockerconfigjson` content give the same result
whatever their `.dockercfg`, a malformed content gives its decode error, and a missing
entry for the domain of the image gives an error. Without `.dockerconfigjson` the result
depends on the `.dockercfg` entry alone. In both forms two configurations whose entries
for the domain have the same `auth` give the same result, whatever the `username` and
`password` fields of the entries. -/
theorem ExtractFromDockerSecret_entry_read (lib : Lib) (image : String) :
    (∀ (secret other : Secret) (config : String),
      secret.Data.lookup ".dockerconfigjson" = some config →
      other.Data.lookup ".dockerconfigjson" = some config →
      ExtractFromDockerSecret lib secret image = ExtractFromDockerSecret lib other image) ∧
    (∀ (secret : Secret) (config : String) (e : Err),
      secret.Data.lookup ".dockerconfigjson" = some config →
      lib.unmarshalRegistryConfigs config = .error e →
      ExtractFromDockerSecret lib secret image = ("", "", some e)) ∧
    (∀ (secret : Secret) (config : String) (cfgs : registryConfigs) (base tag : String)
      (named : Named),
      secret.Data.lookup ".dockerconfigjson" = some config →
      lib.unmarshalRegistryConfigs config = .ok cfgs →
      docker.Split image = (base, tag, none) → lib.ParseNormalizedNamed base = .ok named →
      cfgs.Auths.lookup named.domain = none →
      ExtractFromDockerSecret lib secret image =
        ("", "", some ("registry domain: " ++ named.domain ++ " does not exist"))) ∧
    (∀ (secret other : Secret),
      secret.Data.lookup ".dockerconfigjson" = none →
      other.Data.lookup ".dockerconfigjson" = none →
      secret.Data.lookup ".dockercfg" = other.Data.lookup ".dockercfg" →
      ExtractFromDockerSecret lib secret image = ExtractFromDockerSecret lib other image) ∧
    (∀ (secret other : Secret) (cfgs cfgs' : registryConfigs) (base tag : String)
      (named : Named) (entry entry' : registryAuth),
      decodedConfig lib secret = .ok cfgs → decodedConfig lib other = .ok cfgs' →
      docker.Split image = (base, tag, none) → lib.ParseNormalizedNamed base = .ok named →
      cfgs.Auths.lookup named.domain = some entry →
      cfgs'.Auths.lookup named.domain = some entry' →
      entry.Auth = entry'.Auth →
      ExtractFromDockerSecret lib secret image = ExtractFromDockerSecret lib other image) := by
  refine ⟨?_, ?_, ?_, ?_, ?_⟩
  · intro secret other config h1 h2
    rw [ExtractFromDockerSecret_eq, ExtractFromDockerSecret_eq,
      decodedConfig_json lib secret config h1, decodedConfig_json lib other config h2]
  · intro secret config e h1 h2
    rw [ExtractFromDockerSecret_eq, decodedConfig_json lib secret config h1, h2]
  · intro secret config cfgs base tag named h1 h2 hsplit hname hentry
    rw [ExtractFromDockerSecret_eq, decodedConfig_json lib secret config h1, h2]
    exact credentialOf_no_entry lib cfgs image base tag named hsplit hname hentry
  · intro secret other h1 h2 h3
    rw [ExtractFromDockerSecret_eq, ExtractFromDockerSecret_eq,
      decodedConfig_dockercfg lib secret other h1 h2 h3]
  · intro secret other cfgs cfgs' base tag named entry entry' h1 h2 hsplit hname he he' ha
    rw [ExtractFromDockerSecret_eq, ExtractFromDockerSecret_eq, h1, h2]
    exact credentialOf_auth_only lib cfgs cfgs' image base tag named entry entry' hsplit hname
      he he' ha

theorem ExtractFromDockerSecret_entry_read_witness :
    (⟨[(".dockerconfigjson", "garbage"), (".dockercfg", "flat")]⟩ : Secret).Data.lookup
      ".dockerconfigjson" = some "garbage" ∧
    credLib.unmarshalRegistryConfigs "garbage" = .error "unexpected end of JSON input" ∧
    ExtractFromDockerSecret credLib
      ⟨[(".dockerconfigjson", "garbage"), (".dockercfg", "flat")]⟩ "alpine:latest" =
      ("", "", some "unexpected end of JSON input") :=
  ⟨by decide, rfl,
    (ExtractFromDockerSecret_entry_read credLib "alpine:latest").2.1
      ⟨[(".dockerconfigjson", "garbage"), (".dockercfg", "flat")]⟩ "garbage"
      "unexpected end of JSON input" (by decide) rfl⟩

/-- Runs behind the statement above: a valid `.dockercfg` does not rescue a malformed
`.dockerconfigjson` nor one without entry for the domain, and the `username` and
`password` fields of the entry are not what is returned. -/
theorem credLib_entry_run :
    ExtractFromDockerSecret credLib
      ⟨[(".dockerconfigjson", "garbage"), (".dockercfg", "flat")]⟩ "alpine:latest" =
      ("", "", some "unexpected end of JSON input") ∧
    ExtractFromDockerSecret credLib
      ⟨[(".dockerconfigjson", "nested: quay"), (".dockercfg", "flat")]⟩ "alpine:latest" =
      ("", "", some "registry domain: docker.io does not exist") ∧
    ExtractFromDockerSecret credLib ⟨[(".dockerconfigjson", "nested: other fields")]⟩
      "alpine:latest" = ("testuser", "testpass", none) := by
  decide

/-! ## `getRegistryURL` -/

/-- Claim C27. `getRegistryURL` returns the error `missing domain from image name` for
an empty domain; for the domain `docker.io` it returns the URL parsed from
`registry-1.docker.io`, and for every other non-empty domain the URL parsed from the
domain itself, in both cases with the scheme set to `https`; a parse error is
returned as it is. -/
theorem getRegistryURL_spec (urlParse : String → Except Err URL) (ref : Named) :
    (ref.domain = "" →
      docker.getRegistryURL urlParse ref = .error "missing domain from image name") ∧
    (ref.domain = "docker.io" →
      (∀ u, urlParse "registry-1.docker.io" = .ok u →
        docker.getRegistryURL urlParse ref = .ok { u with Scheme := "https" }) ∧
      (∀ e, urlParse "registry-1.docker.io" = .error e →
        docker.getRegistryURL urlParse ref = .error e)) ∧
    (ref.domain ≠ "" → ref.domain ≠ "docker.io" →
      (∀ u, urlParse ref.domain = .ok u →
        docker.getRegistryURL urlParse ref = .ok { u with Scheme := "https" }) ∧
      (∀ e, urlParse ref.domain = .error e →
        docker.getRegistryURL urlParse ref = .error e)) ∧
    (∀ u, docker.getRegistryURL urlParse ref = .ok u → u.Scheme = "https") := by
  refine ⟨?_, ?_, ?_, ?_⟩
  · intro h
    simp [docker.getRegistryURL, h]
  · intro h
    have hne : ref.domain ≠ "" := by rw [h]; decide
    have happ : "registry-1." ++ ref.domain = "registry-1.docker.io" := by rw [h]; decide
    refine ⟨?_, ?_⟩
    · intro u hu
      unfold docker.getRegistryURL
      rw [if_pos hne]
      simp only [h, if_true]
      rw [show "registry-1." ++ "docker.io" = "registry-1.docker.io" from by decide, hu]
    · intro e he
      unfold docker.getRegistryURL
      rw [if_pos hne]
      simp only [h, if_true]
      rw [show "registry-1." ++ "docker.io" = "registry-1.docker.io" from by decide, he]
  · intro hne hnd
    refine ⟨?_, ?_⟩
    · intro u hu
      unfold docker.getRegistryURL
      rw [if_pos hne]
      simp only [hnd, if_false, hu]
    · intro e he
      unfold docker.getRegistryURL
      rw [if_pos hne]
      simp only [hnd, if_false, he]
  · intro u hu
    unfold docker.getRegistryURL at hu
    split at hu
    · simp only at hu
      split at hu
      · simp at hu
      · simp only [Except.ok.injEq] at hu
        rw [← hu]
    · simp at hu

theorem getRegistryURL_spec_witness :
    ((⟨"docker.io", "library/alpine"⟩ : Named).domain = "docker.io") ∧
    pathOnly "registry-1.docker.io" = .ok ⟨"", "", "registry-1.docker.io"⟩ ∧
    docker.getRegistryURL pathOnly ⟨"docker.io", "library/alpine"⟩ =
      .ok ⟨"https", "", "registry-1.docker.io"⟩ :=
  ⟨rfl, rfl,
    ((getRegistryURL_spec pathOnly ⟨"docker.io", "library/alpine"⟩).2.1 rfl).1
      ⟨"", "", "registry-1.docker.io"⟩ rfl⟩

/-- Runs of `getRegistryURL`: only `docker.io` is rewritten. -/
theorem getRegistryURL_run :
    docker.getRegistryURL pathOnly ⟨"quay.io", "alpine"⟩ = .ok ⟨"https", "", "quay.io"⟩ ∧
    docker.getRegistryURL pathOnly ⟨"index.docker.io", "alpine"⟩ =
      .ok ⟨"https", "", "index.docker.io"⟩ ∧
    docker.getRegistryURL pathOnly ⟨"", "alpine"⟩ =
      .error "missing domain from image name" :=
  ⟨rfl, rfl, rfl⟩

/-! ## `Resolve` returns the constraint or a candidate -/

/-- Claim C28. The string returned by `Resolve` is the constraint or an element of the
candidate list, given that the library keeps as original string of a version the string
it was parsed from and that `sort.Sort` rearranges the slice it is given. -/
theorem Resolve_mem {C V : Type} (lib : SemverLib C V) (constraint : String)
    (versions : List String)
    (horig : ∀ tag ∈ versions, ∀ v, lib.NewVersion tag = .ok v → lib.Original v = tag)
    (hsort : ∀ c, lib.NewConstraint constraint = .ok c →
      (lib.SortSlice (fun a b => lib.LessThan b a) (compatibles lib c versions)).Perm
        (compatibles lib c versions)) :
    Resolve lib constraint versions = constraint ∨
    Resolve lib constraint versions ∈ versions := by
  cases hc : lib.NewConstraint constraint with
  | error e =>
    left
    unfold Resolve
    rw [hc]
  | ok c =>
    rw [Resolve_of_constraint lib constraint versions c hc]
    have hperm := hsort c hc
    cases hs : lib.SortSlice (fun a b => lib.LessThan b a) (compatibles lib c versions) with
    | nil => exact Or.inl rfl
    | cons v rest =>
      right
      rw [hs] at hperm
      have hv : v ∈ compatibles lib c versions := hperm.subset (List.mem_cons_self _ _)
      obtain ⟨tag, htag, hp, _⟩ := (mem_compatibles lib c versions v).mp hv
      show lib.Original v ∈ versions
      rw [horig tag htag v hp]
      exact htag

theorem semverLib_original (tag : String) (v : semver.Version)
    (h : semverLib.NewVersion tag = .ok v) : semverLib.Original v = tag := by
  have h' : semver.NewVersion tag = .ok v := h
  unfold semver.NewVersion at h'
  simp only at h'
  split at h'
  · split at h'
    · simp only [Except.ok.injEq] at h'
      rw [← h']
      rfl
    · simp only [Except.ok.injEq] at h'
      rw [← h']
      rfl
    · simp only [Except.ok.injEq] at h'
      rw [← h']
      rfl
    · simp at h'
  · simp at h'

theorem Resolve_mem_witness :
    (∀ tag ∈ newTags, ∀ v, semverLib.NewVersion tag = .ok v → semverLib.Original v = tag) ∧
    (∀ c, semverLib.NewConstraint "^0.5.0" = .ok c →
      (semverLib.SortSlice (fun a b => semverLib.LessThan b a)
        (compatibles semverLib c newTags)).Perm (compatibles semverLib c newTags)) ∧
    (Resolve semverLib "^0.5.0" newTags = "^0.5.0" ∨
      Resolve semverLib "^0.5.0" newTags ∈ newTags) :=
  ⟨fun tag _ v h => semverLib_original tag v h, fun _ _ => insertionSort_perm _ _,
    Resolve_mem semverLib "^0.5.0" newTags (fun tag _ v h => semverLib_original tag v h)
      (fun _ _ => insertionSort_perm _ _)⟩

/-! ## An empty tag listing -/

theorem Resolve_nil {C V : Type} (slib : SemverLib C V) (hsort : SortsSlice slib ([] : List V))
    (c : String) : Resolve slib c [] = c := by
  cases hc : slib.NewConstraint c with
  | error e =>
    unfold Resolve
    rw [hc]
  | ok cc =>
    rw [Resolve_of_constraint slib c [] cc hc]
    have hnil : compatibles slib cc [] = [] := rfl
    rw [hnil, List.Perm.eq_nil hsort.1]

/-- Claim C29. With the semantic-version resolver, given that `sort.Sort` leaves the
empty slice empty: `Resolve(c, [])` is `c` for every string `c`; for every image that
splits into `(repo, tag)`, `repo:Resolve(tag, [])` is the image; and a container whose
last tag listing returned the empty list gets a patch whose value is its image. -/
theorem Resolve_empty_listing {C V : Type} (slib : SemverLib C V)
    (hsort : SortsSlice slib ([] : List V)) :
    (∀ c : String, Resolve slib c [] = c) ∧
    (∀ image repo tag : String, docker.Split image = (repo, tag, none) →
      repo ++ ":" ++ Resolve slib tag [] = image) ∧
    (∀ (σ : Type) (lib : Lib) (w : Wrapper σ), w.resolver = Resolve slib →
      ∀ (podSpec : PodSpec) (specPath ns : String) (s : σ) (c : String) (i : Nat)
        (ctr : Container) (repo tag : String),
        containerAt podSpec c i = some ctr →
        docker.Split ctr.Image = (repo, tag, none) →
        lastTagsResult (eventsOf (processPodSpec lib w podSpec specPath ns s).log c i) =
          some [] →
        ({ From := "", Op := "replace",
           Path := specPath ++ "/" ++ c ++ "/" ++ toString i ++ "/image",
           Value := ctr.Image } : JSONPatch) ∈
          (processPodSpec lib w podSpec specPath ns s).patches) := by
  refine ⟨Resolve_nil slib hsort, ?_, ?_⟩
  · intro image repo tag h
    rw [Resolve_nil slib hsort]
    exact (Split_parts image repo tag h).1
  · intro σ lib w hres podSpec specPath ns s c i ctr repo tag hat hsplit hlast
    obtain ⟨tags, h1, h2⟩ :=
      processPodSpec_last_listing lib w podSpec specPath ns s c i ctr repo tag hat hsplit
    rw [hlast] at h1
    simp only [Option.some.injEq] at h1
    subst h1
    have hval : repo ++ ":" ++ w.resolver tag [] = ctr.Image := by
      rw [hres, Resolve_nil slib hsort]
      exact (Split_parts ctr.Image repo tag hsplit).1
    have hpatch : mkPatch specPath c i repo (w.resolver tag []) =
        { From := "", Op := "replace",
          Path := specPath ++ "/" ++ c ++ "/" ++ toString i ++ "/image",
          Value := ctr.Image } := by
      unfold mkPatch
      rw [hval]
    rw [← hpatch]
    exact h2

theorem Resolve_empty_listing_witness :
    SortsSlice semverLib ([] : List semver.Version) ∧
    docker.Split "alpine:^3.0.0" = ("alpine", "^3.0.0", none) ∧
    "alpine" ++ ":" ++ Resolve semverLib "^3.0.0" [] = "alpine:^3.0.0" :=
  ⟨⟨insertionSort_perm _ _, by decide⟩, by decide,
    (Resolve_empty_listing semverLib ⟨insertionSort_perm _ _, by decide⟩).2.1
      "alpine:^3.0.0" "alpine" "^3.0.0" (by decide)⟩

/-- A run with a registry that lists no tag: the patch carries the image unchanged. -/
theorem bareWrapper_run :
    (processPodSpec sampleLib bareWrapper alpinePodSpec "/spec" "" ()).patches =
      [⟨"", "replace", "/spec/containers/0/image", "alpine:latest"⟩] := by
  decide

/-! ## `AdmitHandler` -/

theorem AdmitHandler_of_request {σ : Type} (lib : Lib) (codec : Codec) (w : Wrapper σ)
    (req : HTTPRequest) (s : σ) (ar : AdmissionReview) (request : AdmissionRequest)
    (hpath : req.Path ≠ "/healthz") (hdec : codec.decodeReview req.Body = .ok ar)
    (hreq : ar.Request = some request) :
    AdmitHandler lib codec w req s =
      match (GetPatches lib w request s).err with
      | some err =>
        match codec.marshalReview
          { ar with Response := some ⟨request.UID, false, some ⟨err⟩, "", none⟩ } with
        | .error _ => .wrote 400 "unable to encode response"
            (GetPatches lib w request s).state (GetPatches lib w request s).log
        | .ok resp => .wrote 200 resp
            (GetPatches lib w request s).state (GetPatches lib w request s).log
      | none =>
        match codec.marshalPatches (GetPatches lib w request s).patches with
        | .error _ => .wrote 400 "unable to encode patches"
            (GetPatches lib w request s).state (GetPatches lib w request s).log
        | .ok jsonPatch =>
          match codec.marshalReview
            { ar with
              Response := some ⟨request.UID, true, none, jsonPatch, some "JSONPatch"⟩ } with
          | .error _ => .wrote 400 "unable to encode response"
              (GetPatches lib w request s).state (GetPatches lib w request s).log
          | .ok resp => .wrote 200 resp
              (GetPatches lib w request s).state (GetPatches lib w request s).log := by
  unfold AdmitHandler
  rw [if_neg hpath, hdec]
  simp only [hreq, GetPatchesAt]
  rfl

/-- Claim C24. For a body that decodes to a review with a request, and given that the
patches encode, the handler writes the encoding of the review completed with a response
that has the UID of the request, is allowed exactly when `GetPatches` returned no
error, then has patch type `JSONPatch` and the encoded patches as patch, and otherwise
has the text of the error as message of its result. -/
theorem AdmitHandler_response {σ : Type} (lib : Lib) (codec : Codec) (w : Wrapper σ)
    (req : HTTPRequest) (s : σ) (ar : AdmissionReview) (request : AdmissionRequest)
    (hpath : req.Path ≠ "/healthz") (hdec : codec.decodeReview req.Body = .ok ar)
    (hreq : ar.Request = some request)
    (henc : (GetPatches lib w request s).err = none →
      ∃ jp, codec.marshalPatches (GetPatches lib w request s).patches = .ok jp) :
    ∃ resp : AdmissionResponse,
      resp.UID = request.UID ∧
      (resp.Allowed = true ↔ (GetPatches lib w request s).err = none) ∧
      ((GetPatches lib w request s).err = none →
        resp.PatchType = some "JSONPatch" ∧
        codec.marshalPatches (GetPatches lib w request s).patches = .ok resp.Patch) ∧
      (∀ e, (GetPatches lib w request s).err = some e →
        resp.Allowed = false ∧ resp.Result = some ⟨e⟩) ∧
      AdmitHandler lib codec w req s =
        match codec.marshalReview { ar with Response := some resp } with
        | .error _ => .wrote 400 "unable to encode response"
            (GetPatches lib w request s).state (GetPatches lib w request s).log
        | .ok body => .wrote 200 body
            (GetPatches lib w request s).state (GetPatches lib w request s).log := by
  rw [AdmitHandler_of_request lib codec w req s ar request hpath hdec hreq]
  cases herr : (GetPatches lib w request s).err with
  | some e =>
    refine ⟨⟨request.UID, false, some ⟨e⟩, "", none⟩, rfl, by simp, by simp, ?_, rfl⟩
    intro e' he'
    simp only [Option.some.injEq] at he'
    subst he'
    exact ⟨rfl, rfl⟩
  | none =>
    obtain ⟨jp, hjp⟩ := henc herr
    refine ⟨⟨request.UID, true, none, jp, some "JSONPatch"⟩, rfl, by simp, ?_, by simp, ?_⟩
    · intro _
      exact ⟨rfl, hjp⟩
    · simp only [hjp]

theorem AdmitHandler_response_witness :
    (⟨"/", "review"⟩ : HTTPRequest).Path ≠ "/healthz" ∧
    sampleCodec.decodeReview "review" = .ok ⟨some ⟨"uid-1", ⟨"Pod"⟩, ⟨"pod"⟩⟩, none⟩ ∧
    ((GetPatches sampleLib openWrapper ⟨"uid-1", ⟨"Pod"⟩, ⟨"pod"⟩⟩ ()).err = none →
      ∃ jp, sampleCodec.marshalPatches
        (GetPatches sampleLib openWrapper ⟨"uid-1", ⟨"Pod"⟩, ⟨"pod"⟩⟩ ()).patches = .ok jp) ∧
    ∃ resp : AdmissionResponse,
      resp.UID = "uid-1" ∧
      (resp.Allowed = true ↔
        (GetPatches sampleLib openWrapper ⟨"uid-1", ⟨"Pod"⟩, ⟨"pod"⟩⟩ ()).err = none) ∧
      ((GetPatches sampleLib openWrapper ⟨"uid-1", ⟨"Pod"⟩, ⟨"pod"⟩⟩ ()).err = none →
        resp.PatchType = some "JSONPatch" ∧
        sampleCodec.marshalPatches
          (GetPatches sampleLib openWrapper ⟨"uid-1", ⟨"Pod"⟩, ⟨"pod"⟩⟩ ()).patches =
          .ok resp.Patch) ∧
      (∀ e, (GetPatches sampleLib openWrapper ⟨"uid-1", ⟨"Pod"⟩, ⟨"pod"⟩⟩ ()).err = some e →
        resp.Allowed = false ∧ resp.Result = some ⟨e⟩) ∧
      AdmitHandler sampleLib sampleCodec openWrapper ⟨"/", "review"⟩ () =
        match sampleCodec.marshalReview
          { (⟨some ⟨"uid-1", ⟨"Pod"⟩, ⟨"pod"⟩⟩, none⟩ : AdmissionReview) with
            Response := some resp } with
        | .error _ => .wrote 400 "unable to encode response"
            (GetPatches sampleLib openWrapper ⟨"uid-1", ⟨"Pod"⟩, ⟨"pod"⟩⟩ ()).state
            (GetPatches sampleLib openWrapper ⟨"uid-1", ⟨"Pod"⟩, ⟨"pod"⟩⟩ ()).log
        | .ok body => .wrote 200 body
            (GetPatches sampleLib openWrapper ⟨"uid-1", ⟨"Pod"⟩, ⟨"pod"⟩⟩ ()).state
            (GetPatches sampleLib openWrapper ⟨"uid-1", ⟨"Pod"⟩, ⟨"pod"⟩⟩ ()).log :=
  ⟨by decide, rfl, fun _ => ⟨_, rfl⟩,
    AdmitHandler_response sampleLib sampleCodec openWrapper ⟨"/", "review"⟩ ()
      ⟨some ⟨"uid-1", ⟨"Pod"⟩, ⟨"pod"⟩⟩, none⟩ ⟨"uid-1", ⟨"Pod"⟩, ⟨"pod"⟩⟩ (by decide) rfl rfl
      (fun _ => ⟨_, rfl⟩)⟩

/-- Two runs of the handler: an allow with the patch of the pod, and a deny with the
decode error of the payload. -/
theorem AdmitHandler_run :
    AdmitHandler sampleLib sampleCodec openWrapper ⟨"/", "review"⟩ () =
      .wrote 200
        ("uid:uid-1 allowed:true message: patchType:JSONPatch " ++
          "patch:/spec/containers/0/image=alpine:1.0") ()
        [⟨"containers", some 0, Event.Tags none "alpine" ["1.0"] none⟩,
         ⟨"containers", some 0, Event.Resolve "latest" ["1.0"]⟩] ∧
    AdmitHandler sampleLib sampleCodec openWrapper ⟨"/", "review of a broken pod"⟩ () =
      .wrote 200
        "uid:uid-2 allowed:false message:unexpected end of JSON input patchType: patch:" ()
        [] := by
  refine ⟨?_, ?_⟩ <;> rfl

/-- A body that does not decode gets status 400 and the text `unable to decode body`;
a body that decodes to a review without request makes the handler panic. -/
theorem AdmitHandler_without_request {σ : Type} (lib : Lib) (codec : Codec)
    (w : Wrapper σ) (req : HTTPRequest) (s : σ) (hpath : req.Path ≠ "/healthz") :
    (∀ e, codec.decodeReview req.Body = .error e →
      AdmitHandler lib codec w req s = .wrote 400 "unable to decode body" s []) ∧
    (∀ ar, codec.decodeReview req.Body = .ok ar → ar.Request = none →
      AdmitHandler lib codec w req s =
        .panic "invalid memory address or nil pointer dereference") := by
  refine ⟨?_, ?_⟩
  · intro e he
    unfold AdmitHandler
    rw [if_neg hpath, he]
  · intro ar har hnone
    unfold AdmitHandler
    rw [if_neg hpath, har]
    simp only [hnone, GetPatchesAt]

/-- Claim C25, at the failing input. The body of two braces decodes to a review whose
request is absent; the handler passes the nil request to `GetPatches`, which reads its
kind: the call ends in a nil pointer dereference and no response is written. -/
theorem AdmitHandler_nil_request :
    sampleCodec.decodeReview "\x7b\x7d" = .ok ⟨none, none⟩ ∧
    AdmitHandler sampleLib sampleCodec openWrapper ⟨"/", "\x7b\x7d"⟩ () =
      .panic "invalid memory address or nil pointer dereference" ∧
    AdmitHandler sampleLib sampleCodec openWrapper ⟨"/", "no json"⟩ () =
      .wrote 400 "unable to decode body" () [] :=
  ⟨rfl, rfl, rfl⟩

end Updatey
